import Mathlib

/-!
# APDU / BER-TLV reader: a verification development

Shallow embedding of `tlv.c` (`tlvParseData`, `tlvObjectLookForTag`),
`serial.c` (`sendCommand`, `waitResponse`) and `apdu.c` (`apduSendCommand`,
`apduWaitForResponse`), followed by theorems about them.

Conventions of the embedding:
* a `uint8_t *` is a memory function `Nat → Nat` giving the cell found at each
  offset from the pointer; a byte load is `byteAt`, which reduces the cell
  modulo 256;
* `uint8_t` arithmetic is taken modulo 256, `unsigned int` arithmetic modulo
  `2 ^ 32`;
* a `NULL` pointer result is `none`, and a function whose loops may fail to
  terminate takes a fuel argument and returns an outer `none` when the fuel is
  exhausted;
* `malloc` and `realloc` are taken to succeed; memory obtained from `malloc`
  that the code never writes has no determined content.
-/

namespace APDU

/-! ## Data model (`tlv.h`) -/

/-- A `struct TLVobject`.  The flag `constructed` selects how the array `data`
is read: `prim` is `constructed == false` with `data[0]` the value bytes, `cons`
is `constructed == true` with `data` the array of child pointers, closed by its
`NULL` terminator.  That array is given slot by slot (`none` is a `NULL` slot)
without its final `NULL` terminator.  The third constructor `raw` is
`constructed == true` with an array `data` of one cell that was allocated and
never written: it has no terminator, and the pointer read at `data[0]` is not
determined. -/
inductive TLVobject where
  | prim (tag : Nat) (length : Nat) (oclass : Nat) (value : List Nat)
  | cons (tag : Nat) (length : Nat) (oclass : Nat) (slots : List (Option TLVobject))
  | raw (tag : Nat) (length : Nat) (oclass : Nat)
deriving Repr

namespace TLVobject

mutual
/-- Decidable equality of objects. -/
def decEq : (a b : TLVobject) → Decidable (a = b)
  | .prim t l c v, .prim t' l' c' v' =>
    if h : t = t' ∧ l = l' ∧ c = c' ∧ v = v' then
      isTrue (by obtain ⟨h1, h2, h3, h4⟩ := h; subst h1 h2 h3 h4; rfl)
    else isFalse (by intro e; cases e; exact h ⟨rfl, rfl, rfl, rfl⟩)
  | .prim _ _ _ _, .cons _ _ _ _ => isFalse (by intro e; cases e)
  | .prim _ _ _ _, .raw _ _ _ => isFalse (by intro e; cases e)
  | .cons _ _ _ _, .prim _ _ _ _ => isFalse (by intro e; cases e)
  | .cons _ _ _ _, .raw _ _ _ => isFalse (by intro e; cases e)
  | .raw _ _ _, .prim _ _ _ _ => isFalse (by intro e; cases e)
  | .raw _ _ _, .cons _ _ _ _ => isFalse (by intro e; cases e)
  | .raw t l c, .raw t' l' c' =>
    if h : t = t' ∧ l = l' ∧ c = c' then
      isTrue (by obtain ⟨h1, h2, h3⟩ := h; subst h1 h2 h3; rfl)
    else isFalse (by intro e; cases e; exact h ⟨rfl, rfl, rfl⟩)
  | .cons t l c s, .cons t' l' c' s' =>
    match decEqSlots s s' with
    | isTrue hs =>
      if h : t = t' ∧ l = l' ∧ c = c' then
        isTrue (by obtain ⟨h1, h2, h3⟩ := h; subst h1 h2 h3 hs; rfl)
      else isFalse (by intro e; cases e; exact h ⟨rfl, rfl, rfl⟩)
    | isFalse hs => isFalse (by intro e; cases e; exact hs rfl)
/-- Decidable equality of slot arrays. -/
def decEqSlots : (a b : List (Option TLVobject)) → Decidable (a = b)
  | [], [] => isTrue rfl
  | [], _ :: _ => isFalse (by intro e; cases e)
  | _ :: _, [] => isFalse (by intro e; cases e)
  | none :: as, none :: bs =>
    match decEqSlots as bs with
    | isTrue h => isTrue (by subst h; rfl)
    | isFalse h => isFalse (by intro e; cases e; exact h rfl)
  | none :: _, some _ :: _ => isFalse (by intro e; cases e)
  | some _ :: _, none :: _ => isFalse (by intro e; cases e)
  | some a :: as, some b :: bs =>
    match decEq a b, decEqSlots as bs with
    | isTrue h, isTrue h' => isTrue (by subst h h'; rfl)
    | isFalse h, _ => isFalse (by intro e; cases e; exact h rfl)
    | _, isFalse h => isFalse (by intro e; cases e; exact h rfl)
end

instance : DecidableEq TLVobject := decEq

/-- Field `tag`. -/
def tag : TLVobject → Nat
  | prim t _ _ _ => t
  | cons t _ _ _ => t
  | raw t _ _ => t

/-- Field `length`. -/
def length : TLVobject → Nat
  | prim _ l _ _ => l
  | cons _ l _ _ => l
  | raw _ l _ => l

/-- Field `oclass`. -/
def oclass : TLVobject → Nat
  | prim _ _ c _ => c
  | cons _ _ c _ => c
  | raw _ _ c => c

/-- Field `constructed`. -/
def constructed : TLVobject → Bool
  | prim _ _ _ _ => false
  | cons _ _ _ _ => true
  | raw _ _ _ => true

/-- The array `data` of the object has been written up to its `NULL`
terminator. -/
def terminated : TLVobject → Bool
  | prim _ _ _ _ => true
  | cons _ _ _ _ => true
  | raw _ _ _ => false

end TLVobject

/-! ## Memory -/

/-- Load of the `uint8_t` at `data[i]`. -/
def byteAt (data : Nat → Nat) (i : Nat) : Nat := data i % 256

/-- Memory that holds the bytes of `l` from offset 0 on, and 0 after them. -/
def mem (l : List Nat) : Nat → Nat := fun i => l.getD i 0

/-! ## `tlvParseData` (`tlv.c`) -/

/-- The loop `for (int i=pindex; i<pindex+count; i++) len = (len << 8) + data[i];`
on an `unsigned int` accumulator starting at 0. -/
def lenLoop (data : Nat → Nat) (pindex count : Nat) : Nat :=
  (List.range count).foldl (fun acc k => ((acc <<< 8) + byteAt data (pindex + k)) % 2 ^ 32) 0

/-- The length field read at `data[pindex]`, as written twice in `tlvParseData`
(for `ptr->length` and for `rlen`): the result is the length and the new
`pindex` (a `uint8_t`). -/
def readLength (data : Nat → Nat) (pindex : Nat) : Nat × Nat :=
  if byteAt data pindex < 0x80 then
    (byteAt data pindex, (pindex + 1) % 256)
  else
    let count := byteAt data pindex &&& 0x7F
    let p1 := (pindex + 1) % 256
    (lenLoop data p1 count, (p1 + count) % 256)

/-- The loop `while ((data[pindex] & 0x80) == 0x80) { ... }` of the tag of the
object being built.  `some none` is the `return NULL` inside the loop; otherwise
the result is the tag accumulated so far and `pindex` at loop exit. -/
def tagLoop : Nat → (Nat → Nat) → Nat → Nat → Nat → Option (Option (Nat × Nat))
  | 0, _, _, _, _ => none
  | fuel + 1, data, length, tag, pindex =>
    if byteAt data pindex &&& 0x80 = 0x80 then
      let tag1 := ((tag <<< 8) + byteAt data pindex) % 2 ^ 32
      let pindex1 := (pindex + 1) % 256
      if pindex1 > length then some none
      else tagLoop fuel data length tag1 pindex1
    else some (some (tag, pindex))

/-- The tag of the object being built: `ptr->tag = data[pindex++]` and, when the
five low bits are set, the continuation loop and the last tag byte.  The state
of the loop is `pindex` alone, which lives modulo 256, so 256 iterations decide
whether the loop exits. -/
def readTag (data : Nat → Nat) (length : Nat) : Option (Option (Nat × Nat)) :=
  let tag := byteAt data 0
  if tag &&& 0x1F = 0x1F then
    match tagLoop 256 data length tag 1 with
    | none => none
    | some none => some none
    | some (some (t, p)) => some (some (((t <<< 8) + byteAt data p) % 2 ^ 32, (p + 1) % 256))
  else some (some (tag, 1))

/-- The loop `while ((data[pindex++] & 0x80) == 0x80);` that skips the
continuation bytes of a child's tag. -/
def skipLoop : Nat → (Nat → Nat) → Nat → Option Nat
  | 0, _, _ => none
  | fuel + 1, data, pindex =>
    if byteAt data pindex &&& 0x80 = 0x80 then skipLoop fuel data ((pindex + 1) % 256)
    else some ((pindex + 1) % 256)

/-- The statement `if ((data[pindex++] & 0x1F) == 0x1F) while (...);` that skips
a child's tag; the result is the new `pindex`. -/
def skipTag (data : Nat → Nat) (pindex : Nat) : Option Nat :=
  if byteAt data pindex &&& 0x1F = 0x1F then skipLoop 256 data ((pindex + 1) % 256)
  else some ((pindex + 1) % 256)

/-- The loop `while (pindex < length) { ... }` over the children of a
constructed object.  `parse` is the recursive call; each result, `NULL`
included, is stored in the next slot of `ptr->data`. -/
def childLoop (parse : (Nat → Nat) → Nat → Option (Option TLVobject)) :
    Nat → (Nat → Nat) → Nat → Nat → List (Option TLVobject) →
      Option (List (Option TLVobject))
  | 0, _, _, _, _ => none
  | fuel + 1, data, length, pindex, slots =>
    if pindex < length then
      let rstart := pindex
      match skipTag data pindex with
      | none => none
      | some p1 =>
        let lp := readLength data p1
        let p3 := (lp.2 + lp.1) % 256
        match parse (fun i => data (rstart + i)) ((p3 + 256 - rstart) % 256) with
        | none => none
        | some child => childLoop parse fuel data length p3 (slots ++ [child])
    else some slots

/-- The constructed object that `tlvParseData` returns once the loop over
children has stored the pointers `slots` in `ptr->data`.  The statement
`ptr->data[record_count] = NULL` stands at the end of the body of the loop, so
the terminator follows the slots when the loop has made at least one pass; when
it has made none, no cell of the array has been written. -/
def constructedObject (tag length oclass : Nat) : List (Option TLVobject) → TLVobject
  | [] => .raw tag length oclass
  | slot :: slots => .cons tag length oclass (slot :: slots)

/-- The function `tlvParseData(data, length)` with `data` not `NULL`.  The outer
`none` is exhausted fuel, `some none` is `NULL`, `some (some o)` is the object
built. -/
def tlvParseData : Nat → (Nat → Nat) → Nat → Option (Option TLVobject)
  | 0, _, _ => none
  | fuel + 1, data, length =>
    if length < 2 then some none
    else
      let oclass := (byteAt data 0 &&& 0xC0) >>> 6
      let constructed := (byteAt data 0 &&& 0x20) = 0x20
      match readTag data length with
      | none => none
      | some none => some none
      | some (some (tag, p1)) =>
        let lp := readLength data p1
        if lp.1 > (length + 2 ^ 32 - lp.2) % 2 ^ 32 then some none
        else if constructed then
          match childLoop (tlvParseData fuel) fuel data length lp.2 [] with
          | none => none
          | some slots => some (some (constructedObject tag lp.1 oclass slots))
        else
          some (some (.prim tag lp.1 oclass
            ((List.range lp.1).map (fun i => byteAt data (lp.2 + i)))))

/-! ## `tlvObjectLookForTag` (`tlv.c`) -/

mutual
/-- The body of `tlvObjectLookForTag` on an object that is not `NULL`.  The
result `some none` is `NULL` and `some (some r)` is the object found; the outer
`none` is a search that leaves the defined behaviour of C: on a `raw` object
with another tag the loop reads `obj->data[0]`, which was never written. -/
def lookForTagObj (tag : Nat) : TLVobject → Option (Option TLVobject)
  | .prim t l c v => if t = tag then some (some (.prim t l c v)) else some none
  | .cons t l c s => if t = tag then some (some (.cons t l c s)) else lookForTagSlots tag s
  | .raw t l c => if t = tag then some (some (.raw t l c)) else none
/-- The loop `while (obj->data[i] != NULL)` of `tlvObjectLookForTag`: it stops
at the first `NULL` slot or at the terminator. -/
def lookForTagSlots (tag : Nat) : List (Option TLVobject) → Option (Option TLVobject)
  | [] => some none
  | none :: _ => some none
  | some o :: rest =>
    match lookForTagObj tag o with
    | none => none
    | some (some r) => some (some r)
    | some none => lookForTagSlots tag rest
end

/-- The function `tlvObjectLookForTag(obj, tag)`, with the results of
`lookForTagObj`. -/
def tlvObjectLookForTag (obj : Option TLVobject) (tag : Nat) : Option (Option TLVobject) :=
  match obj with
  | none => some none
  | some o => lookForTagObj tag o

/-! ## Traversal order and positions in a tree -/

mutual
/-- The nodes of a tree in depth-first pre-order: a node, then the subtrees of
its children from left to right.  The children of a constructed node are the
entries of its `NULL`-terminated array, that is the slots before the first
`NULL`. -/
def preorder : TLVobject → List TLVobject
  | .prim t l c v => [.prim t l c v]
  | .cons t l c s => .cons t l c s :: preorderSlots s
  | .raw t l c => [.raw t l c]
/-- Pre-order of the subtrees held by a `NULL`-terminated array. -/
def preorderSlots : List (Option TLVobject) → List TLVobject
  | [] => []
  | none :: _ => []
  | some o :: rest => preorder o ++ preorderSlots rest
end

mutual
/-- The node reached from `o` by following the child indices of a path; the
length of the path is the depth of the node. -/
def nodeAt : TLVobject → List Nat → Option TLVobject
  | o, [] => some o
  | .prim _ _ _ _, _ :: _ => none
  | .cons _ _ _ s, i :: path => nodeAtSlots s i path
  | .raw _ _ _, _ :: _ => none
/-- The node reached through entry `i` of a `NULL`-terminated array. -/
def nodeAtSlots : List (Option TLVobject) → Nat → List Nat → Option TLVobject
  | [], _, _ => none
  | none :: _, _, _ => none
  | some o :: _, 0, path => nodeAt o path
  | some _ :: rest, i + 1, path => nodeAtSlots rest i path
end

/-! ## Response codes (`mycodes.h`, `apdu.h`) -/

/-- `MYTERM_OK`. -/
def MYTERM_OK : Nat := 0x0A
/-- `MYTERM_COMMAND`. -/
def MYTERM_COMMAND : Nat := 0x0C
/-- `BUFFER_SIZE`. -/
def BUFFER_SIZE : Nat := 255
/-- `APDU_SW1_OK`. -/
def APDU_SW1_OK : Nat := 0x90
/-- `APDU_SW2_OK`. -/
def APDU_SW2_OK : Nat := 0x00

/-! ## `sendCommand` and `apduSendCommand` (`serial.c`, `apdu.c`) -/

/-- The assignment `buf[i] = v`. -/
def store (buf : Nat → Nat) (i v : Nat) : Nat → Nat :=
  fun j => if j = i then v else buf j

/-- The call `memcpy(dst + off, src, n)` on memory functions. -/
def memcpyAt (dst : Nat → Nat) (off : Nat) (src : Nat → Nat) (n : Nat) : Nat → Nat :=
  fun j => if off ≤ j ∧ j < off + n then byteAt src (j - off) else dst j

/-- The function `sendCommand(serial_port, buffer, len)`: the bytes handed to
`write`, none when `len == 0`.  `len` is the `uint8_t` parameter. -/
def sendCommand (buffer : Nat → Nat) (len : Nat) : List Nat :=
  if len = 0 then []
  else MYTERM_COMMAND :: len :: (List.range len).map (byteAt buffer)

/-- The value `cmdlen` of `apduSendCommand`, an `int`. -/
def apduCmdlen (lc : Nat) (isLePresent : Bool) : Nat :=
  2 + 4 + lc + (if isLePresent then 1 else 0) + (if lc > 0 then 1 else 0)

/-- The memory of the `malloc`ed `buffer` of `apduSendCommand` when it is passed
to `sendCommand`; `heap` is what `malloc` returned, `data` is `none` for
`NULL`. -/
def apduCommandMemory (heap : Nat → Nat) (cla ins p1 p2 lc : Nat)
    (data : Option (Nat → Nat)) (le : Nat) (isLePresent : Bool) : Nat → Nat :=
  let cmdlen := apduCmdlen lc isLePresent
  let b0 := store (store heap 0 0x40) 1 0x01
  let b1 := store (store (store (store b0 (2 + 0) cla) (2 + 1) ins) (2 + 2) p1) (2 + 3) p2
  let b2 :=
    match data with
    | some d => if lc > 0 then memcpyAt (store b1 (2 + 4) lc) (2 + 5) d lc else b1
    | none => b1
  if isLePresent then store b2 (cmdlen - 1) le else b2

/-- The `cmdlen` bytes of `buffer` that `apduSendCommand` has built when it calls
`sendCommand`. -/
def apduEnvelope (heap : Nat → Nat) (cla ins p1 p2 lc : Nat)
    (data : Option (Nat → Nat)) (le : Nat) (isLePresent : Bool) : List Nat :=
  (List.range (apduCmdlen lc isLePresent)).map
    (byteAt (apduCommandMemory heap cla ins p1 p2 lc data le isLePresent))

/-- The function `apduSendCommand`: the bytes handed to `write` by the call
`sendCommand(serialPort, buffer, cmdlen)`, whose third parameter is a
`uint8_t`. -/
def apduSendCommand (heap : Nat → Nat) (cla ins p1 p2 lc : Nat)
    (data : Option (Nat → Nat)) (le : Nat) (isLePresent : Bool) : List Nat :=
  sendCommand (apduCommandMemory heap cla ins p1 p2 lc data le isLePresent)
    (apduCmdlen lc isLePresent % 256)

/-! ## `waitResponse` (`serial.c`) -/

/-- One result of `read(serial_port, &tmp_buffer, BUFFER_SIZE)`: `fail n` is a
return value `n < 0`, `got chunk` is a return value `chunk.length` (at most
`BUFFER_SIZE`) with the bytes `chunk` placed in `tmp_buffer`. -/
inductive Read where
  | fail (n : Int)
  | got (chunk : List Nat)
deriving Repr, DecidableEq

/-- Result of a call that reads from the serial port: `blocked` when the reads
supplied are used up before it returns, `crash` when it leaves the defined
behaviour of C (a copy outside an array), `ret` when it returns. -/
inductive Outcome (α : Type) where
  | blocked
  | crash
  | ret (a : α)
deriving Repr, DecidableEq

/-- What `waitResponse` leaves behind: the return value, the caller's `buffer`
and `*len`. -/
structure WaitResult where
  res : Int
  buffer : List Nat
  len : Nat
deriving Repr, DecidableEq

/-- The call `memcpy(dst + off, src, src.length)` on an array `dst`; `none` when
the copy does not fit in `dst`. -/
def memcpyInto (dst : List Nat) (off : Nat) (src : List Nat) : Option (List Nat) :=
  if off + src.length ≤ dst.length then
    some (dst.take off ++ src ++ dst.drop (off + src.length))
  else none

/-- The loop `while (n == 0)` of `waitResponse`, one iteration per result of
`read`.  The arguments after the reads are `incoming`, `data_length`,
`res_code`, `max_size`, the caller's `buffer` and `*len`. -/
def waitLoop : List Read → Bool → Nat → Nat → Nat → List Nat → Nat → Outcome WaitResult
  | [], _, _, _, _, _, _ => .blocked
  | .fail n :: _, _, _, _, _, buffer, len => .ret ⟨n, buffer, len⟩
  | .got chunk :: rest, incoming, data_length, res_code, max_size, buffer, len =>
    let n := chunk.length
    if n = 0 then waitLoop rest incoming data_length res_code max_size buffer len
    else if incoming = false then
      if n < 2 then .ret ⟨-1, buffer, len⟩
      else
        let data_length := chunk.getD 1 0 % 256
        let res_code := chunk.getD 0 0 % 256
        let fits := decide (n - 2 ≤ max_size)
        let len1 := if fits then n - 2 else len
        let again := fits && decide (len1 < data_length)
        match (if len1 > 0 then memcpyInto buffer 0 ((chunk.drop 2).take len1)
               else some buffer) with
        | none => .crash
        | some buffer1 =>
          if again then waitLoop rest true data_length res_code max_size buffer1 len1
          else .ret ⟨res_code, buffer1, len1⟩
    else
      let start_pos := len
      let len1 := (len + n % 256) % 256
      let n1 : Int := if len1 > max_size then (n : Int) - ((len1 : Int) - (max_size : Int)) else n
      if n1 < 0 then .crash
      else
        match memcpyInto buffer start_pos (chunk.take n1.toNat) with
        | none => .crash
        | some buffer1 =>
          if len1 < data_length then
            waitLoop rest true data_length res_code max_size buffer1 len1
          else .ret ⟨res_code, buffer1, len1⟩

/-- The function `waitResponse(serial_port, buffer, len)` with `buffer` not
`NULL`: `reads` are the successive results of `read`, `buffer` is the caller's
array and `len` the value of `*len` at the call. -/
def waitResponse (reads : List Read) (buffer : List Nat) (len : Nat) : Outcome WaitResult :=
  waitLoop reads false 0 0 len buffer len

/-! ## `apduWaitForResponse` (`apdu.c`) -/

/-- The four out-parameters of `apduWaitForResponse`; `none` is a `NULL`
pointer, `some` the array or cell pointed to. -/
structure ApduOut where
  resdata : Option (List Nat)
  reslen : Option Nat
  sw1 : Option Nat
  sw2 : Option Nat
deriving Repr, DecidableEq

/-- What `apduWaitForResponse` leaves behind: the return value, the
out-parameters, and whether `apduPrintError` was called. -/
structure ApduResult where
  ret : Int
  out : ApduOut
  printed : Bool
deriving Repr, DecidableEq

/-- The load `buffer[i]` of the local array of `apduWaitForResponse` for an
`int` index: a negative index reads the stack cell `under k` found `k` bytes
below the array. -/
def localAt (under : Nat → Nat) (buffer : List Nat) (i : Int) : Nat :=
  if i < 0 then under (-i).toNat % 256 else buffer.getD i.toNat 0 % 256

/-- The function `apduWaitForResponse(serialPort, resdata, reslen, sw1, sw2)`.
`stack` is the content of the local `buffer[BUFFER_SIZE]` before
`waitResponse` fills it and `under` the stack cells below it. -/
def apduWaitForResponse (reads : List Read) (stack : List Nat) (under : Nat → Nat)
    (out : ApduOut) : Outcome ApduResult :=
  match waitResponse reads stack BUFFER_SIZE with
  | .blocked => .blocked
  | .crash => .crash
  | .ret w =>
    let buflen := w.len
    if w.res ≠ (MYTERM_OK : Int) then
      .ret ⟨w.res, { out with reslen := out.reslen.map (fun _ => 0) }, false⟩
    else
      let _sw1 := localAt under w.buffer ((buflen : Int) - 2)
      let _sw2 := localAt under w.buffer ((buflen : Int) - 1)
      let printed := decide (_sw1 ≠ APDU_SW1_OK ∨ _sw2 ≠ APDU_SW2_OK)
      let out1 : ApduOut :=
        { out with sw1 := out.sw1.map (fun _ => _sw1), sw2 := out.sw2.map (fun _ => _sw2) }
      match out1.reslen, out1.resdata with
      | some reslen, some resdata =>
        if (reslen : Int) ≥ (buflen : Int) - 2 then
          let reslen1 := (((buflen : Int) - 2) % 256).toNat
          match memcpyInto resdata 0 (w.buffer.take reslen1) with
          | none => .crash
          | some resdata1 =>
            .ret ⟨w.res, { out1 with reslen := some reslen1, resdata := some resdata1 }, printed⟩
        else .ret ⟨w.res, out1, printed⟩
      | _, _ => .ret ⟨w.res, out1, printed⟩

/-! ## Reference BER-TLV encoding

The repository has no encoder.  The round-trip property of the decoder is stated
against the encoding below, which follows the format description of the
specification: multi-byte tags with continuation bit `0x80`, short-form lengths
below 128 and long-form lengths above. -/

/-- The bytes of a tag value, most significant first, for tags of one to four
bytes. -/
def tagBytes (tag : Nat) : List Nat :=
  if tag < 256 then [tag]
  else if tag < 65536 then [tag / 256, tag % 256]
  else if tag < 16777216 then [tag / 65536, tag / 256 % 256, tag % 256]
  else [tag / 16777216 % 256, tag / 65536 % 256, tag / 256 % 256, tag % 256]

/-- The first byte of the encoded tag. -/
def firstTagByte (tag : Nat) : Nat := (tagBytes tag).headD 0

/-- A tag value is well formed when its bytes are a BER tag: a single byte whose
five low bits are not all set, or a first byte whose five low bits are all set
followed by bytes with the high bit set, the last one excepted. -/
def tagWellFormed (tag : Nat) : Bool :=
  if tag < 256 then decide (tag % 32 ≠ 31)
  else if tag < 65536 then decide (tag / 256 % 32 = 31 ∧ tag % 256 < 128)
  else if tag < 16777216 then
    decide (tag / 65536 % 32 = 31 ∧ 128 ≤ tag / 256 % 256 ∧ tag % 256 < 128)
  else
    decide (tag < 4294967296 ∧ tag / 16777216 % 32 = 31 ∧ 128 ≤ tag / 65536 % 256 ∧
      128 ≤ tag / 256 % 256 ∧ tag % 256 < 128)

/-- The length field of a value of `n` bytes (`n < 65536`): short form below
128, long form with one or two length bytes above. -/
def berLength (n : Nat) : List Nat :=
  if n < 128 then [n]
  else if n < 256 then [0x81, n]
  else [0x82, n / 256 % 256, n % 256]

mutual
/-- The encoding of a tree: tag, length of the content, content.  The content of
a constructed node is the concatenation of the encodings of its children. -/
def berEncode : TLVobject → List Nat
  | .prim t _ _ v => tagBytes t ++ (berLength v.length ++ v)
  | .cons t _ _ s => tagBytes t ++ (berLength (berEncodeSlots s).length ++ berEncodeSlots s)
  | .raw t _ _ => tagBytes t ++ (berLength 0 ++ [])
/-- The concatenated encodings of the children held by a slot array. -/
def berEncodeSlots : List (Option TLVobject) → List Nat
  | [] => []
  | none :: rest => berEncodeSlots rest
  | some o :: rest => berEncode o ++ berEncodeSlots rest
end

mutual
/-- A tree is well formed when, at every node, the tag is well formed, the class
is the two top bits of the first tag byte, the node is constructed exactly when
bit `0x20` of that byte is set, the field `length` is the length of the content,
value bytes are below 256, no child slot is `NULL` and every array of children
has its terminator. -/
def wellFormed : TLVobject → Bool
  | .prim t l c v =>
    tagWellFormed t && decide (c = firstTagByte t / 64) && decide (firstTagByte t / 32 % 2 = 0)
      && decide (l = v.length) && v.all (fun x => decide (x < 256))
  | .cons t l c s =>
    tagWellFormed t && decide (c = firstTagByte t / 64) && decide (firstTagByte t / 32 % 2 = 1)
      && decide (l = (berEncodeSlots s).length) && wellFormedSlots s
  | .raw _ _ _ => false
/-- Well-formedness of the children held by a slot array. -/
def wellFormedSlots : List (Option TLVobject) → Bool
  | [] => true
  | none :: _ => false
  | some o :: rest => wellFormed o && wellFormedSlots rest
end

mutual
/-- Every constructed node of the tree has at least one child. -/
def populated : TLVobject → Bool
  | .prim _ _ _ _ => true
  | .cons _ _ _ s => !s.isEmpty && populatedSlots s
  | .raw _ _ _ => true
/-- Every constructed node below the slots has at least one child. -/
def populatedSlots : List (Option TLVobject) → Bool
  | [] => true
  | none :: rest => populatedSlots rest
  | some o :: rest => populated o && populatedSlots rest
end

/-- Content bytes of an object in the reference encoding. -/
def contentBytes : TLVobject → List Nat
  | .prim _ _ _ v => v
  | .cons _ _ _ s => berEncodeSlots s
  | .raw _ _ _ => []

/-- The memory `data` holds the bytes of the list from offset `off` on. -/
def Agree (data : Nat → Nat) : Nat → List Nat → Prop
  | _, [] => True
  | off, x :: l => byteAt data off = x ∧ Agree data (off + 1) l

/-! ## Concrete inputs used in the examples -/

/-- The bytes of the string `2PAY.SYS.DDF01`. -/
def ddfName : List Nat :=
  [0x32, 0x50, 0x41, 0x59, 0x2E, 0x53, 0x59, 0x53, 0x2E, 0x44, 0x44, 0x46, 0x30, 0x31]

/-- The tree `6F [ 84 "2PAY.SYS.DDF01" ]`. -/
def selectResponseTree : TLVobject :=
  .cons 0x6F 16 1 [some (.prim 0x84 14 2 ddfName)]

/-- The tree `70 [ 5A 01, 61 [ 4F 03, 5A 02 ] ]`: a root whose children are `A`
and `B[C, A]`. -/
def outerFirstTree : TLVobject :=
  .cons 0x70 11 1 [some (.prim 0x5A 1 1 [1]),
    some (.cons 0x61 6 1 [some (.prim 0x4F 1 1 [3]), some (.prim 0x5A 1 1 [2])])]

/-- The frame `0A 14` followed by the 20 bytes `6F 10 84 0E "2PAY.SYS.DDF01" 90 00`. -/
def selectResponseFrame : List Nat :=
  [0x0A, 20, 0x6F, 0x10, 0x84, 0x0E] ++ ddfName ++ [0x90, 0x00]

/-! ## Reference frame reassembly

The algorithm of the specification for the frame reassembler, on reads that all
succeed: the first non-empty chunk is `[responseCode, declaredLength, ...]`, a
first chunk of fewer than 2 bytes is a malformed frame, and later chunks are
appended until the accumulated payload reaches the declared length.  It is the
reference that `waitResponse` is compared with. -/

/-- Outcome of the reference reassembly: still waiting for bytes, malformed
header, or a frame. -/
inductive Reassembled where
  | waiting
  | shortHeader
  | frame (code : Nat) (payload : List Nat)
deriving Repr, DecidableEq

/-- Appends the chunks to the payload `acc` until it has at least `declared`
bytes; `none` when the chunks run out before that. -/
def gather (declared : Nat) : List Nat → List (List Nat) → Option (List Nat)
  | _, [] => none
  | acc, c :: cs =>
    if c = [] then gather declared acc cs
    else if (acc ++ c).length < declared then gather declared (acc ++ c) cs
    else some (acc ++ c)

/-- Reference reassembly of one frame from a sequence of chunks. -/
def reassemble : List (List Nat) → Reassembled
  | [] => .waiting
  | c :: cs =>
    if c = [] then reassemble cs
    else if c.length < 2 then .shortHeader
    else if (c.drop 2).length < c.getD 1 0 % 256 then
      match gather (c.getD 1 0 % 256) (c.drop 2) cs with
      | none => .waiting
      | some p => .frame (c.getD 0 0 % 256) p
    else .frame (c.getD 0 0 % 256) (c.drop 2)

/-! ## Big-endian values and the scan of children -/

/-- The big-endian integer formed by a list of bytes. -/
def beValue (l : List Nat) : Nat := l.foldl (fun acc b => acc * 256 + b) 0

/-- One pass of the body of the loop over children, up to the statement
`pindex += rlen`: the position reached after the tag, the length field and
`rlen` bytes of the object that starts at `pindex`. -/
def scanNext (data : Nat → Nat) (pindex : Nat) : Option Nat :=
  match skipTag data pindex with
  | none => none
  | some p1 => some (((readLength data p1).2 + (readLength data p1).1) % 256)

/-- The slots `slots` are the results of the recursive calls on the objects
scanned one after the other from position `p`, each started at a position below
`length`, the scan ending at the first position that is not below `length`. -/
def Scanned (parse : (Nat → Nat) → Nat → Option (Option TLVobject)) (data : Nat → Nat)
    (length : Nat) : Nat → List (Option TLVobject) → Prop
  | p, [] => length ≤ p
  | p, c :: cs =>
    p < length ∧ ∃ p3, scanNext data p = some p3 ∧
      parse (fun i => data (p + i)) ((p3 + 256 - p) % 256) = some c ∧
      Scanned parse data length p3 cs

/-- The content of `o` starts at position `p` of the buffer: the value of a leaf
is the `length` bytes found from `p` on, the slots of a constructed node are
what the loop over children started at `p` produces, and for a `raw` object
that loop fills no slot. -/
def ContentAt (fuel : Nat) (data : Nat → Nat) (length : Nat) (o : TLVobject) (p : Nat) : Prop :=
  match o with
  | .prim _ l _ v => v = (List.range l).map (fun i => byteAt data (p + i))
  | .cons _ _ _ slots => childLoop (tlvParseData fuel) fuel data length p [] = some slots
  | .raw _ _ _ => childLoop (tlvParseData fuel) fuel data length p [] = some []

/-! ## Object classes (`tlv.h`) -/

/-- Enumerator `TLV_UNIVERSAL_CLASS` of `tlv.h`. -/
def TLV_UNIVERSAL_CLASS : Nat := 0
/-- Enumerator `TLV_APPLICATION_CLASS` of `tlv.h`. -/
def TLV_APPLICATION_CLASS : Nat := 1
/-- Enumerator `TLV_CONTEXT_SPECIFIC_CLASS` of `tlv.h`. -/
def TLV_CONTEXT_SPECIFIC_CLASS : Nat := 2
/-- Enumerator `TLV_PRIVATE_CLASS` of `tlv.h`. -/
def TLV_PRIVATE_CLASS : Nat := 3

/-! ## Nodes of a decoded tree and their place in the buffer -/

mutual
/-- The property `P` holds of every node of the tree `o` built by the call
`tlvParseData(data, length)`, each node being taken together with the view of
the buffer that starts at its first tag byte: the root with `data`, and each
object stored in a slot with the pointer `data + rstart` that the loop over
children passed to the recursive call. -/
def EveryNode (P : (Nat → Nat) → TLVobject → Prop) :
    TLVobject → (Nat → Nat) → Nat → Prop
  | .prim t n c v, data, _ => P data (.prim t n c v)
  | .cons t n c slots, data, length =>
    P data (.cons t n c slots) ∧
      ∃ p1, readTag data length = some (some (t, p1)) ∧
        EverySlot P slots data length (readLength data p1).2
  | .raw t n c, data, _ => P data (.raw t n c)
/-- The property `P` holds of every node below the slots filled by the loop
over children from position `p` on. -/
def EverySlot (P : (Nat → Nat) → TLVobject → Prop) :
    List (Option TLVobject) → (Nat → Nat) → Nat → Nat → Prop
  | [], _, _, _ => True
  | none :: cs, data, length, p =>
    ∃ p3, scanNext data p = some p3 ∧ EverySlot P cs data length p3
  | some o :: cs, data, length, p =>
    ∃ p3, scanNext data p = some p3 ∧
      EveryNode P o (fun i => data (p + i)) ((p3 + 256 - p) % 256) ∧
      EverySlot P cs data length p3
end

/-! ## Reference size of a header -/

/-- The first position from `p` on whose byte has its high bit clear, looking at
no more than `fuel` bytes; positions are not reduced modulo 256. -/
def tagEnd : Nat → (Nat → Nat) → Nat → Nat
  | 0, _, p => p
  | fuel + 1, data, p => if byteAt data p < 0x80 then p else tagEnd fuel data (p + 1)

/-- Reference size of the header (tag and length field) of the object that
starts at `data[0]`, counted in bytes without reduction modulo 256: the tag is
one byte, or, when its five low bits are set, runs up to and including the first
following byte with the high bit clear; the length field is one byte, followed
by as many bytes as its low 7 bits say when its high bit is set. -/
def headerSize (data : Nat → Nat) : Nat :=
  let t := if byteAt data 0 &&& 0x1F = 0x1F then tagEnd 256 data 1 + 1 else 1
  if byteAt data t < 0x80 then t + 1 else t + 1 + (byteAt data t &&& 0x7F)

/-- The value of a leaf `o` built from the view `data`: as many bytes as the
declared length, and, when the header is shorter than 256 bytes, the bytes that
follow the header. -/
def LeafValue (data : Nat → Nat) : TLVobject → Prop
  | .prim _ n _ v =>
    v.length = n ∧
      (headerSize data < 256 → v = (List.range n).map (fun i => byteAt data (headerSize data + i)))
  | .cons _ _ _ _ => True
  | .raw _ _ _ => True

/-! ## Reference layout of the children of a constructed node -/

/-- Reference declared length of the object that starts at `data[0]`: the byte
after the tag when its high bit is clear, otherwise the big-endian integer
formed by the bytes that follow it, as many as its low 7 bits say. -/
def declaredLength (data : Nat → Nat) : Nat :=
  let t := if byteAt data 0 &&& 0x1F = 0x1F then tagEnd 256 data 1 + 1 else 1
  if byteAt data t < 0x80 then byteAt data t
  else beValue ((List.range (byteAt data t &&& 0x7F)).map (fun i => byteAt data (t + 1 + i)))

/-- Reference size of the encoding of the object that starts at `data[0]`: its
header and as many content bytes as it declares. -/
def encodedSize (data : Nat → Nat) : Nat := headerSize data + declaredLength data

/-- The encoded sizes of `k` objects placed one after the other from position
`p` of the buffer. -/
def encodedSizes (data : Nat → Nat) : Nat → Nat → List Nat
  | _, 0 => []
  | p, k + 1 =>
    encodedSize (fun i => data (p + i)) ::
      encodedSizes data (p + encodedSize (fun i => data (p + i))) k

/-- The slots are the objects encoded one after the other from position `p` of
a buffer of `length` bytes: each object starts below `length`, where the one
before it ends, the slot holds what `parse` returns on the bytes of its
encoding, and the last object ends at or beyond `length`. -/
def Encoded (parse : (Nat → Nat) → Nat → Option (Option TLVobject)) (data : Nat → Nat)
    (length : Nat) : Nat → List (Option TLVobject) → Prop
  | p, [] => length ≤ p
  | p, c :: cs =>
    p < length ∧
      parse (fun i => data (p + i)) (encodedSize (fun i => data (p + i))) = some c ∧
      Encoded parse data length (p + encodedSize (fun i => data (p + i))) cs

mutual
/-- The property `P` holds of every node of the tree `o` built by the call
`tlvParseData(data, length)`, each node being taken together with the pointer
and the length passed to the call that built it: `data` and `length` for the
root, and for each object stored in a slot the pointer `data + rstart` and the
length `pindex - rstart` that the loop over children passed to the recursive
call. -/
def EveryCall (P : (Nat → Nat) → Nat → TLVobject → Prop) :
    TLVobject → (Nat → Nat) → Nat → Prop
  | .prim t n c v, data, length => P data length (.prim t n c v)
  | .cons t n c slots, data, length =>
    P data length (.cons t n c slots) ∧
      ∃ p1, readTag data length = some (some (t, p1)) ∧
        EveryCallSlot P slots data length (readLength data p1).2
  | .raw t n c, data, length => P data length (.raw t n c)
/-- The property `P` holds of every node below the slots filled by the loop
over children from position `p` on. -/
def EveryCallSlot (P : (Nat → Nat) → Nat → TLVobject → Prop) :
    List (Option TLVobject) → (Nat → Nat) → Nat → Nat → Prop
  | [], _, _, _ => True
  | none :: cs, data, length, p =>
    ∃ p3, scanNext data p = some p3 ∧ EveryCallSlot P cs data length p3
  | some o :: cs, data, length, p =>
    ∃ p3, scanNext data p = some p3 ∧
      EveryCall P o (fun i => data (p + i)) ((p3 + 256 - p) % 256) ∧
      EveryCallSlot P cs data length p3
end

/-- The children of a constructed node built by the call
`tlvParseData(data, length)`, when they all end before byte 256: the slots are
the objects encoded one after the other from the end of the header of the node
up to `length`, and the encoded sizes of these objects sum to at least the
`length - headerSize data` bytes that follow the header. -/
def ChildrenEncoded (data : Nat → Nat) (length : Nat) : TLVobject → Prop
  | .cons _ _ _ slots =>
    headerSize data + (encodedSizes data (headerSize data) slots.length).sum < 256 →
      ∃ f, Encoded (tlvParseData f) data length (headerSize data) slots ∧
        length ≤ headerSize data + (encodedSizes data (headerSize data) slots.length).sum
  | .prim _ _ _ _ => True
  | .raw _ _ _ => True

/-! ## `apduPrintError` (`apdu.c`) and the display of `main` (`main.c`) -/

/-- The two lower-case hexadecimal digits that `%02x` prints for a byte. -/
def hex2 (b : Nat) : String :=
  String.mk (if b < 16 then '0' :: Nat.toDigits 16 b else Nat.toDigits 16 b)

/-- The body of `case 0x92:` of `apduPrintError`, which `case 0x91:` also runs
because it has no `break`. -/
def apduPrintError_0x92 (sw2 : Nat) : List String :=
  if sw2 < 0x10 then
    ["Information: Writing to EEPROM successful after " ++ toString (sw2 &&& 0xF) ++ " attempts.\n"]
  else
    match sw2 with
    | 0x10 => ["Error: Insufficient memory. No more storage available.\n"]
    | 0x40 => ["Error: Writing to EEPROM not successful.\n"]
    | _ => ["Unknown code.\n"]

/-- The function `apduPrintError(sw1, sw2)`: the strings written by the calls of
`printf`, one string per call, in order.  The first one is the status word; the
`switch` on `sw1` follows, each `case` that ends with `break` giving what its
body prints. -/
def apduPrintError (sw1 sw2 : Nat) : List String :=
  ("0x" ++ hex2 sw1 ++ hex2 sw2 ++ " ") ::
  (
  match sw1 with
  | 0x06 => ["Error: Class not supported.\n"]
  | 0x61 => ["Command successfully executed. " ++ toString sw2 ++ " bytes of data are available and can be requested using GET RESPONSE."]
  | 0x62 =>
    match sw2 with
    | 0x01 => ["Warning: NV-Ram not changed 1.\n"]
    | 0x81 => ["Warning: Part of returned data may be corrupted.\n"]
    | 0x82 => ["Warning: End of file/record reached before reading Le bytes.\n"]
    | 0x83 => ["Warning: Selected file invalidated.\n"]
    | 0x84 => ["Warning: Selected file is not valid. FCI not formated according to ISO.\n"]
    | 0x85 => ["Warning: No input data available from a sensor on the card. No Purse Engine enslaved for R3bc.\n"]
    | 0xA2 => ["Warning: Wrong R-MAC.\n"]
    | 0xA4 => ["Warning: Card locked (during reset).\n"]
    | 0xF1 => ["Warning: Wrong C-MAC.\n"]
    | 0xF3 => ["Warning: Internal reset.\n"]
    | 0xF5 => ["Warning: Default agent locked.\n"]
    | 0xF7 => ["Warning: Cardholder locked.\n"]
    | 0xF8 => ["Warning: Basement is current agent.\n"]
    | 0xF9 => ["Warning: CALC Key Set not unblocked.\n"]
    | _ => ["Unknown code.\n"]
  | 0x63 =>
    match sw2 with
    | 0x00 => ["Warning: No information given (NV-Ram changed).\n"]
    | 0x81 => ["Warning: File filled up by the last write. Loading/updating is not allowed.\n"]
    | 0x82 => ["Warning: Card key not supported.\n"]
    | 0x83 => ["Warning: Reader key not supported.\n"]
    | 0x84 => ["Warning: Plaintext transmission not supported.\n"]
    | 0x85 => ["Warning: Secured transmission not supported.\n"]
    | 0x86 => ["Warning: Volatile memory is not available.\n"]
    | 0x87 => ["Warning: Non-volatile memory is not available.\n"]
    | 0x88 => ["Warning: Key number not valid.\n"]
    | 0x89 => ["Warning: Key length is not correct.\n"]
    | 0xC0 => ["Warning: Verify fail, no try left.\n"]
    | 0xC1 => ["Warning: Verify fail, 1 try left.\n"]
    | 0xC2 => ["Warning: Verify fail, 2 tries left.\n"]
    | 0xC3 => ["Warning: Verify fail, 3 tries left.\n"]
    | 0xF1 => ["Warning: More data expected.\n"]
    | 0xF2 => ["Warning: More data expected and proactive command pending.\n"]
    | _ => ["Unknown code.\n"]
  | 0x64 =>
    match sw2 with
    | 0x00 => ["Error: No information given (NV-Ram not changed).\n"]
    | 0x01 => ["Error: Command timeout. Immediate response required by the card.\n"]
    | _ => ["Unknown code.\n"]
  | 0x65 =>
    match sw2 with
    | 0x00 => ["Error: No information given.\n"]
    | 0x01 => ["Error: Write error. Memory failure. There have been problems in writing or reading the EEPROM. Other hardware problems may also bring this error.\n"]
    | 0x81 => ["Error: Memory failure.\n"]
    | _ => ["Unknown code.\n"]
  | 0x66 =>
    match sw2 with
    | 0x00 => ["Security: Error while receiving (timeout).\n"]
    | 0x01 => ["Security: Error while receiving (character parity error).\n"]
    | 0x02 => ["Security: Wrong checksum.\n"]
    | 0x03 => ["Security: The current DF file without FCI.\n"]
    | 0x04 => ["Security: No SF or KF under the current DF.\n"]
    | 0x69 => ["Security: Incorrect Encryption/Decryption Padding.\n"]
    | _ => []
  | 0x67 =>
    if sw2 = 0x00 then
      ["Error: Wrong length.\n"]
    else
      ["Error: Length incorrect (procedure)(ISO 7816-3).\n"]
  | 0x68 =>
    match sw2 with
    | 0x00 => ["Error: No information given (The request function is not supported by the card).\n"]
    | 0x81 => ["Error: Logical channel not supported.\n"]
    | 0x82 => ["Error: Secure messaging not supported.\n"]
    | 0x83 => ["Error: Last command of the chain expected.\n"]
    | 0x84 => ["Error: Command chaining not supported.\n"]
    | _ => ["Unknown code.\n"]
  | 0x69 =>
    match sw2 with
    | 0x00 => ["Error: Command not allowed.\n"]
    | 0x01 => ["Error: Command not accepted (inactive state).\n"]
    | 0x81 => ["Error: Command incompatible with file structure.\n"]
    | 0x82 => ["Error: Security condition not satisfied.\n"]
    | 0x83 => ["Error: Authentication method blocked.\n"]
    | 0x84 => ["Error: Referenced data reversibly blocked (invalidated).\n"]
    | 0x85 => ["Error: Conditions of use not satisfied.\n"]
    | 0x86 => ["Error: Command not allowed (no current EF).\n"]
    | 0x87 => ["Error: Expected secure messaging (SM) object missing.\n"]
    | 0x88 => ["Error: Incorrect secure messaging (SM) data object.\n"]
    | 0x96 => ["Error: Data must be updated again.\n"]
    | 0xE1 => ["Error: POL1 of the currently Enabled Profile prevents this action.\n"]
    | 0xF0 => ["Error: Permission Denied.\n"]
    | 0xF1 => ["Error: Permission Denied – Missing Privilege.\n"]
    | _ => ["Unknown code.\n"]
  | 0x6A =>
    match sw2 with
    | 0x00 => ["Error: No information given (Bytes P1 and/or P2 are incorrect).\n"]
    | 0x80 => ["Error: The parameters in the data field are incorrect.\n"]
    | 0x81 => ["Error: Function not supported.\n"]
    | 0x82 => ["Error: File not found.\n"]
    | 0x83 => ["Error: Record not found.\n"]
    | 0x84 => ["Error: There is insufficient memory space in record or file.\n"]
    | 0x85 => ["Error: Lc inconsistent with TLV structure.\n"]
    | 0x86 => ["Error: Incorrect P1 or P2 parameter.\n"]
    | 0x87 => ["Error: Lc inconsistent with P1-P2.\n"]
    | 0x88 => ["Error: Referenced data not found.\n"]
    | 0x89 => ["Error: File already exists.\n"]
    | 0x8A => ["Error: DF name already exists.\n"]
    | 0xF0 => ["Error: Wrong parameter value.\n"]
    | _ => ["Unknown code.\n"]
  | 0x6B =>
    if sw2 = 0x00 then
      ["Error: Wrong parameter(s) P1-P2.\n"]
    else
      ["Error: Reference incorrect (procedure byte), (ISO 7816-3).\n"]
  | 0x6C =>
    if sw2 = 0x00 then
      ["Error: Incorrect P3 length.\n"]
    else
      ["Error: Bad length value in Le; 0x" ++ hex2 sw2 ++ " is the correct exact Le.\n"]
  | 0x6D =>
    if sw2 = 0x00 then
      ["Error: Instruction code not supported or invalid.\n"]
    else
      ["Error: Instruction code not programmed or invalid (procedure byte), (ISO 7816-3).\n"]
  | 0x6E =>
    if sw2 = 0x00 then
      ["Error: Class not supported.\n"]
    else
      ["Instruction class not supported (procedure byte), (ISO 7816-3)"]
  | 0x6F =>
    if sw2 = 0x00 then
      ["Error: Command aborted – more exact diagnosis not possible (e.g., operating system error).\n"]
    else if sw2 = 0xFF then
      ["Error: Card dead (overuse, …).\n"]
    else
      ["Error: Internal Exception. No precise diagnosis (procedure byte), (ISO 7816-3).\n"]
  | 0x90 =>
    match sw2 with
    | 0x00 => ["Information: Command successfully executed (OK).\n"]
    | 0x04 => ["Warning: PIN not succesfully verified, 3 or more PIN tries left.\n"]
    | 0x08 => ["Key/file not found.\n"]
    | 0x80 => ["Warning: Unblock Try Counter has reached zero.\n"]
    | _ => ["Unknown code.\n"]
  | 0x91 =>
    (
      match sw2 with
      | 0x00 => ["OK.\n"]
      | 0x01 => ["States.activity, States.lock Status or States.lockable has wrong value.\n"]
      | 0x02 => ["Transaction number reached its limit.\n"]
      | 0x0C => ["No changes.\n"]
      | 0x0E => ["Insufficient NV-Memory to complete command.\n"]
      | 0x1C => ["Command code not supported.\n"]
      | 0x1E => ["CRC or MAC does not match data.\n"]
      | 0x40 => ["Invalid key number specified.\n"]
      | 0x7E => ["Length of command string invalid.\n"]
      | 0x9D => ["Not allow the requested command.\n"]
      | 0x9E => ["Value of the parameter invalid.\n"]
      | 0xA0 => ["Requested AID not present on PICC.\n"]
      | 0xA1 => ["Unrecoverable error within application.\n"]
      | 0xAE => ["Authentication status does not allow the requested command.\n"]
      | 0xAF => ["Additional data frame is expected to be sent.\n"]
      | 0xBE => ["Out of boundary.\n"]
      | 0xC1 => ["Unrecoverable error within PICC.\n"]
      | 0xCA => ["Previous Command was not fully completed.\n"]
      | 0xCD => ["PICC was disabled by an unrecoverable error.\n"]
      | 0xCE => ["Number of Applications limited to 28.\n"]
      | 0xDE => ["File or application already exists.\n"]
      | 0xEE => ["Could not complete NV-write operation due to loss of power.\n"]
      | 0xF0 => ["Specified file number does not exist.\n"]
      | 0xF1 => ["Unrecoverable error within file.\n"]
      | _ => ["Unknown code.\n"]
    ) ++ apduPrintError_0x92 sw2
  | 0x92 => apduPrintError_0x92 sw2
  | 0x93 =>
    match sw2 with
    | 0x01 => ["Integrity error.\n"]
    | 0x02 => ["Candidate S2 invalid.\n"]
    | 0x03 => ["Error: Application is permanently locked.\n"]
    | _ => ["Unknown code.\n"]
  | 0x94 =>
    match sw2 with
    | 0x00 => ["Error: No EF selected.\n"]
    | 0x01 => ["Candidate currency code does not match purse currency.\n"]
    | 0x02 => ["Candidate amount too high.\n"]
    | 0x03 => ["Candidate amount too low.\n"]
    | 0x04 => ["Error: FID not found, record not found or comparison pattern not found.\n"]
    | 0x05 => ["Problems in the data field.\n"]
    | 0x06 => ["Error: Required MAC unavailable.\n"]
    | 0x07 => ["Bad currency : purse engine has no slot with R3bc currency.\n"]
    | 0x08 => ["Error: Selected file type does not match command.\n"]
    | _ => ["Unknown code.\n"]
  | 0x95 =>
    if sw2 = 0x80 then
      ["Bad sequence.\n"]
    else
      ["Unknown code.\n"]
  | 0x96 =>
    if sw2 = 0x81 then
      ["Slave not found.\n"]
    else
      ["Unknown code.\n"]
  | 0x97 =>
    match sw2 with
    | 0x00 => ["PIN blocked and Unblock Try Counter is 1 or 2.\n"]
    | 0x02 => ["Main keys are blocked.\n"]
    | 0x04 => ["PIN not succesfully verified, 3 or more PIN tries left.\n"]
    | 0x84 => ["Base key.\n"]
    | 0x85 => ["Limit exceeded – C-MAC key.\n"]
    | 0x86 => ["SM error – Limit exceeded – R-MAC key.\n"]
    | 0x87 => ["Limit exceeded – sequence counter.\n"]
    | 0x88 => ["Limit exceeded – R-MAC length.\n"]
    | 0x89 => ["Service not available.\n"]
    | _ => ["Unknown code.\n"]
  | 0x98 =>
    match sw2 with
    | 0x02 => ["Error: No PIN defined.\n"]
    | 0x04 => ["Error: Access conditions not satisfied, authentication failed.\n"]
    | 0x35 => ["Error: ASK RANDOM or GIVE RANDOM not executed.\n"]
    | 0x40 => ["Error: PIN verification not successful.\n"]
    | 0x50 => ["Error: INCREASE or DECREASE could not be executed because a limit has been reached.\n"]
    | 0x62 => ["Error: Authentication Error, application specific (incorrect MAC).\n"]
    | _ => ["Unknown code.\n"]
  | 0x99 =>
    match sw2 with
    | 0x00 => ["1 PIN try left.\n"]
    | 0x04 => ["PIN not succesfully verified, 1 PIN try left.\n"]
    | 0x85 => ["Wrong status – Cardholder lock.\n"]
    | 0x86 => ["Error: Missing privilege.\n"]
    | 0x87 => ["PIN is not installed.\n"]
    | 0x88 => ["Wrong status – R-MAC state.\n"]
    | _ => ["Unknown code.\n"]
  | 0x9A =>
    match sw2 with
    | 0x00 => ["2 PIN try left.\n"]
    | 0x04 => ["PIN not succesfully verified, 2 PIN try left.\n"]
    | 0x71 => ["Wrong parameter value – Double agent AID.\n"]
    | 0x72 => ["Wrong parameter value – Double agent Type.\n"]
    | _ => ["Unknown code.\n"]
  | 0x9D =>
    match sw2 with
    | 0x05 => ["Error: Incorrect certificate type.\n"]
    | 0x07 => ["Error: Incorrect session data size.\n"]
    | 0x08 => ["Error: Incorrect DIR file record size.\n"]
    | 0x09 => ["Error: Incorrect FCI record size.\n"]
    | 0x0A => ["Error: Incorrect code size.\n"]
    | 0x10 => ["Error: Insufficient memory to load application.\n"]
    | 0x11 => ["Error: Invalid AID.\n"]
    | 0x12 => ["Error: Duplicate AID.\n"]
    | 0x13 => ["Error: Application previously loaded.\n"]
    | 0x14 => ["Error: Application history list full.\n"]
    | 0x15 => ["Error: Application not open.\n"]
    | 0x17 => ["Error: Invalid offset.\n"]
    | 0x18 => ["Error: Application already loaded.\n"]
    | 0x19 => ["Error: Invalid certificate.\n"]
    | 0x1A => ["Error: Invalid signature.\n"]
    | 0x1B => ["Error: Invalid KTU.\n"]
    | 0x1D => ["Error: MSM controls not set.\n"]
    | 0x1E => ["Error: Application signature does not exist.\n"]
    | 0x1F => ["Error: KTU does not exist.\n"]
    | 0x20 => ["Error: Application not loaded.\n"]
    | 0x21 => ["Error: Invalid Open command data length.\n"]
    | 0x30 => ["Error: Check data parameter is incorrect (invalid start address).\n"]
    | 0x31 => ["Error: Check data parameter is incorrect (invalid length).\n"]
    | 0x32 => ["Error: Check data parameter is incorrect (illegal memory check area).\n"]
    | 0x40 => ["Error: Invalid MSM Controls ciphertext.\n"]
    | 0x41 => ["Error: MSM controls already set.\n"]
    | 0x42 => ["Error: Set MSM Controls data length less than 2 bytes.\n"]
    | 0x43 => ["Error: Invalid MSM Controls data length.\n"]
    | 0x44 => ["Error: Excess MSM Controls ciphertext.\n"]
    | 0x45 => ["Error: Verification of MSM Controls data failed.\n"]
    | 0x50 => ["Error: Invalid MCD Issuer production ID.\n"]
    | 0x51 => ["Error: Invalid MCD Issuer ID.\n"]
    | 0x52 => ["Error: Invalid set MSM controls data date.\n"]
    | 0x53 => ["Error: Invalid MCD number.\n"]
    | 0x60 => ["Error: MAC verification failed.\n"]
    | 0x61 => ["Error: Maximum number of unblocks reached.\n"]
    | 0x62 => ["Error: Card was not blocked.\n"]
    | 0x63 => ["Error: Crypto functions not available.\n"]
    | 0x64 => ["Error: No application loaded.\n"]
    | _ => ["Unknown code.\n"]
  | 0x9E =>
    if sw2 = 0x00 then
      ["PIN not installed.\n"]
    else if sw2 = 0x04 then
      ["PIN not succesfully verified, PIN not installed.\n"]
    else
      ["Unknown code.\n"]
  | 0x9F =>
    if sw2 = 0x00 then
      ["PIN blocked and Unblock Try Counter is 3.\n"]
    else if sw2 = 0x04 then
      ["PIN not succesfully verified, PIN blocked and Unblock Try Counter is 3.\n"]
    else
      [": Command successfully executed; " ++ toString sw2 ++ " bytes of data are available and can be requested using GET RESPONSE.\n"]
  | _ => ["Unknown code.\n"]
  )

/-- The call `printf("%02x/%02x\n\n", v[1], v[0])` by which `main` shows the
value `v` of the expiration date object. -/
def expirationLine (v : List Nat) : String :=
  hex2 (v.getD 1 0 % 256) ++ "/" ++ hex2 (v.getD 0 0 % 256) ++ "\n\n"

/-! ## Further concrete inputs -/

/-- The 15 bytes `5A 08 41 11 11 11 11 11 11 11 5F 24 02 25 12`: the objects
`5A` (8 value bytes) and `5F24` (value `25 12`) one after the other. -/
def recordData : List Nat :=
  [0x5A, 0x08, 0x41, 0x11, 0x11, 0x11, 0x11, 0x11, 0x11, 0x11, 0x5F, 0x24, 0x02, 0x25, 0x12]

/-- A memory of 261 bytes: a tag of 131 bytes (`5F`, 129 bytes `81`, `01`), the
length byte `FF` at position 131, its 127 length bytes (126 zeros and `02`) at
positions 132 to 258, and the two bytes `AA BB` at positions 259 and 260. -/
def longHeaderMemory : List Nat :=
  [0x5F] ++ List.replicate 129 0x81 ++ [0x01, 0xFF] ++ List.replicate 126 0x00 ++
    [0x02, 0xAA, 0xBB]

/-! # Theorems -/

/-! ## Bytes and memory -/

theorem byteAt_lt (data : Nat → Nat) (i : Nat) : byteAt data i < 256 :=
  Nat.mod_lt _ (by decide)

set_option maxRecDepth 100000 in
theorem land80 : ∀ b, b < 256 → ((b &&& 0x80 = 0x80) ↔ 128 ≤ b) := by decide

set_option maxRecDepth 100000 in
theorem land1F : ∀ b, b < 256 → ((b &&& 0x1F = 0x1F) ↔ b % 32 = 31) := by decide

set_option maxRecDepth 100000 in
theorem landC0 : ∀ b, b < 256 → (b &&& 0xC0) >>> 6 = b / 64 := by decide

set_option maxRecDepth 100000 in
theorem land20 : ∀ b, b < 256 → ((b &&& 0x20 = 0x20) ↔ b / 32 % 2 = 1) := by decide

set_option maxRecDepth 100000 in
theorem land7F : ∀ b, b < 256 → b &&& 0x7F = b % 128 := by decide

theorem agree_append (data : Nat → Nat) (a b : List Nat) (off : Nat) :
    Agree data off (a ++ b) ↔ Agree data off a ∧ Agree data (off + a.length) b := by
  induction a generalizing off with
  | nil => simp [Agree]
  | cons x a ih =>
    have e : off + (a.length + 1) = off + 1 + a.length := by omega
    show (byteAt data off = x ∧ Agree data (off + 1) (a ++ b)) ↔
      (byteAt data off = x ∧ Agree data (off + 1) a) ∧ Agree data (off + (a.length + 1)) b
    rw [ih (off + 1), e]
    tauto

theorem agree_shift (data : Nat → Nat) (r : Nat) (l : List Nat) (off : Nat) :
    Agree (fun i => data (r + i)) off l ↔ Agree data (r + off) l := by
  induction l generalizing off with
  | nil => simp [Agree]
  | cons x l ih =>
    simp only [Agree, ih (off + 1), byteAt]
    rfl

theorem agree_of_getD (data : Nat → Nat) (l : List Nat) (off : Nat)
    (h : ∀ i, i < l.length → byteAt data (off + i) = l.getD i 0) : Agree data off l := by
  induction l generalizing off with
  | nil => simp [Agree]
  | cons x l ih =>
    refine ⟨by simpa using h 0 (by simp), ih (off + 1) ?_⟩
    intro i hi
    have := h (i + 1) (by simpa using hi)
    simpa [Nat.add_assoc, Nat.add_comm 1 i] using this

theorem map_range_of_agree (data : Nat → Nat) (v : List Nat) (p : Nat) (h : Agree data p v) :
    (List.range v.length).map (fun i => byteAt data (p + i)) = v := by
  induction v generalizing p with
  | nil => simp
  | cons x v ih =>
    obtain ⟨h0, h1⟩ := h
    rw [List.length_cons, List.range_succ_eq_map, List.map_cons, List.map_map]
    simp only [Nat.add_zero, h0]
    congr 1
    have e : ((fun i => byteAt data (p + i)) ∘ Nat.succ) = fun i => byteAt data (p + 1 + i) := by
      funext i
      show byteAt data (p + (i + 1)) = byteAt data (p + 1 + i)
      congr 1
      omega
    rw [e]
    exact ih (p + 1) h1

theorem tagLoop_stop (fuel : Nat) (data : Nat → Nat) (length tag p : Nat)
    (h : byteAt data p < 128) :
    tagLoop (fuel + 1) data length tag p = some (some (tag, p)) := by
  have := (land80 _ (byteAt_lt data p)).not.mpr (by omega)
  simp [tagLoop, this]

theorem tagLoop_cont (fuel : Nat) (data : Nat → Nat) (length tag p : Nat)
    (h : 128 ≤ byteAt data p) (hp : (p + 1) % 256 ≤ length) :
    tagLoop (fuel + 1) data length tag p =
      tagLoop fuel data length (((tag <<< 8) + byteAt data p) % 2 ^ 32) ((p + 1) % 256) := by
  have := (land80 _ (byteAt_lt data p)).mpr h
  simp [tagLoop, this, Nat.not_lt.mpr hp]

theorem skipLoop_stop (fuel : Nat) (data : Nat → Nat) (p : Nat) (h : byteAt data p < 128) :
    skipLoop (fuel + 1) data p = some ((p + 1) % 256) := by
  have := (land80 _ (byteAt_lt data p)).not.mpr (by omega)
  simp [skipLoop, this]

theorem skipLoop_cont (fuel : Nat) (data : Nat → Nat) (p : Nat) (h : 128 ≤ byteAt data p) :
    skipLoop (fuel + 1) data p = skipLoop fuel data ((p + 1) % 256) := by
  have := (land80 _ (byteAt_lt data p)).mpr h
  simp [skipLoop, this]

theorem tagBytes_length_le (t : Nat) : 1 ≤ (tagBytes t).length ∧ (tagBytes t).length ≤ 4 := by
  unfold tagBytes
  split_ifs <;> simp

theorem readTag_tagBytes (data : Nat → Nat) (length t : Nat) (hwf : tagWellFormed t = true)
    (hag : Agree data 0 (tagBytes t)) (hlen : (tagBytes t).length ≤ length) :
    readTag data length = some (some (t, (tagBytes t).length)) := by
  unfold tagBytes at hag hlen ⊢
  unfold tagWellFormed at hwf
  unfold readTag
  split_ifs at hag hlen hwf ⊢ with h1 h2 h3
  all_goals simp only [Agree, decide_eq_true_eq, List.length_cons, List.length_nil,
    Nat.zero_add, Nat.reduceAdd] at hag hlen hwf
  all_goals dsimp only
  · obtain ⟨a0, -⟩ := hag
    have c0 : ¬ (byteAt data 0 &&& 31 = 31) := by
      rw [a0]; exact (land1F t h1).not.mpr hwf
    rw [if_neg c0, a0]
    rfl
  · obtain ⟨a0, a1, -⟩ := hag
    have c0 : byteAt data 0 &&& 31 = 31 := by
      rw [a0]; exact (land1F _ (by omega)).mpr hwf.1
    have s1 : tagLoop 256 data length (byteAt data 0) 1 = some (some (byteAt data 0, 1)) :=
      tagLoop_stop 255 data length _ 1 (by rw [a1]; omega)
    rw [if_pos c0, s1]
    simp only [a0, a1, Nat.shiftLeft_eq]
    have e : (t / 256 * 2 ^ 8 + t % 256) % 2 ^ 32 = t := by norm_num; omega
    rw [e]
    rfl
  · obtain ⟨a0, a1, a2, -⟩ := hag
    have c0 : byteAt data 0 &&& 31 = 31 := by
      rw [a0]; exact (land1F _ (by omega)).mpr hwf.1
    have s1 : tagLoop 256 data length (byteAt data 0) 1 =
        some (some (((byteAt data 0 <<< 8) + byteAt data 1) % 2 ^ 32, 2)) := by
      rw [tagLoop_cont 255 data length _ 1 (by rw [a1]; omega) (by norm_num; omega)]
      exact tagLoop_stop 254 data length _ 2 (by rw [a2]; omega)
    rw [if_pos c0, s1]
    simp only [a0, a1, a2, Nat.shiftLeft_eq]
    have e : ((t / 65536 * 2 ^ 8 + t / 256 % 256) % 2 ^ 32 * 2 ^ 8 + t % 256) % 2 ^ 32 = t := by
      norm_num; omega
    rw [e]
    rfl
  · obtain ⟨a0, a1, a2, a3, -⟩ := hag
    have c0 : byteAt data 0 &&& 31 = 31 := by
      rw [a0]; exact (land1F _ (by omega)).mpr (by omega)
    have s1 : tagLoop 256 data length (byteAt data 0) 1 =
        some (some (((((byteAt data 0 <<< 8) + byteAt data 1) % 2 ^ 32) <<< 8
          + byteAt data 2) % 2 ^ 32, 3)) := by
      rw [tagLoop_cont 255 data length _ 1 (by rw [a1]; omega) (by norm_num; omega)]
      rw [tagLoop_cont 254 data length _ 2 (by rw [a2]; omega) (by norm_num; omega)]
      exact tagLoop_stop 253 data length _ 3 (by rw [a3]; omega)
    rw [if_pos c0, s1]
    simp only [a0, a1, a2, a3, Nat.shiftLeft_eq]
    have e : (((t / 16777216 % 256 * 2 ^ 8 + t / 65536 % 256) % 2 ^ 32 * 2 ^ 8
        + t / 256 % 256) % 2 ^ 32 * 2 ^ 8 + t % 256) % 2 ^ 32 = t := by
      norm_num; omega
    rw [e]
    rfl

theorem skipTag_tagBytes (data : Nat → Nat) (p t : Nat) (hwf : tagWellFormed t = true)
    (hag : Agree data p (tagBytes t)) (hp : p + (tagBytes t).length ≤ 255) :
    skipTag data p = some (p + (tagBytes t).length) := by
  unfold tagBytes at hag hp ⊢
  unfold tagWellFormed at hwf
  split_ifs at hag hp hwf ⊢ with h1 h2 h3
  all_goals simp only [Agree, decide_eq_true_eq, List.length_cons, List.length_nil,
    Nat.zero_add] at hag hp hwf
  all_goals unfold skipTag
  · obtain ⟨a0, -⟩ := hag
    have c0 : ¬ (byteAt data p &&& 31 = 31) := by
      rw [a0]; exact (land1F t h1).not.mpr hwf
    rw [if_neg c0, Nat.mod_eq_of_lt (by omega)]
    rfl
  · obtain ⟨a0, a1, -⟩ := hag
    have c0 : byteAt data p &&& 31 = 31 := by
      rw [a0]; exact (land1F _ (by omega)).mpr hwf.1
    rw [if_pos c0, Nat.mod_eq_of_lt (show p + 1 < 256 by omega),
      skipLoop_stop 255 data (p + 1) (by rw [a1]; omega), Nat.mod_eq_of_lt (by omega)]
    rfl
  · obtain ⟨a0, a1, a2, -⟩ := hag
    have c0 : byteAt data p &&& 31 = 31 := by
      rw [a0]; exact (land1F _ (by omega)).mpr hwf.1
    rw [if_pos c0, Nat.mod_eq_of_lt (show p + 1 < 256 by omega),
      skipLoop_cont 255 data (p + 1) (by rw [a1]; omega),
      Nat.mod_eq_of_lt (show p + 1 + 1 < 256 by omega),
      skipLoop_stop 254 data (p + 1 + 1) (by rw [a2]; omega),
      Nat.mod_eq_of_lt (by omega)]
    rfl
  · obtain ⟨a0, a1, a2, a3, -⟩ := hag
    have c0 : byteAt data p &&& 31 = 31 := by
      rw [a0]; exact (land1F _ (by omega)).mpr (by omega)
    rw [if_pos c0, Nat.mod_eq_of_lt (show p + 1 < 256 by omega),
      skipLoop_cont 255 data (p + 1) (by rw [a1]; omega),
      Nat.mod_eq_of_lt (show p + 1 + 1 < 256 by omega),
      skipLoop_cont 254 data (p + 1 + 1) (by rw [a2]; omega),
      Nat.mod_eq_of_lt (show p + 1 + 1 + 1 < 256 by omega),
      skipLoop_stop 253 data (p + 1 + 1 + 1) (by rw [a3]; omega),
      Nat.mod_eq_of_lt (by omega)]
    rfl

theorem berLength_length_le (n : Nat) : 1 ≤ (berLength n).length ∧ (berLength n).length ≤ 3 := by
  unfold berLength
  split_ifs <;> simp

theorem readLength_berLength (data : Nat → Nat) (p n : Nat) (hn : n < 256)
    (hag : Agree data p (berLength n)) (hp : p + (berLength n).length ≤ 255) :
    readLength data p = (n, p + (berLength n).length) := by
  unfold berLength at hag hp ⊢
  split_ifs at hag hp ⊢ with h1
  all_goals simp only [Agree, List.length_cons, List.length_nil, Nat.zero_add] at hag hp
  all_goals unfold readLength
  · obtain ⟨a0, -⟩ := hag
    rw [if_pos (by rw [a0]; exact h1), a0, Nat.mod_eq_of_lt (by omega)]
    rfl
  · obtain ⟨a0, a1, -⟩ := hag
    rw [if_neg (by rw [a0]; decide)]
    simp only [a0, Nat.mod_eq_of_lt (show p + 1 < 256 by omega)]
    have e : (129 &&& 127 : Nat) = 1 := by decide
    rw [e, Nat.mod_eq_of_lt (show p + 1 + 1 < 256 by omega)]
    have r1 : List.range 1 = [0] := rfl
    simp only [lenLoop, r1, List.foldl_cons, List.foldl_nil, Nat.add_zero, a1,
      Nat.zero_shiftLeft, Nat.zero_add]
    rw [Nat.mod_eq_of_lt (show n < 2 ^ 32 by omega)]
    rfl

theorem byteAt_firstTagByte (data : Nat → Nat) (p t : Nat) (hag : Agree data p (tagBytes t)) :
    byteAt data p = firstTagByte t := by
  unfold firstTagByte
  unfold tagBytes at hag ⊢
  split_ifs at hag ⊢ <;> exact hag.1

theorem berEncode_eq (e : TLVobject) :
    berEncode e = tagBytes e.tag ++ (berLength (contentBytes e).length ++ contentBytes e) := by
  cases e <;> simp [berEncode, contentBytes, TLVobject.tag]

theorem berEncode_length_ge (e : TLVobject) : 2 ≤ (berEncode e).length := by
  rw [berEncode_eq]
  have h1 := tagBytes_length_le e.tag
  have h2 := berLength_length_le (contentBytes e).length
  simp only [List.length_append]
  omega

theorem constructedObject_tag (t n c : Nat) (slots : List (Option TLVobject)) :
    (constructedObject t n c slots).tag = t := by
  cases slots <;> rfl

theorem constructedObject_length (t n c : Nat) (slots : List (Option TLVobject)) :
    (constructedObject t n c slots).length = n := by
  cases slots <;> rfl

theorem constructedObject_oclass (t n c : Nat) (slots : List (Option TLVobject)) :
    (constructedObject t n c slots).oclass = c := by
  cases slots <;> rfl

theorem constructedObject_constructed (t n c : Nat) (slots : List (Option TLVobject)) :
    (constructedObject t n c slots).constructed = true := by
  cases slots <;> rfl

theorem tlvParseData_prim_step (f : Nat) (data : Nat → Nat) (length t p1 n p2 : Nat)
    (h2 : 2 ≤ length)
    (htag : readTag data length = some (some (t, p1)))
    (hlen : readLength data p1 = (n, p2))
    (hfit : n ≤ (length + 2 ^ 32 - p2) % 2 ^ 32)
    (hc : ¬ (byteAt data 0 &&& 0x20 = 0x20)) :
    tlvParseData (f + 1) data length = some (some (.prim t n ((byteAt data 0 &&& 0xC0) >>> 6)
      ((List.range n).map (fun i => byteAt data (p2 + i))))) := by
  rw [tlvParseData, if_neg (by omega)]
  simp only [htag, hlen]
  rw [if_neg (by omega)]
  simp only [decide_eq_true_eq, hc, if_false]

theorem tlvParseData_cons_step (f : Nat) (data : Nat → Nat) (length t p1 n p2 : Nat)
    (h2 : 2 ≤ length)
    (htag : readTag data length = some (some (t, p1)))
    (hlen : readLength data p1 = (n, p2))
    (hfit : n ≤ (length + 2 ^ 32 - p2) % 2 ^ 32)
    (hc : byteAt data 0 &&& 0x20 = 0x20) :
    tlvParseData (f + 1) data length =
      (childLoop (tlvParseData f) f data length p2 []).map
        (fun slots => some (constructedObject t n ((byteAt data 0 &&& 0xC0) >>> 6) slots)) := by
  rw [tlvParseData, if_neg (by omega)]
  simp only [htag, hlen]
  rw [if_neg (by omega)]
  simp only [decide_eq_true_eq, hc, if_true]
  cases childLoop (tlvParseData f) f data length p2 [] <;> rfl

theorem tlvParseData_reject_step (f : Nat) (data : Nat → Nat) (length t p1 n p2 : Nat)
    (htag : readTag data length = some (some (t, p1)))
    (hlen : readLength data p1 = (n, p2))
    (hfit : (length + 2 ^ 32 - p2) % 2 ^ 32 < n) :
    tlvParseData (f + 1) data length = some none := by
  rw [tlvParseData]
  split_ifs with h
  · rfl
  · simp only [htag, hlen]
    rw [if_pos hfit]

theorem childLoop_done (parse : (Nat → Nat) → Nat → Option (Option TLVobject))
    (fuel : Nat) (data : Nat → Nat) (length pindex : Nat) (slots : List (Option TLVobject))
    (h : length ≤ pindex) :
    childLoop parse (fuel + 1) data length pindex slots = some slots := by
  rw [childLoop, if_neg (by omega)]

theorem childLoop_step (parse : (Nat → Nat) → Nat → Option (Option TLVobject))
    (fuel : Nat) (data : Nat → Nat) (length pindex p1 rlen p2 : Nat)
    (slots : List (Option TLVobject)) (child : Option TLVobject)
    (h : pindex < length)
    (hskip : skipTag data pindex = some p1)
    (hlen : readLength data p1 = (rlen, p2))
    (hchild : parse (fun i => data (pindex + i)) (((p2 + rlen) % 256 + 256 - pindex) % 256)
      = some child) :
    childLoop parse (fuel + 1) data length pindex slots =
      childLoop parse fuel data length ((p2 + rlen) % 256) (slots ++ [child]) := by
  rw [childLoop, if_pos h]
  simp only [hskip, hlen, hchild]

theorem wellFormed_tag (e : TLVobject) (h : wellFormed e = true) :
    tagWellFormed e.tag = true := by
  cases e with
  | prim t l c v =>
    simp only [wellFormed, Bool.and_eq_true] at h
    exact h.1.1.1.1
  | cons t l c s =>
    simp only [wellFormed, Bool.and_eq_true] at h
    exact h.1.1.1.1
  | raw t l c => simp [wellFormed] at h

/-- Layout of an encoded object placed at offset `p`. -/
theorem agree_berEncode (data : Nat → Nat) (p : Nat) (e : TLVobject)
    (hag : Agree data p (berEncode e)) :
    Agree data p (tagBytes e.tag) ∧
    Agree data (p + (tagBytes e.tag).length) (berLength (contentBytes e).length) ∧
    Agree data (p + (tagBytes e.tag).length + (berLength (contentBytes e).length).length)
      (contentBytes e) ∧
    (berEncode e).length = (tagBytes e.tag).length + (berLength (contentBytes e).length).length
      + (contentBytes e).length := by
  rw [berEncode_eq, agree_append, agree_append] at hag
  refine ⟨hag.1, hag.2.1, hag.2.2, ?_⟩
  rw [berEncode_eq]
  simp only [List.length_append]
  omega

mutual
theorem parse_berEncode : (e : TLVobject) → ∀ (f : Nat) (data : Nat → Nat),
    wellFormed e = true → populated e = true → (berEncode e).length ≤ 255 →
    Agree data 0 (berEncode e) → (berEncode e).length ≤ f →
    tlvParseData f data (berEncode e).length = some (some e)
  | .raw t l c => by
    intro f data hwf
    simp [wellFormed] at hwf
  | .prim t l c v => by
    intro f data hwf _ h255 hag hf
    obtain ⟨a1, a2, a3, hL⟩ := agree_berEncode data 0 _ hag
    simp only [TLVobject.tag, contentBytes, Nat.zero_add] at a1 a2 a3 hL
    simp only [wellFormed, Bool.and_eq_true, decide_eq_true_eq] at hwf
    obtain ⟨⟨⟨⟨w1, w2⟩, w3⟩, w4⟩, -⟩ := hwf
    have t1 := tagBytes_length_le t
    have t2 := berLength_length_le v.length
    obtain ⟨k, rfl⟩ : ∃ k, f = k + 1 := ⟨f - 1, by omega⟩
    have htag := readTag_tagBytes data (berEncode (.prim t l c v)).length t w1 a1 (by omega)
    have hlen := readLength_berLength data _ v.length (by omega) a2 (by omega)
    have hb := byteAt_firstTagByte data 0 t a1
    have hc : ¬ (byteAt data 0 &&& 0x20 = 0x20) := by
      rw [land20 _ (byteAt_lt data 0), hb, w3]; decide
    rw [tlvParseData_prim_step k data _ t _ _ _ (by omega) htag hlen (by omega) hc,
      landC0 _ (byteAt_lt data 0), hb, map_range_of_agree data v _ a3, w2, w4]
  | .cons t l c s => by
    intro f data hwf hpop h255 hag hf
    simp only [populated, Bool.and_eq_true] at hpop
    obtain ⟨a1, a2, a3, hL⟩ := agree_berEncode data 0 _ hag
    simp only [TLVobject.tag, contentBytes, Nat.zero_add] at a1 a2 a3 hL
    simp only [wellFormed, Bool.and_eq_true, decide_eq_true_eq] at hwf
    obtain ⟨⟨⟨⟨w1, w2⟩, w3⟩, w4⟩, w5⟩ := hwf
    have t1 := tagBytes_length_le t
    have t2 := berLength_length_le (berEncodeSlots s).length
    obtain ⟨k, rfl⟩ : ∃ k, f = k + 1 := ⟨f - 1, by omega⟩
    have htag := readTag_tagBytes data (berEncode (.cons t l c s)).length t w1 a1 (by omega)
    have hlen := readLength_berLength data _ (berEncodeSlots s).length (by omega) a2 (by omega)
    have hb := byteAt_firstTagByte data 0 t a1
    have hc : byteAt data 0 &&& 0x20 = 0x20 := by
      rw [land20 _ (byteAt_lt data 0), hb, w3]
    have key := parse_berEncodeSlots s k k data (berEncode (.cons t l c s)).length
      ((tagBytes t).length + (berLength (berEncodeSlots s).length).length) [] w5 hpop.2
      (by omega) h255 a3 (by omega) (by omega)
    rw [tlvParseData_cons_step k data _ t _ _ _ (by omega) htag hlen (by omega) hc, key,
      landC0 _ (byteAt_lt data 0), hb, w2, w4]
    have hne := hpop.1
    cases s with
    | nil => simp at hne
    | cons x xs => rfl
theorem parse_berEncodeSlots : (s : List (Option TLVobject)) →
    ∀ (f lf : Nat) (data : Nat → Nat) (length pindex : Nat) (acc : List (Option TLVobject)),
    wellFormedSlots s = true → populatedSlots s = true →
    pindex + (berEncodeSlots s).length = length → length ≤ 255 →
    Agree data pindex (berEncodeSlots s) → (berEncodeSlots s).length < lf →
    (berEncodeSlots s).length ≤ f →
    childLoop (tlvParseData f) lf data length pindex acc = some (acc ++ s)
  | [] => by
    intro f lf data length pindex acc _ _ hp _ _ hlf _
    obtain ⟨k, rfl⟩ : ∃ k, lf = k + 1 := ⟨lf - 1, by omega⟩
    rw [childLoop_done _ _ _ _ _ _ (by simp [berEncodeSlots] at hp; omega)]
    simp
  | none :: rest => by
    intro f lf data length pindex acc hwf
    simp [wellFormedSlots] at hwf
  | some o :: rest => by
    intro f lf data length pindex acc hwf hpop hp h255 hag hlf hf
    simp only [wellFormedSlots, Bool.and_eq_true] at hwf
    simp only [populatedSlots, Bool.and_eq_true] at hpop
    simp only [berEncodeSlots, List.length_append] at hp hlf hf
    rw [berEncodeSlots, agree_append] at hag
    obtain ⟨a1, a2, a3, hL⟩ := agree_berEncode data pindex o hag.1
    have t1 := tagBytes_length_le o.tag
    have t2 := berLength_length_le (contentBytes o).length
    obtain ⟨k, rfl⟩ : ∃ k, lf = k + 1 := ⟨lf - 1, by omega⟩
    have hskip := skipTag_tagBytes data pindex o.tag (wellFormed_tag o hwf.1) a1 (by omega)
    have hlen := readLength_berLength data _ (contentBytes o).length (by omega) a2 (by omega)
    have e3 : (pindex + (tagBytes o.tag).length + (berLength (contentBytes o).length).length
        + (contentBytes o).length) % 256 = pindex + (berEncode o).length := by
      rw [Nat.mod_eq_of_lt (by omega)]; omega
    have e4 : (pindex + (berEncode o).length + 256 - pindex) % 256 = (berEncode o).length := by
      omega
    have hchild := parse_berEncode o f (fun i => data (pindex + i)) hwf.1 hpop.1 (by omega)
      ((agree_shift data pindex _ 0).mpr hag.1) (by omega)
    rw [childLoop_step (tlvParseData f) k data length pindex _ _ _ acc (some o) (by omega)
      hskip hlen (by rw [e3, e4]; exact hchild), e3,
      parse_berEncodeSlots rest f k data length _ (acc ++ [some o]) hwf.2 hpop.2 (by omega)
        h255 hag.2 (by omega) (by omega)]
    simp
end

/-! ## Tag lookup -/

mutual
theorem lookForTagObj_eq_find (tag : Nat) : (o : TLVobject) →
    (∀ n ∈ preorder o, n.terminated = true) →
    lookForTagObj tag o = some ((preorder o).find? (fun n => decide (n.tag = tag)))
  | .prim t l c v => by
    intro _
    by_cases h : t = tag <;> simp [lookForTagObj, preorder, TLVobject.tag, h]
  | .cons t l c s => by
    intro ht
    have hs : ∀ n ∈ preorderSlots s, n.terminated = true :=
      fun n hn => ht n (by simp [preorder, hn])
    by_cases h : t = tag
    · simp [lookForTagObj, preorder, TLVobject.tag, h]
    · simp [lookForTagObj, preorder, TLVobject.tag, h, lookForTagSlots_eq_find tag s hs]
  | .raw t l c => by
    intro ht
    have h := ht (.raw t l c) (by simp [preorder])
    simp [TLVobject.terminated] at h
theorem lookForTagSlots_eq_find (tag : Nat) : (s : List (Option TLVobject)) →
    (∀ n ∈ preorderSlots s, n.terminated = true) →
    lookForTagSlots tag s = some ((preorderSlots s).find? (fun n => decide (n.tag = tag)))
  | [] => by
    intro _
    simp [lookForTagSlots, preorderSlots]
  | none :: _ => by
    intro _
    simp [lookForTagSlots, preorderSlots]
  | some o :: rest => by
    intro ht
    have h1 : ∀ n ∈ preorder o, n.terminated = true :=
      fun n hn => ht n (by simp [preorderSlots, hn])
    have h2 : ∀ n ∈ preorderSlots rest, n.terminated = true :=
      fun n hn => ht n (by simp [preorderSlots, hn])
    rw [lookForTagSlots, preorderSlots, List.find?_append, lookForTagObj_eq_find tag o h1,
      lookForTagSlots_eq_find tag rest h2]
    cases List.find? (fun n => decide (n.tag = tag)) (preorder o) <;> rfl
end

mutual
theorem lookForTagObj_path (tag : Nat) : (o : TLVobject) → ∀ r,
    lookForTagObj tag o = some (some r) →
    r.tag = tag ∧ ∃ path, nodeAt o path = some r ∧
      ∀ q a, q <+: path → q.length < path.length → nodeAt o q = some a → a.tag ≠ tag
  | .prim t l c v => by
    intro r h
    by_cases e : t = tag <;> simp [lookForTagObj, e] at h
    subst e h
    refine ⟨rfl, [], by simp [nodeAt], ?_⟩
    intro q a _ hq
    simp at hq
  | .raw t l c => by
    intro r h
    by_cases e : t = tag <;> simp [lookForTagObj, e] at h
    subst e h
    refine ⟨rfl, [], by simp [nodeAt], ?_⟩
    intro q a _ hq
    simp at hq
  | .cons t l c s => by
    intro r h
    by_cases e : t = tag
    · simp [lookForTagObj, e] at h
      subst e h
      refine ⟨rfl, [], by simp [nodeAt], ?_⟩
      intro q a _ hq
      simp at hq
    · simp only [lookForTagObj, e, if_false] at h
      obtain ⟨hr, i, path, h1, h2⟩ := lookForTagSlots_path tag s r h
      refine ⟨hr, i :: path, by simpa [nodeAt] using h1, ?_⟩
      intro q a hpre hlen hq
      cases q with
      | nil =>
        simp only [nodeAt, Option.some.injEq] at hq
        subst hq
        simpa [TLVobject.tag] using e
      | cons j q =>
        obtain ⟨rfl, hpre2⟩ := List.cons_prefix_cons.mp hpre
        exact h2 q a hpre2 (by simpa using hlen) (by simpa [nodeAt] using hq)
theorem lookForTagSlots_path (tag : Nat) : (s : List (Option TLVobject)) → ∀ r,
    lookForTagSlots tag s = some (some r) →
    r.tag = tag ∧ ∃ i path, nodeAtSlots s i path = some r ∧
      ∀ q a, q <+: path → q.length < path.length → nodeAtSlots s i q = some a → a.tag ≠ tag
  | [] => by
    intro r h
    simp [lookForTagSlots] at h
  | none :: _ => by
    intro r h
    simp [lookForTagSlots] at h
  | some o :: rest => by
    intro r h
    rw [lookForTagSlots] at h
    cases h0 : lookForTagObj tag o with
    | none =>
      rw [h0] at h
      cases h
    | some x =>
      cases x with
      | some r0 =>
        rw [h0] at h
        simp only [Option.some.injEq] at h
        subst h
        obtain ⟨hr, path, h1, h2⟩ := lookForTagObj_path tag o r0 h0
        exact ⟨hr, 0, path, by simpa [nodeAtSlots] using h1,
          fun q a hp hl hq => h2 q a hp hl (by simpa [nodeAtSlots] using hq)⟩
      | none =>
        rw [h0] at h
        obtain ⟨hr, i, path, h1, h2⟩ := lookForTagSlots_path tag rest r h
        exact ⟨hr, i + 1, path, by simpa [nodeAtSlots] using h1,
          fun q a hp hl hq => h2 q a hp hl (by simpa [nodeAtSlots] using hq)⟩
end

/-! ## Command envelope -/

theorem byteAt_store_same (b : Nat → Nat) (i v : Nat) (hv : v < 256) :
    byteAt (store b i v) i = v := by
  simp [byteAt, store, Nat.mod_eq_of_lt hv]

theorem byteAt_store_other (b : Nat → Nat) (i j v : Nat) (h : j ≠ i) :
    byteAt (store b i v) j = byteAt b j := by
  simp [byteAt, store, h]

theorem byteAt_memcpyAt_in (dst src : Nat → Nat) (off n j : Nat) (h1 : off ≤ j)
    (h2 : j < off + n) : byteAt (memcpyAt dst off src n) j = byteAt src (j - off) := by
  simp [byteAt, memcpyAt, h1, h2]

theorem byteAt_memcpyAt_out (dst src : Nat → Nat) (off n j : Nat) (h : j < off ∨ off + n ≤ j) :
    byteAt (memcpyAt dst off src n) j = byteAt dst j := by
  have : ¬ (off ≤ j ∧ j < off + n) := by omega
  simp [byteAt, memcpyAt, this]

theorem agree_cons (data : Nat → Nat) (off x : Nat) (l : List Nat) :
    Agree data off (x :: l) ↔ byteAt data off = x ∧ Agree data (off + 1) l := Iff.rfl

theorem apduEnvelope_spec (heap : Nat → Nat) (cla ins p1 p2 le : Nat) (isLePresent : Bool)
    (d : List Nat) (data : Option (Nat → Nat))
    (hcla : cla < 256) (hins : ins < 256) (hp1 : p1 < 256) (hp2 : p2 < 256) (hle : le < 256)
    (hlc : d.length ≤ 255)
    (hdata : ∀ i, i < d.length → ∃ m, data = some m ∧ byteAt m i = d.getD i 0) :
    apduEnvelope heap cla ins p1 p2 d.length data le isLePresent =
      [0x40, 0x01, cla, ins, p1, p2] ++ (if 0 < d.length then d.length :: d else [])
        ++ (if isLePresent then [le] else []) := by
  have key : ∀ (E : List Nat) (M : Nat → Nat) (n : Nat), n = E.length → Agree M 0 E →
      (List.range n).map (byteAt M) = E := by
    intro E M n hn hE
    subst hn
    have := map_range_of_agree M E 0 hE
    simpa using this
  unfold apduEnvelope
  apply key
  · unfold apduCmdlen
    cases isLePresent <;> cases d <;> simp <;> omega
  · unfold apduCommandMemory apduCmdlen
    rcases Nat.eq_zero_or_pos d.length with h0 | h0
    · have hd : d = [] := List.length_eq_zero.mp h0
      subst hd
      cases data <;> cases isLePresent <;>
        simp only [List.length_nil, Nat.lt_irrefl, gt_iff_lt, if_false, if_true,
          List.append_nil, List.cons_append, List.nil_append, Agree, Bool.false_eq_true,
          and_true] <;>
        simp (disch := omega) only [byteAt_store_same, byteAt_store_other, and_self]
    · obtain ⟨m, hm, -⟩ := hdata 0 h0
      subst hm
      have hd : ∀ i, i < d.length → byteAt m i = d.getD i 0 := by
        intro i hi
        obtain ⟨m1, hm1, h⟩ := hdata i hi
        cases hm1
        exact h
      rw [if_pos h0]
      simp only [gt_iff_lt, h0, if_true]
      cases isLePresent
      · simp only [Bool.false_eq_true, if_false, List.append_nil]
        rw [agree_append, agree_cons]
        refine ⟨?_, ?_, ?_⟩
        · simp only [Agree, and_true]
          simp (disch := omega) only [byteAt_store_same, byteAt_store_other,
            byteAt_memcpyAt_out, and_self]
        · simp only [List.length_cons, List.length_nil]
          simp (disch := omega) only [byteAt_store_same, byteAt_store_other,
            byteAt_memcpyAt_out]
        · apply agree_of_getD
          intro i hi
          simp only [List.length_cons, List.length_nil]
          rw [byteAt_memcpyAt_in _ _ _ _ _ (by omega) (by omega)]
          have e : 0 + (0 + 1 + 1 + 1 + 1 + 1 + 1) + 1 + i - (2 + 5) = i := by omega
          rw [e]
          exact hd i hi
      · simp only [if_true]
        rw [agree_append, agree_append, agree_cons]
        refine ⟨⟨?_, ?_, ?_⟩, ?_⟩
        · simp only [Agree, and_true]
          simp (disch := omega) only [byteAt_store_same, byteAt_store_other,
            byteAt_memcpyAt_out, and_self]
        · simp only [List.length_cons, List.length_nil]
          simp (disch := omega) only [byteAt_store_same, byteAt_store_other,
            byteAt_memcpyAt_out]
        · apply agree_of_getD
          intro i hi
          simp only [List.length_cons, List.length_nil]
          rw [byteAt_store_other _ _ _ _ (by omega),
            byteAt_memcpyAt_in _ _ _ _ _ (by omega) (by omega)]
          have e : 0 + (0 + 1 + 1 + 1 + 1 + 1 + 1) + 1 + i - (2 + 5) = i := by omega
          rw [e]
          exact hd i hi
        · simp only [Agree, and_true, List.length_cons, List.length_nil]
          have e : 0 + ([64, 1, cla, ins, p1, p2] ++ d.length :: d).length =
              (2 + 4 + d.length + 1) + 1 - 1 := by
            simp only [List.length_append, List.length_cons, List.length_nil]
            omega
          rw [e]
          exact byteAt_store_same _ _ _ hle

/-! ## Response interpretation -/

theorem memcpyInto_length (dst src r : List Nat) (off : Nat)
    (h : memcpyInto dst off src = some r) : r.length = dst.length := by
  unfold memcpyInto at h
  split_ifs at h with hfit
  cases h
  simp only [List.length_append, List.length_take, List.length_drop]
  omega

theorem memcpyInto_some (dst src r : List Nat) (off : Nat)
    (h : memcpyInto dst off src = some r) :
    r.length = dst.length ∧ off + src.length ≤ dst.length := by
  refine ⟨memcpyInto_length dst src r off h, ?_⟩
  unfold memcpyInto at h
  split_ifs at h with hfit
  exact hfit

theorem waitLoop_inv : ∀ (reads : List Read) (incoming : Bool)
    (data_length res_code max_size : Nat) (buffer : List Nat) (len : Nat) (w : WaitResult),
    BUFFER_SIZE ≤ buffer.length → len ≤ buffer.length →
    waitLoop reads incoming data_length res_code max_size buffer len = .ret w →
    w.buffer.length = buffer.length ∧ w.len ≤ w.buffer.length := by
  intro reads
  induction reads with
  | nil =>
    intro incoming dl rc mx buffer len w _ _ h
    simp [waitLoop] at h
  | cons r rest ih =>
    intro incoming dl rc mx buffer len w hb hl h
    cases r with
    | fail n =>
      simp only [waitLoop, Outcome.ret.injEq] at h
      subst h
      exact ⟨rfl, hl⟩
    | got chunk =>
      have hB : BUFFER_SIZE = 255 := rfl
      rw [waitLoop] at h
      simp only at h
      by_cases c1 : chunk.length = 0
      · rw [if_pos c1] at h
        exact ih _ _ _ _ _ _ _ hb hl h
      rw [if_neg c1] at h
      by_cases c2 : incoming = false
      · rw [if_pos c2] at h
        by_cases c3 : chunk.length < 2
        · rw [if_pos c3] at h
          cases h
          exact ⟨rfl, hl⟩
        rw [if_neg c3] at h
        generalize hL : (if decide (chunk.length - 2 ≤ mx) = true then chunk.length - 2 else len)
          = L1 at h
        split at h
        · cases h
        · rename_i buffer1 hm
          have key : buffer1.length = buffer.length ∧ L1 ≤ buffer.length := by
            by_cases c5 : L1 > 0
            · rw [if_pos c5] at hm
              obtain ⟨e1, e2⟩ := memcpyInto_some _ _ _ _ hm
              simp only [List.length_take, List.length_drop] at e2
              refine ⟨e1, ?_⟩
              split_ifs at hL <;> omega
            · rw [if_neg c5] at hm
              cases hm
              exact ⟨rfl, by omega⟩
          split_ifs at h
          · obtain ⟨i1, i2⟩ := ih _ _ _ _ _ _ _ (by omega) (by omega) h
            exact ⟨by omega, i2⟩
          · cases h
            exact ⟨key.1, by simp only; omega⟩
      · rw [if_neg c2] at h
        generalize (if (len + chunk.length % 256) % 256 > mx then
          (chunk.length : Int) - ((((len + chunk.length % 256) % 256 : Nat) : Int) - (mx : Int))
          else (chunk.length : Int)) = n1 at h
        by_cases c3 : n1 < 0
        · rw [if_pos c3] at h
          cases h
        rw [if_neg c3] at h
        split at h
        · cases h
        · rename_i buffer1 hm
          obtain ⟨e1, -⟩ := memcpyInto_some _ _ _ _ hm
          have e3 : (len + chunk.length % 256) % 256 ≤ buffer1.length := by omega
          split_ifs at h
          · obtain ⟨i1, i2⟩ := ih _ _ _ _ _ _ _ (by omega) e3 h
            exact ⟨by omega, i2⟩
          · cases h
            exact ⟨e1, e3⟩

theorem waitResponse_inv (reads : List Read) (stack : List Nat) (w : WaitResult)
    (hstack : stack.length = BUFFER_SIZE)
    (hw : waitResponse reads stack BUFFER_SIZE = .ret w) :
    w.buffer.length = BUFFER_SIZE ∧ w.len ≤ BUFFER_SIZE := by
  obtain ⟨h1, h2⟩ := waitLoop_inv reads false 0 0 BUFFER_SIZE stack BUFFER_SIZE w
    (by omega) (by omega) hw
  exact ⟨by omega, by omega⟩

theorem localAt_of_le (under : Nat → Nat) (buf : List Nat) (n k : Nat) (h : k ≤ n) :
    localAt under buf ((n : Int) - (k : Int)) = buf.getD (n - k) 0 % 256 := by
  unfold localAt
  have e : ¬ ((n : Int) - (k : Int) < 0) := by omega
  have e2 : ((n : Int) - (k : Int)).toNat = n - k := by omega
  rw [if_neg e, e2]

theorem take_append_last_two (l : List Nat) (n : Nat) (h2 : 2 ≤ n) (hn : n ≤ l.length) :
    l.take (n - 2) ++ [l.getD (n - 2) 0, l.getD (n - 1) 0] = l.take n := by
  obtain ⟨m, rfl⟩ : ∃ m, n = m + 2 := ⟨n - 2, by omega⟩
  have e1 : m + 2 - 2 = m := by omega
  have e2 : m + 2 - 1 = m + 1 := by omega
  have t1 : l.take (m + 1) = l.take m ++ [l.getD m 0] := by
    rw [List.take_succ, List.getD_eq_getElem _ _ (show m < l.length by omega),
      List.getElem?_eq_getElem (show m < l.length by omega)]
    rfl
  have t2 : l.take (m + 2) = l.take (m + 1) ++ [l.getD (m + 1) 0] := by
    rw [List.take_succ, List.getD_eq_getElem _ _ (show m + 1 < l.length by omega),
      List.getElem?_eq_getElem (show m + 1 < l.length by omega)]
    rfl
  rw [e1, e2, t2, t1, List.append_assoc]
  rfl

/-! ## Frame reassembly -/

theorem waitLoop_zero (rest : List Read) (incoming : Bool) (dl rc mx : Nat) (B : List Nat)
    (len : Nat) :
    waitLoop (.got [] :: rest) incoming dl rc mx B len = waitLoop rest incoming dl rc mx B len := by
  rw [waitLoop]
  simp

theorem waitLoop_first (first : List Nat) (rest : List Read) (dl0 rc0 mx len : Nat)
    (B : List Nat) (h2 : 2 ≤ first.length) (hmx : first.length - 2 ≤ mx)
    (hB : first.length - 2 ≤ B.length) :
    waitLoop (.got first :: rest) false dl0 rc0 mx B len =
      if first.length - 2 < first.getD 1 0 % 256 then
        waitLoop rest true (first.getD 1 0 % 256) (first.getD 0 0 % 256) mx
          (first.drop 2 ++ B.drop (first.length - 2)) (first.length - 2)
      else .ret ⟨(first.getD 0 0 % 256 : Nat), first.drop 2 ++ B.drop (first.length - 2),
        first.length - 2⟩ := by
  rw [waitLoop]
  have e0 : ¬ first.length = 0 := by omega
  have e1 : ¬ first.length < 2 := by omega
  simp only [e0, e1, if_false, hmx, decide_True, if_true, Bool.true_and, decide_eq_true_eq]
  have hm : (if first.length - 2 > 0 then
      memcpyInto B 0 ((first.drop 2).take (first.length - 2)) else some B)
      = some (first.drop 2 ++ B.drop (first.length - 2)) := by
    have et : (first.drop 2).take (first.length - 2) = first.drop 2 := by
      apply List.take_of_length_le
      simp
    split_ifs with c
    · unfold memcpyInto
      rw [et, if_pos (by simp; omega)]
      simp
    · have e3 : first.length - 2 = 0 := by omega
      have e4 : first.drop 2 = [] := by
        apply List.eq_nil_of_length_eq_zero
        simp; omega
      simp [e3, e4]
  rw [hm]


theorem waitLoop_more (c : List Nat) (rest : List Read) (dl rc mx : Nat) (acc B : List Nat)
    (hc : c ≠ []) (hmx : acc.length + c.length ≤ mx) (h255 : mx ≤ 255)
    (hB : acc.length + c.length ≤ B.length) :
    waitLoop (.got c :: rest) true dl rc mx (acc ++ B.drop acc.length) acc.length =
      if (acc ++ c).length < dl then
        waitLoop rest true dl rc mx ((acc ++ c) ++ B.drop (acc ++ c).length) (acc ++ c).length
      else .ret ⟨(rc : Nat), (acc ++ c) ++ B.drop (acc ++ c).length, (acc ++ c).length⟩ := by
  rw [waitLoop]
  have e0 : ¬ c.length = 0 := by
    intro h
    exact hc (List.eq_nil_of_length_eq_zero h)
  have e1 : (acc.length + c.length % 256) % 256 = acc.length + c.length := by omega
  have e2 : ¬ (acc.length + c.length > mx) := by omega
  have e3 : ¬ ((c.length : Int) < 0) := by omega
  simp only [e0, if_false, Bool.true_eq_false, e1, e2, e3, Int.toNat_ofNat, List.take_length,
    List.length_append]
  have hm : memcpyInto (acc ++ B.drop acc.length) acc.length c =
      some (acc ++ c ++ B.drop (acc.length + c.length)) := by
    unfold memcpyInto
    rw [if_pos (by simp; omega)]
    have t1 : List.take acc.length (acc ++ B.drop acc.length) = acc := by simp
    have t2 : List.drop (acc.length + c.length) (acc ++ B.drop acc.length) =
        B.drop (acc.length + c.length) := by
      rw [List.drop_append, List.drop_drop, Nat.add_comm]
    rw [t1, t2]
  rw [hm]

theorem waitLoop_gather (dl rc mx : Nat) (B : List Nat) (h255 : mx ≤ 255) :
    ∀ (chunks : List (List Nat)) (acc : List Nat),
      acc.length + chunks.flatten.length ≤ mx → acc.length + chunks.flatten.length ≤ B.length →
      waitLoop (chunks.map .got) true dl rc mx (acc ++ B.drop acc.length) acc.length =
        match gather dl acc chunks with
        | none => .blocked
        | some p => .ret ⟨(rc : Nat), p ++ B.drop p.length, p.length⟩ := by
  intro chunks
  induction chunks with
  | nil =>
    intro acc _ _
    simp [waitLoop, gather]
  | cons c cs ih =>
    intro acc h1 h2
    simp only [List.flatten_cons, List.length_append] at h1 h2
    by_cases hc : c = []
    · subst hc
      rw [List.map_cons, waitLoop_zero, gather, if_pos rfl]
      exact ih acc (by simpa using h1) (by simpa using h2)
    · rw [List.map_cons, waitLoop_more c _ dl rc mx acc B hc (by omega) h255 (by omega), gather,
        if_neg hc]
      split_ifs with h
      · exact ih (acc ++ c) (by simp only [List.length_append]; omega)
          (by simp only [List.length_append]; omega)
      · rfl

theorem waitResponse_reassemble (B : List Nat) (cap : Nat) (h255 : cap ≤ 255)
    (hB : cap ≤ B.length) :
    ∀ (chunks : List (List Nat)), chunks.flatten.length ≤ cap + 2 →
      waitResponse (chunks.map .got) B cap =
        match reassemble chunks with
        | .waiting => .blocked
        | .shortHeader => .ret ⟨-1, B, cap⟩
        | .frame code p => .ret ⟨(code : Nat), p ++ B.drop p.length, p.length⟩ := by
  intro chunks
  unfold waitResponse
  induction chunks with
  | nil =>
    intro _
    simp [waitLoop, reassemble]
  | cons c cs ih =>
    intro h
    simp only [List.flatten_cons, List.length_append] at h
    by_cases hc : c = []
    · subst hc
      rw [List.map_cons, waitLoop_zero, reassemble, if_pos rfl]
      exact ih (by simpa using h)
    · rw [reassemble, if_neg hc]
      by_cases h2 : c.length < 2
      · rw [if_pos h2, List.map_cons, waitLoop]
        have e0 : ¬ c.length = 0 := by
          intro h0
          exact hc (List.eq_nil_of_length_eq_zero h0)
        simp [e0, h2]
      · rw [if_neg h2, List.map_cons,
          waitLoop_first c _ 0 0 cap cap B (by omega) (by omega) (by omega)]
        have e : (c.drop 2).length = c.length - 2 := by simp
        rw [e]
        split_ifs with h3
        · have := waitLoop_gather (c.getD 1 0 % 256) (c.getD 0 0 % 256) cap B h255 cs (c.drop 2)
            (by rw [e]; omega) (by rw [e]; omega)
          rw [e] at this
          rw [this]
          cases gather (c.getD 1 0 % 256) (c.drop 2) cs <;> rfl
        · simp only [e]


theorem flatten_eq_nil_of_ne_nil (cs : List (List Nat)) (hne : ∀ c ∈ cs, c ≠ [])
    (h : cs.flatten = []) : cs = [] := by
  cases cs with
  | nil => rfl
  | cons c cs =>
    exfalso
    simp only [List.flatten_cons, List.append_eq_nil] at h
    exact hne c (by simp) h.1

theorem gather_partition : ∀ (rest : List (List Nat)) (acc : List Nat) (dl : Nat),
    (∀ c ∈ rest, c ≠ []) → dl = (acc ++ rest.flatten).length → acc.length < dl →
    gather dl acc rest = some (acc ++ rest.flatten) := by
  intro rest
  induction rest with
  | nil =>
    intro acc dl _ h1 h2
    simp at h1
    omega
  | cons c cs ih =>
    intro acc dl hne h1 h2
    have hc : c ≠ [] := hne c (by simp)
    have hcs : ∀ x ∈ cs, x ≠ [] := fun x hx => hne x (by simp [hx])
    rw [gather, if_neg hc]
    simp only [List.flatten_cons, List.length_append] at h1
    split_ifs with h
    · rw [ih (acc ++ c) dl hcs (by simp only [List.length_append]; omega) h]
      simp
    · simp only [List.length_append] at h
      have e : cs.flatten = [] := List.eq_nil_of_length_eq_zero (by omega)
      rw [flatten_eq_nil_of_ne_nil cs hcs e]
      simp

theorem gather_inv : ∀ (chunks : List (List Nat)) (acc p : List Nat) (dl : Nat),
    gather dl acc chunks = some p →
    ∃ k, k ≤ chunks.length ∧ p = acc ++ (chunks.take k).flatten ∧ dl ≤ p.length := by
  intro chunks
  induction chunks with
  | nil =>
    intro acc p dl h
    simp [gather] at h
  | cons c cs ih =>
    intro acc p dl h
    rw [gather] at h
    split_ifs at h with h1 h2
    · obtain ⟨k, hk, hp, hd⟩ := ih acc p dl h
      exact ⟨k + 1, by simp; omega, by simp [h1, hp], hd⟩
    · obtain ⟨k, hk, hp, hd⟩ := ih (acc ++ c) p dl h
      exact ⟨k + 1, by simp; omega, by simp [hp], hd⟩
    · cases h
      exact ⟨1, by simp, by simp, by omega⟩

theorem flatten_take_length_le (chunks : List (List Nat)) (k : Nat) :
    ((chunks.take k).flatten).length ≤ chunks.flatten.length := by
  conv_rhs => rw [← List.take_append_drop k chunks]
  rw [List.flatten_append, List.length_append]
  omega

theorem getD_append_left (l r : List Nat) (i : Nat) (h : i < l.length) :
    (l ++ r).getD i 0 = l.getD i 0 := by
  rw [List.getD_eq_getElem _ _ (by simp; omega), List.getD_eq_getElem _ _ h,
    List.getElem_append_left h]

theorem reassemble_inv : ∀ (chunks : List (List Nat)) (code : Nat) (p : List Nat),
    reassemble chunks = .frame code p →
    ∃ k, k ≤ chunks.length ∧ 2 ≤ ((chunks.take k).flatten).length ∧
      code = ((chunks.take k).flatten).getD 0 0 % 256 ∧
      p = ((chunks.take k).flatten).drop 2 ∧
      ((chunks.take k).flatten).getD 1 0 % 256 ≤ p.length := by
  intro chunks
  induction chunks with
  | nil =>
    intro code p h
    simp [reassemble] at h
  | cons c cs ih =>
    intro code p h
    rw [reassemble] at h
    by_cases h1 : c = []
    · rw [if_pos h1] at h
      obtain ⟨k, hk, a, b, d, e⟩ := ih code p h
      refine ⟨k + 1, by simp; omega, ?_⟩
      subst h1
      simp only [List.take_succ_cons, List.flatten_cons, List.nil_append]
      exact ⟨a, b, d, e⟩
    rw [if_neg h1] at h
    by_cases h2 : c.length < 2
    · rw [if_pos h2] at h
      cases h
    rw [if_neg h2] at h
    have hc2 : 2 ≤ c.length := by omega
    by_cases h3 : (c.drop 2).length < c.getD 1 0 % 256
    · rw [if_pos h3] at h
      cases hg : gather (c.getD 1 0 % 256) (c.drop 2) cs with
      | none =>
        rw [hg] at h
        cases h
      | some q =>
        rw [hg] at h
        simp only [Reassembled.frame.injEq] at h
        obtain ⟨hcode, hq⟩ := h
        subst hq
        obtain ⟨k, hk, hp, hd⟩ := gather_inv cs (c.drop 2) q _ hg
        refine ⟨k + 1, by simp; omega, ?_, ?_, ?_, ?_⟩
        · simp only [List.take_succ_cons, List.flatten_cons, List.length_append]
          omega
        · simp only [List.take_succ_cons, List.flatten_cons]
          rw [getD_append_left _ _ _ (by omega)]
          exact hcode.symm
        · simp only [List.take_succ_cons, List.flatten_cons]
          rw [List.drop_append_of_le_length hc2]
          exact hp
        · simp only [List.take_succ_cons, List.flatten_cons]
          rw [getD_append_left _ _ _ (by omega)]
          exact hd
    · rw [if_neg h3] at h
      simp only [Reassembled.frame.injEq] at h
      obtain ⟨hcode, hq⟩ := h
      subst hq
      refine ⟨1, by simp, ?_, ?_, ?_, ?_⟩
      · simpa using hc2
      · simpa using hcode.symm
      · simp
      · simpa using Nat.le_of_not_lt h3


theorem waitLoop_blocked_step (chunk : List Nat) (rest : List Read) (incoming : Bool)
    (dl rc mx : Nat) (B : List Nat) (len : Nat)
    (h : waitLoop (.got chunk :: rest) incoming dl rc mx B len = .blocked) :
    ∃ inc1 dl1 rc1 B1 len1, waitLoop rest inc1 dl1 rc1 mx B1 len1 = .blocked ∧
      ∀ rest2, waitLoop (.got chunk :: rest2) incoming dl rc mx B len =
        waitLoop rest2 inc1 dl1 rc1 mx B1 len1 := by
  rw [waitLoop] at h
  simp only at h
  by_cases c1 : chunk.length = 0
  · rw [if_pos c1] at h
    exact ⟨_, _, _, _, _, h, fun rest2 => by rw [waitLoop]; simp only; rw [if_pos c1]⟩
  rw [if_neg c1] at h
  by_cases c2 : incoming = false
  · rw [if_pos c2] at h
    by_cases c3 : chunk.length < 2
    · rw [if_pos c3] at h
      cases h
    rw [if_neg c3] at h
    generalize hL : (if decide (chunk.length - 2 ≤ mx) = true then chunk.length - 2 else len)
      = L1 at h
    cases hm : (if L1 > 0 then memcpyInto B 0 (List.take L1 (List.drop 2 chunk)) else some B) with
    | none =>
      rw [hm] at h
      cases h
    | some B1 =>
      rw [hm] at h
      simp only at h
      split_ifs at h with c4
      refine ⟨_, _, _, _, _, h, fun rest2 => ?_⟩
      rw [waitLoop]
      simp only
      rw [if_neg c1, if_pos c2, if_neg c3, hL, hm]
      simp only
      rw [if_pos c4]
  · rw [if_neg c2] at h
    generalize hn : (if (len + chunk.length % 256) % 256 > mx then
      (chunk.length : Int) - ((((len + chunk.length % 256) % 256 : Nat) : Int) - (mx : Int))
      else (chunk.length : Int)) = n1 at h
    by_cases c3 : n1 < 0
    · rw [if_pos c3] at h
      cases h
    rw [if_neg c3] at h
    cases hm : memcpyInto B len (List.take n1.toNat chunk) with
    | none =>
      rw [hm] at h
      cases h
    | some B1 =>
      rw [hm] at h
      simp only at h
      split_ifs at h with c4
      refine ⟨_, _, _, _, _, h, fun rest2 => ?_⟩
      rw [waitLoop]
      simp only
      rw [if_neg c1, if_neg c2, hn, if_neg c3, hm]
      simp only
      rw [if_pos c4]

theorem waitLoop_blocked_fail (r : Int) : ∀ (pre : List Read) (incoming : Bool)
    (dl rc mx : Nat) (B : List Nat) (len : Nat),
    waitLoop pre incoming dl rc mx B len = .blocked →
    ∃ b l, ∀ more, waitLoop (pre ++ .fail r :: more) incoming dl rc mx B len = .ret ⟨r, b, l⟩ := by
  intro pre
  induction pre with
  | nil =>
    intro incoming dl rc mx B len _
    exact ⟨B, len, fun more => by simp [waitLoop]⟩
  | cons x rest ih =>
    intro incoming dl rc mx B len h
    cases x with
    | fail n => simp [waitLoop] at h
    | got chunk =>
      obtain ⟨inc1, dl1, rc1, B1, len1, h1, h2⟩ :=
        waitLoop_blocked_step chunk rest incoming dl rc mx B len h
      obtain ⟨b, l, hb⟩ := ih inc1 dl1 rc1 mx B1 len1 h1
      exact ⟨b, l, fun more => by rw [List.cons_append, h2, hb]⟩

/-! ## Shape of the accepted buffers -/

theorem tlvParseData_inv (fuel : Nat) (data : Nat → Nat) (length : Nat) (o : TLVobject)
    (h : tlvParseData fuel data length = some (some o)) :
    ∃ f t p1, fuel = f + 1 ∧ 2 ≤ length ∧ readTag data length = some (some (t, p1)) ∧
      (readLength data p1).1 ≤ (length + 2 ^ 32 - (readLength data p1).2) % 2 ^ 32 ∧
      ((¬ (byteAt data 0 &&& 0x20 = 0x20) ∧
          o = .prim t (readLength data p1).1 ((byteAt data 0 &&& 0xC0) >>> 6)
            ((List.range (readLength data p1).1).map
              (fun i => byteAt data ((readLength data p1).2 + i)))) ∨
       (byteAt data 0 &&& 0x20 = 0x20 ∧
          ∃ slots, childLoop (tlvParseData f) f data length (readLength data p1).2 [] = some slots ∧
            o = constructedObject t (readLength data p1).1 ((byteAt data 0 &&& 0xC0) >>> 6)
              slots)) := by
  cases fuel with
  | zero => simp [tlvParseData] at h
  | succ f =>
    have h2 : 2 ≤ length := by
      by_contra hc
      rw [tlvParseData, if_pos (by omega)] at h
      cases h
    cases htag : readTag data length with
    | none =>
      rw [tlvParseData, if_neg (by omega)] at h
      simp only [htag] at h
      cases h
    | some r =>
      cases r with
      | none =>
        rw [tlvParseData, if_neg (by omega)] at h
        simp only [htag] at h
        cases h
      | some tp =>
        obtain ⟨t, p1⟩ := tp
        refine ⟨f, t, p1, rfl, h2, rfl, ?_⟩
        generalize hrl : readLength data p1 = rl
        obtain ⟨n, p2⟩ := rl
        simp only
        by_cases hfit : n ≤ (length + 2 ^ 32 - p2) % 2 ^ 32
        · refine ⟨hfit, ?_⟩
          by_cases hc : byteAt data 0 &&& 0x20 = 0x20
          · right
            rw [tlvParseData_cons_step f data length t p1 n p2 h2 htag hrl hfit hc] at h
            cases hl : childLoop (tlvParseData f) f data length p2 [] with
            | none =>
              rw [hl] at h
              cases h
            | some slots =>
              rw [hl] at h
              simp only [Option.map_some', Option.some.injEq] at h
              exact ⟨hc, slots, rfl, h.symm⟩
          · left
            rw [tlvParseData_prim_step f data length t p1 n p2 h2 htag hrl hfit hc] at h
            simp only [Option.some.injEq] at h
            exact ⟨hc, h.symm⟩
        · exfalso
          rw [tlvParseData_reject_step f data length t p1 n p2 htag hrl (by omega)] at h
          cases h

theorem foldl_shift_mod (M : Nat) (l : List Nat) : ∀ a : Nat,
    l.foldl (fun acc b => ((acc <<< 8) + b) % M) (a % M) =
      (l.foldl (fun acc b => acc * 256 + b) a) % M := by
  induction l with
  | nil =>
    intro a
    rfl
  | cons b l ih =>
    intro a
    simp only [List.foldl_cons]
    have e : ((a % M) <<< 8 + b) % M = (a * 256 + b) % M := by
      rw [Nat.shiftLeft_eq]
      norm_num
      rw [Nat.add_mod, Nat.mul_mod, Nat.mod_mod, ← Nat.mul_mod, ← Nat.add_mod]
    rw [e]
    exact ih (a * 256 + b)

theorem beValue_cons (a : Nat) (l : List Nat) :
    beValue (a :: l) = l.foldl (fun acc b => acc * 256 + b) a := by
  simp [beValue]

theorem beValue_lt (l : List Nat) (h : ∀ b ∈ l, b < 256) : beValue l < 256 ^ l.length := by
  have key : ∀ (l : List Nat) (a : Nat), (∀ b ∈ l, b < 256) →
      l.foldl (fun acc b => acc * 256 + b) a < (a + 1) * 256 ^ l.length := by
    intro l
    induction l with
    | nil =>
      intro a _
      simp
    | cons b l ih =>
      intro a hb
      simp only [List.foldl_cons, List.length_cons]
      have h1 := ih (a * 256 + b) (fun x hx => hb x (by simp [hx]))
      have h2 : b < 256 := hb b (by simp)
      calc List.foldl (fun acc b => acc * 256 + b) (a * 256 + b) l
          < (a * 256 + b + 1) * 256 ^ l.length := h1
        _ ≤ ((a + 1) * 256) * 256 ^ l.length := by
            apply Nat.mul_le_mul_right
            omega
        _ = (a + 1) * 256 ^ (l.length + 1) := by ring
  have := key l 0 h
  simpa [beValue] using this

theorem lenLoop_eq (data : Nat → Nat) (p count : Nat) :
    lenLoop data p count =
      beValue ((List.range count).map (fun k => byteAt data (p + k))) % 2 ^ 32 := by
  unfold lenLoop beValue
  rw [List.foldl_map]
  have := foldl_shift_mod (2 ^ 32) ((List.range count).map (fun k => byteAt data (p + k))) 0
  rw [List.foldl_map, List.foldl_map] at this
  exact this

theorem tagLoop_inv (data : Nat → Nat) (length : Nat) : ∀ (fuel tag p t q : Nat), p < 256 →
    tagLoop fuel data length tag p = some (some (t, q)) →
    ∃ m, m < fuel ∧ (∀ i, i < m → 128 ≤ byteAt data ((p + i) % 256)) ∧
      byteAt data ((p + m) % 256) < 128 ∧ q = (p + m) % 256 ∧
      t = ((List.range m).map (fun i => byteAt data ((p + i) % 256))).foldl
        (fun acc b => ((acc <<< 8) + b) % 2 ^ 32) tag := by
  intro fuel
  induction fuel with
  | zero =>
    intro tag p t q _ h
    simp [tagLoop] at h
  | succ fuel ih =>
    intro tag p t q hp h
    by_cases hb : 128 ≤ byteAt data p
    · by_cases hl : (p + 1) % 256 ≤ length
      · rw [tagLoop_cont fuel data length tag p hb hl] at h
        obtain ⟨m, h1, h2, h3, h4, h5⟩ := ih _ _ t q (Nat.mod_lt _ (by decide)) h
        have e : ∀ i, ((p + 1) % 256 + i) % 256 = (p + (i + 1)) % 256 := by
          intro i
          omega
        refine ⟨m + 1, by omega, ?_, ?_, ?_, ?_⟩
        · intro i hi
          cases i with
          | zero => simpa [Nat.mod_eq_of_lt hp] using hb
          | succ i =>
            rw [← e]
            exact h2 i (by omega)
        · rw [← e]
          exact h3
        · rw [← e]
          exact h4
        · rw [List.range_succ_eq_map, List.map_cons, List.foldl_cons, List.map_map, h5]
          simp only [Nat.add_zero, Nat.mod_eq_of_lt hp]
          congr 1
          apply List.map_congr_left
          intro i _
          simp only [Function.comp, e]
      · rw [tagLoop] at h
        have := (land80 _ (byteAt_lt data p)).mpr hb
        simp only [this, if_true] at h
        rw [if_pos (by omega)] at h
        cases h
    · rw [tagLoop_stop fuel data length tag p (by omega)] at h
      simp only [Option.some.injEq, Prod.mk.injEq] at h
      obtain ⟨rfl, rfl⟩ := h
      exact ⟨0, by omega, by intro i hi; omega, by simpa [Nat.mod_eq_of_lt hp] using hb,
        by simp [Nat.mod_eq_of_lt hp], by simp⟩

theorem readTag_inv (data : Nat → Nat) (length t p1 : Nat)
    (h : readTag data length = some (some (t, p1))) :
    (¬ (byteAt data 0 &&& 0x1F = 0x1F) → t = byteAt data 0 ∧ p1 = 1) ∧
    (byteAt data 0 &&& 0x1F = 0x1F →
      ∃ m, m ≤ 255 ∧ (∀ i, i < m → 0x80 ≤ byteAt data ((1 + i) % 256)) ∧
        byteAt data ((1 + m) % 256) < 0x80 ∧ p1 = ((1 + m) % 256 + 1) % 256 ∧
        t = beValue (byteAt data 0 ::
          (List.range (m + 1)).map (fun i => byteAt data ((1 + i) % 256))) % 2 ^ 32) := by
  unfold readTag at h
  simp only at h
  constructor
  · intro hc
    rw [if_neg hc] at h
    simp only [Option.some.injEq, Prod.mk.injEq] at h
    exact ⟨h.1.symm, h.2.symm⟩
  · intro hc
    rw [if_pos hc] at h
    cases hl : tagLoop 256 data length (byteAt data 0) 1 with
    | none =>
      rw [hl] at h
      cases h
    | some r =>
      cases r with
      | none =>
        rw [hl] at h
        cases h
      | some tq =>
        obtain ⟨t0, q⟩ := tq
        rw [hl] at h
        simp only [Option.some.injEq, Prod.mk.injEq] at h
        obtain ⟨ht, hp⟩ := h
        obtain ⟨m, h1, h2, h3, h4, h5⟩ := tagLoop_inv data length 256 _ 1 t0 q (by decide) hl
        refine ⟨m, by omega, h2, h3, by rw [← hp, h4], ?_⟩
        rw [← ht, h5, h4, beValue_cons, List.range_succ, List.map_append, List.foldl_append,
          ← foldl_shift_mod, ← foldl_shift_mod, Nat.mod_eq_of_lt (show byteAt data 0 < 2 ^ 32 from
            Nat.lt_of_lt_of_le (byteAt_lt data 0) (by decide))]
        simp only [List.map_cons, List.map_nil, List.foldl_cons, List.foldl_nil, Nat.mod_mod]

theorem childLoop_scanned (parse : (Nat → Nat) → Nat → Option (Option TLVobject))
    (data : Nat → Nat) (length : Nat) : ∀ (fuel p : Nat) (acc slots : List (Option TLVobject)),
    childLoop parse fuel data length p acc = some slots →
    ∃ cs, slots = acc ++ cs ∧ Scanned parse data length p cs := by
  intro fuel
  induction fuel with
  | zero =>
    intro p acc slots h
    simp [childLoop] at h
  | succ fuel ih =>
    intro p acc slots h
    by_cases hp : p < length
    · cases hs : skipTag data p with
      | none =>
        rw [childLoop, if_pos hp] at h
        simp only [hs] at h
        cases h
      | some p1 =>
        cases hc : parse (fun i => data (p + i))
            ((((readLength data p1).2 + (readLength data p1).1) % 256 + 256 - p) % 256) with
        | none =>
          rw [childLoop, if_pos hp] at h
          simp only [hs, hc] at h
          cases h
        | some child =>
          rw [childLoop_step parse fuel data length p p1 _ _ acc child hp hs rfl hc] at h
          obtain ⟨cs, h1, h2⟩ := ih _ _ _ h
          refine ⟨child :: cs, by simp [h1], hp, _, ?_, hc, h2⟩
          simp [scanNext, hs]
    · rw [childLoop_done parse fuel data length p acc (by omega)] at h
      simp only [Option.some.injEq] at h
      exact ⟨[], by simp [h], by simpa [Scanned] using hp⟩

theorem scanned_childLoop (parse : (Nat → Nat) → Nat → Option (Option TLVobject))
    (data : Nat → Nat) (length : Nat) : ∀ (cs : List (Option TLVobject)) (fuel p : Nat)
    (acc : List (Option TLVobject)), Scanned parse data length p cs → cs.length < fuel →
    childLoop parse fuel data length p acc = some (acc ++ cs) := by
  intro cs
  induction cs with
  | nil =>
    intro fuel p acc h hf
    obtain ⟨k, rfl⟩ : ∃ k, fuel = k + 1 := ⟨fuel - 1, by simp at hf; omega⟩
    rw [childLoop_done parse k data length p acc h]
    simp
  | cons c cs ih =>
    intro fuel p acc h hf
    obtain ⟨k, rfl⟩ : ∃ k, fuel = k + 1 := ⟨fuel - 1, by simp at hf; omega⟩
    obtain ⟨hp, p3, h1, h2, h3⟩ := h
    unfold scanNext at h1
    cases hs : skipTag data p with
    | none =>
      rw [hs] at h1
      cases h1
    | some p1 =>
      rw [hs] at h1
      simp only [Option.some.injEq] at h1
      subst h1
      rw [childLoop_step parse k data length p p1 (readLength data p1).1 (readLength data p1).2
          acc c hp hs rfl h2,
        ih k _ (acc ++ [c]) h3 (by simp at hf; omega)]
      simp

/-! ## Every node of a decoded tree -/

theorem everySlot_of_scanned (P : (Nat → Nat) → TLVobject → Prop)
    (parse : (Nat → Nat) → Nat → Option (Option TLVobject))
    (hparse : ∀ d l o, parse d l = some (some o) → EveryNode P o d l)
    (data : Nat → Nat) (length : Nat) :
    ∀ (cs : List (Option TLVobject)) (p : Nat), Scanned parse data length p cs →
      EverySlot P cs data length p := by
  intro cs
  induction cs with
  | nil => intro p _; simp [EverySlot]
  | cons c cs ih =>
    intro p h
    obtain ⟨-, p3, h1, h2, h3⟩ := h
    cases c with
    | none =>
      rw [EverySlot]
      exact ⟨p3, h1, ih p3 h3⟩
    | some o =>
      rw [EverySlot]
      exact ⟨p3, h1, hparse _ _ _ h2, ih p3 h3⟩

theorem everyNode_of_parse (P : (Nat → Nat) → TLVobject → Prop)
    (hP : ∀ fuel data length o, tlvParseData fuel data length = some (some o) → P data o) :
    ∀ (fuel : Nat) (data : Nat → Nat) (length : Nat) (o : TLVobject),
      tlvParseData fuel data length = some (some o) → EveryNode P o data length := by
  intro fuel
  induction fuel with
  | zero =>
    intro data length o h
    simp [tlvParseData] at h
  | succ f ih =>
    intro data length o h
    have hp := hP _ _ _ _ h
    obtain ⟨f1, t, p1, hf, -, htag, -, ho⟩ := tlvParseData_inv _ data length o h
    have hf1 : f1 = f := by omega
    subst hf1
    rcases ho with ⟨-, ho⟩ | ⟨-, slots, hs, ho⟩
    · subst ho
      rw [EveryNode]
      exact hp
    · subst ho
      obtain ⟨cs, h1, h2⟩ := childLoop_scanned _ data length f1 _ [] _ hs
      simp only [List.nil_append] at h1
      subst h1
      cases slots with
      | nil =>
        rw [constructedObject, EveryNode]
        exact hp
      | cons x xs =>
        rw [constructedObject, EveryNode]
        exact ⟨hp, p1, htag, everySlot_of_scanned P _ (ih) data length _ _ h2⟩

/-! ## Header size and leaf values -/

theorem tagEnd_spec (data : Nat → Nat) : ∀ (fuel p : Nat),
    ∃ k, tagEnd fuel data p = p + k ∧ k ≤ fuel ∧ (∀ i, i < k → 0x80 ≤ byteAt data (p + i)) ∧
      (k < fuel → byteAt data (p + k) < 0x80) := by
  intro fuel
  induction fuel with
  | zero => intro p; exact ⟨0, rfl, le_refl _, fun i hi => absurd hi (by omega), fun h => absurd h (by omega)⟩
  | succ f ih =>
    intro p
    by_cases hb : byteAt data p < 0x80
    · refine ⟨0, ?_, by omega, fun i hi => absurd hi (by omega), fun _ => hb⟩
      rw [tagEnd, if_pos hb]; rfl
    · obtain ⟨k, h1, h2, h3, h4⟩ := ih (p + 1)
      refine ⟨k + 1, ?_, by omega, ?_, ?_⟩
      · rw [tagEnd, if_neg hb, h1]; omega
      · intro i hi
        cases i with
        | zero => simpa using hb
        | succ j =>
          have := h3 j (by omega)
          rwa [show p + (j + 1) = p + 1 + j by omega]
      · intro hk
        have := h4 (by omega)
        rwa [show p + (k + 1) = p + 1 + k by omega]

theorem readLength_snd_of_lt (data : Nat → Nat) (p : Nat)
    (h : (if byteAt data p < 0x80 then p + 1 else p + 1 + (byteAt data p &&& 0x7F)) < 256) :
    (readLength data p).2 =
      if byteAt data p < 0x80 then p + 1 else p + 1 + (byteAt data p &&& 0x7F) := by
  unfold readLength
  by_cases hb : byteAt data p < 0x80
  · rw [if_pos hb] at h ⊢
    rw [if_pos hb]
    exact Nat.mod_eq_of_lt h
  · rw [if_neg hb] at h ⊢
    rw [if_neg hb]
    simp only
    rw [Nat.mod_eq_of_lt (show p + 1 < 256 by omega), Nat.mod_eq_of_lt h]

theorem header_end (data : Nat → Nat) (length t p1 : Nat)
    (htag : readTag data length = some (some (t, p1))) (hh : headerSize data < 256) :
    (readLength data p1).2 = headerSize data := by
  obtain ⟨hs, hl⟩ := readTag_inv data length t p1 htag
  unfold headerSize at hh ⊢
  by_cases hb : byteAt data 0 &&& 0x1F = 0x1F
  · rw [if_pos hb] at hh ⊢
    simp only at hh ⊢
    obtain ⟨m, hm, h1, h2, h3, -⟩ := hl hb
    obtain ⟨k, k1, k2, k3, k4⟩ := tagEnd_spec data 256 1
    have hk : k + 2 < 256 := by
      rw [k1] at hh
      split at hh <;> omega
    have hmk : m = k := by
      rcases Nat.lt_trichotomy m k with hlt | heq | hgt
      · have a := k3 m hlt
        rw [Nat.mod_eq_of_lt (show 1 + m < 256 by omega)] at h2
        omega
      · exact heq
      · have a := h1 k hgt
        rw [Nat.mod_eq_of_lt (show 1 + k < 256 by omega)] at a
        have b := k4 (by omega)
        omega
    subst hmk
    have hp1 : p1 = tagEnd 256 data 1 + 1 := by
      rw [h3, k1, Nat.mod_eq_of_lt (show 1 + m < 256 by omega),
        Nat.mod_eq_of_lt (show 1 + m + 1 < 256 by omega)]
    rw [← hp1] at hh ⊢
    exact readLength_snd_of_lt data p1 hh
  · rw [if_neg hb] at hh ⊢
    simp only at hh ⊢
    obtain ⟨-, hp1⟩ := hs hb
    subst hp1
    exact readLength_snd_of_lt data 1 hh

theorem leafValue_of_parse (fuel : Nat) (data : Nat → Nat) (length : Nat) (o : TLVobject)
    (h : tlvParseData fuel data length = some (some o)) : LeafValue data o := by
  obtain ⟨f1, t, p1, -, -, htag, -, ho⟩ := tlvParseData_inv _ data length o h
  rcases ho with ⟨-, ho⟩ | ⟨-, slots, -, ho⟩
  · subst ho
    refine ⟨by simp, fun hh => ?_⟩
    rw [header_end data length t p1 htag hh]
  · subst ho
    cases slots <;> trivial

theorem leafValue_everyNode (fuel : Nat) (data : Nat → Nat) (length : Nat) (o : TLVobject)
    (h : tlvParseData fuel data length = some (some o)) : EveryNode LeafValue o data length :=
  everyNode_of_parse LeafValue leafValue_of_parse fuel data length o h

/-! ## Children of a constructed node -/

theorem skipLoop_run (data : Nat → Nat) : ∀ (k fuel q : Nat), k < fuel → q + k + 1 < 256 →
    (∀ i, i < k → 0x80 ≤ byteAt data (q + i)) → byteAt data (q + k) < 0x80 →
    skipLoop fuel data q = some (q + k + 1) := by
  intro k
  induction k with
  | zero =>
    intro fuel q hf hq _ hb
    obtain ⟨f, rfl⟩ : ∃ f, fuel = f + 1 := ⟨fuel - 1, by omega⟩
    rw [skipLoop_stop f data q (by simpa using hb), Nat.mod_eq_of_lt (by omega)]
  | succ k ih =>
    intro fuel q hf hq hc hb
    obtain ⟨f, rfl⟩ : ∃ f, fuel = f + 1 := ⟨fuel - 1, by omega⟩
    rw [skipLoop_cont f data q (by simpa using hc 0 (by omega)),
      Nat.mod_eq_of_lt (by omega), ih f (q + 1) (by omega) (by omega)
        (fun i hi => by
          have := hc (i + 1) (by omega)
          rwa [show q + (i + 1) = q + 1 + i by omega] at this)
        (by rwa [show q + (k + 1) = q + 1 + k by omega] at hb)]
    congr 1
    omega

theorem byteAt_view (data : Nat → Nat) (p j : Nat) :
    byteAt (fun i => data (p + i)) j = byteAt data (p + j) := rfl

theorem skipTag_view (data : Nat → Nat) (p : Nat)
    (h : p + (if byteAt (fun i => data (p + i)) 0 &&& 0x1F = 0x1F
      then tagEnd 256 (fun i => data (p + i)) 1 + 1 else 1) < 256) :
    skipTag data p = some (p + (if byteAt (fun i => data (p + i)) 0 &&& 0x1F = 0x1F
      then tagEnd 256 (fun i => data (p + i)) 1 + 1 else 1)) := by
  have h0 : byteAt (fun i => data (p + i)) 0 = byteAt data p := rfl
  rw [h0] at h ⊢
  unfold skipTag
  by_cases hb : byteAt data p &&& 0x1F = 0x1F
  · rw [if_pos hb] at h ⊢
    rw [if_pos hb]
    obtain ⟨k, k1, k2, k3, k4⟩ := tagEnd_spec (fun i => data (p + i)) 256 1
    rw [k1] at h ⊢
    rw [Nat.mod_eq_of_lt (by omega),
      skipLoop_run data k 256 (p + 1) (by omega) (by omega)
        (fun i hi => by
          have := k3 i hi
          rwa [byteAt_view, ← Nat.add_assoc] at this)
        (by
          have := k4 (by omega)
          rwa [byteAt_view, ← Nat.add_assoc] at this)]
    congr 1
    omega
  · rw [if_neg hb] at h ⊢
    rw [if_neg hb, Nat.mod_eq_of_lt (by omega)]

theorem scanNext_encoded (data : Nat → Nat) (p : Nat)
    (h : p + encodedSize (fun i => data (p + i)) < 256) :
    scanNext data p = some (p + encodedSize (fun i => data (p + i))) := by
  unfold encodedSize headerSize declaredLength at h ⊢
  simp only at h ⊢
  generalize hts : (if byteAt (fun i => data (p + i)) 0 &&& 0x1F = 0x1F
      then tagEnd 256 (fun i => data (p + i)) 1 + 1 else 1) = ts at h ⊢
  have hskip := skipTag_view data p (by rw [hts]; split at h <;> omega)
  rw [hts] at hskip
  unfold scanNext
  rw [hskip]
  simp only [byteAt_view] at h ⊢
  by_cases hb : byteAt data (p + ts) < 0x80
  · rw [if_pos hb, if_pos hb] at h ⊢
    have e : readLength data (p + ts) = (byteAt data (p + ts), (p + ts + 1) % 256) := by
      unfold readLength
      rw [if_pos hb]
    rw [e]
    simp only
    rw [Nat.mod_eq_of_lt (show p + ts + 1 < 256 by omega), Nat.mod_eq_of_lt (by omega)]
    congr 1
    omega
  · rw [if_neg hb, if_neg hb] at h ⊢
    have e : readLength data (p + ts) =
        (lenLoop data ((p + ts + 1) % 256) (byteAt data (p + ts) &&& 0x7F),
          ((p + ts + 1) % 256 + (byteAt data (p + ts) &&& 0x7F)) % 256) := by
      unfold readLength
      rw [if_neg hb]
    rw [e]
    simp only
    rw [lenLoop_eq, Nat.mod_eq_of_lt (show p + ts + 1 < 256 by omega)]
    have el : (List.range (byteAt data (p + ts) &&& 0x7F)).map
          (fun k => byteAt data (p + ts + 1 + k)) =
        (List.range (byteAt data (p + ts) &&& 0x7F)).map
          (fun i => byteAt data (p + (ts + 1 + i))) := by
      apply List.map_congr_left
      intro i _
      congr 1
      omega
    rw [el]
    generalize beValue ((List.range (byteAt data (p + ts) &&& 0x7F)).map
      (fun i => byteAt data (p + (ts + 1 + i)))) = v at h ⊢
    rw [Nat.mod_eq_of_lt (show v < 2 ^ 32 by omega),
      Nat.mod_eq_of_lt (show p + ts + 1 + (byteAt data (p + ts) &&& 0x7F) < 256 by omega),
      Nat.mod_eq_of_lt (by omega)]
    congr 1
    omega

theorem encoded_of_scanned (parse : (Nat → Nat) → Nat → Option (Option TLVobject))
    (data : Nat → Nat) (length : Nat) : ∀ (cs : List (Option TLVobject)) (p : Nat),
    p + (encodedSizes data p cs.length).sum < 256 → Scanned parse data length p cs →
    Encoded parse data length p cs ∧ length ≤ p + (encodedSizes data p cs.length).sum := by
  intro cs
  induction cs with
  | nil =>
    intro p _ h
    exact ⟨h, by simpa [encodedSizes] using h⟩
  | cons c cs ih =>
    intro p hfit h
    obtain ⟨hp, p3, h1, h2, h3⟩ := h
    simp only [List.length_cons, encodedSizes, List.sum_cons] at hfit ⊢
    rw [scanNext_encoded data p (by omega)] at h1
    simp only [Option.some.injEq] at h1
    subst h1
    have e : (p + encodedSize (fun i => data (p + i)) + 256 - p) % 256
        = encodedSize (fun i => data (p + i)) := by omega
    rw [e] at h2
    obtain ⟨i1, i2⟩ := ih _ (by omega) h3
    exact ⟨⟨hp, h2, i1⟩, by omega⟩

theorem constructedObject_eq_cons (t n c t1 n1 c1 : Nat) (s s1 : List (Option TLVobject))
    (h : TLVobject.cons t n c s = constructedObject t1 n1 c1 s1) : s1 = s := by
  cases s1 with
  | nil => cases h
  | cons x xs =>
    simp only [constructedObject, TLVobject.cons.injEq] at h
    exact h.2.2.2.symm

theorem everyCallSlot_of_scanned (P : (Nat → Nat) → Nat → TLVobject → Prop)
    (parse : (Nat → Nat) → Nat → Option (Option TLVobject))
    (hparse : ∀ d l o, parse d l = some (some o) → EveryCall P o d l)
    (data : Nat → Nat) (length : Nat) :
    ∀ (cs : List (Option TLVobject)) (p : Nat), Scanned parse data length p cs →
      EveryCallSlot P cs data length p := by
  intro cs
  induction cs with
  | nil => intro p _; simp [EveryCallSlot]
  | cons c cs ih =>
    intro p h
    obtain ⟨-, p3, h1, h2, h3⟩ := h
    cases c with
    | none =>
      rw [EveryCallSlot]
      exact ⟨p3, h1, ih p3 h3⟩
    | some o =>
      rw [EveryCallSlot]
      exact ⟨p3, h1, hparse _ _ _ h2, ih p3 h3⟩

theorem everyCall_of_parse (P : (Nat → Nat) → Nat → TLVobject → Prop)
    (hP : ∀ fuel data length o, tlvParseData fuel data length = some (some o) →
      P data length o) :
    ∀ (fuel : Nat) (data : Nat → Nat) (length : Nat) (o : TLVobject),
      tlvParseData fuel data length = some (some o) → EveryCall P o data length := by
  intro fuel
  induction fuel with
  | zero =>
    intro data length o h
    simp [tlvParseData] at h
  | succ f ih =>
    intro data length o h
    have hp := hP _ _ _ _ h
    obtain ⟨f1, t, p1, hf, -, htag, -, ho⟩ := tlvParseData_inv _ data length o h
    have hf1 : f1 = f := by omega
    subst hf1
    rcases ho with ⟨-, ho⟩ | ⟨-, slots, hs, ho⟩
    · subst ho
      rw [EveryCall]
      exact hp
    · subst ho
      obtain ⟨cs, h1, h2⟩ := childLoop_scanned _ data length f1 _ [] _ hs
      simp only [List.nil_append] at h1
      subst h1
      cases slots with
      | nil =>
        rw [constructedObject, EveryCall]
        exact hp
      | cons x xs =>
        rw [constructedObject, EveryCall]
        exact ⟨hp, p1, htag, everyCallSlot_of_scanned P _ (ih) data length _ _ h2⟩

theorem childrenEncoded_of_parse (fuel : Nat) (data : Nat → Nat) (length : Nat) (o : TLVobject)
    (h : tlvParseData fuel data length = some (some o)) : ChildrenEncoded data length o := by
  cases o with
  | prim t n c v => trivial
  | raw t n c => trivial
  | cons t n c slots =>
    intro hfit
    obtain ⟨f, t1, p1, hf, -, htag, -, ho⟩ := tlvParseData_inv fuel data length _ h
    subst hf
    rcases ho with ⟨-, ho⟩ | ⟨-, s1, hs, ho⟩
    · cases ho
    · have e := constructedObject_eq_cons _ _ _ _ _ _ _ _ ho
      subst e
      obtain ⟨cs, h1, h2⟩ := childLoop_scanned _ data length f _ [] _ hs
      simp only [List.nil_append] at h1
      subst h1
      rw [header_end data length t1 p1 htag (by omega)] at h2
      obtain ⟨i1, i2⟩ := encoded_of_scanned _ data length _ _ hfit h2
      exact ⟨f, i1, i2⟩

/-! ## Reads of zero bytes -/

theorem waitLoop_congr (x : Read) (l1 l2 : List Read)
    (h : ∀ inc dl rc mx buf len, waitLoop l1 inc dl rc mx buf len = waitLoop l2 inc dl rc mx buf len)
    (inc : Bool) (dl rc mx : Nat) (buf : List Nat) (len : Nat) :
    waitLoop (x :: l1) inc dl rc mx buf len = waitLoop (x :: l2) inc dl rc mx buf len := by
  cases x with
  | fail n => simp only [waitLoop]
  | got chunk =>
    simp only [waitLoop, h]

theorem waitLoop_insert_zero (pre post : List Read) (k : Nat) :
    ∀ inc dl rc mx buf len,
      waitLoop (pre ++ (List.replicate k (.got []) ++ post)) inc dl rc mx buf len =
        waitLoop (pre ++ post) inc dl rc mx buf len := by
  induction pre with
  | nil =>
    induction k with
    | zero => intros; rfl
    | succ k ih =>
      intro inc dl rc mx buf len
      rw [List.nil_append, List.replicate_succ, List.cons_append, waitLoop_zero]
      exact ih inc dl rc mx buf len
  | cons x pre ih =>
    intro inc dl rc mx buf len
    exact waitLoop_congr x _ _ ih inc dl rc mx buf len

theorem waitLoop_filter (reads : List Read) :
    ∀ inc dl rc mx buf len,
      waitLoop (reads.filter (fun r => decide (r ≠ .got []))) inc dl rc mx buf len =
        waitLoop reads inc dl rc mx buf len := by
  induction reads with
  | nil => intros; rfl
  | cons x reads ih =>
    intro inc dl rc mx buf len
    by_cases hx : x = .got []
    · subst hx
      rw [List.filter_cons_of_neg (by simp), waitLoop_zero]
      exact ih inc dl rc mx buf len
    · rw [List.filter_cons_of_pos (by simpa using hx)]
      exact waitLoop_congr x _ _ ih inc dl rc mx buf len

/-! ## Messages of `apduPrintError` -/

theorem apduPrintError_0x92_length (sw2 : Nat) : (apduPrintError_0x92 sw2).length = 1 := by
  unfold apduPrintError_0x92
  split
  · rfl
  · split <;> rfl

/-! ## Frame of a command -/

theorem apduCmdlen_eq (lc : Nat) (isLePresent : Bool) :
    apduCmdlen lc isLePresent =
      6 + (if 0 < lc then 1 + lc else 0) + (if isLePresent then 1 else 0) := by
  unfold apduCmdlen
  cases isLePresent <;> rcases Nat.eq_zero_or_pos lc with h | h <;> simp [h] <;> omega

theorem apduSendCommand_of_short (heap : Nat → Nat) (cla ins p1 p2 lc : Nat)
    (data : Option (Nat → Nat)) (le : Nat) (isLePresent : Bool)
    (h : apduCmdlen lc isLePresent ≤ 255) :
    apduSendCommand heap cla ins p1 p2 lc data le isLePresent =
      MYTERM_COMMAND :: apduCmdlen lc isLePresent ::
        apduEnvelope heap cla ins p1 p2 lc data le isLePresent := by
  unfold apduSendCommand sendCommand apduEnvelope
  rw [Nat.mod_eq_of_lt (show apduCmdlen lc isLePresent < 256 by omega),
    if_neg (by unfold apduCmdlen; omega)]

/-! ## Claims -/

/-- C1 (code defect): the round trip fails on a constructed node that has no
child.  The tree made of the node `70` alone, constructed and empty, is well
formed and its encoding is the 2 bytes `70 00`.  On these bytes the loop over
children of `tlvParseData` makes no pass, and the terminator of `ptr->data`,
which is written at the end of each pass only, is never written: the object
returned is not that tree but a node whose array of children has no determined
content, in which the lookup of another tag reads an undetermined pointer.  The
same happens to the node `70` nested in `61 02 70 00`. -/
theorem tlvParseData_roundtrip_empty_constructed (fuel : Nat) :
    wellFormed (.cons 0x70 0 1 []) = true ∧
    berEncode (.cons 0x70 0 1 []) = [0x70, 0x00] ∧
    tlvParseData (fuel + 2) (mem [0x70, 0x00]) 2 = some (some (.raw 0x70 0 1)) ∧
    tlvObjectLookForTag (some (.raw 0x70 0 1)) 0x5A = none ∧
    wellFormed (.cons 0x61 2 1 [some (.cons 0x70 0 1 [])]) = true ∧
    berEncode (.cons 0x61 2 1 [some (.cons 0x70 0 1 [])]) = [0x61, 0x02, 0x70, 0x00] ∧
    tlvParseData (fuel + 3) (mem [0x61, 0x02, 0x70, 0x00]) 4
      = some (some (.cons 0x61 2 1 [some (.raw 0x70 0 1)])) ∧
    tlvObjectLookForTag (some (.cons 0x61 2 1 [some (.raw 0x70 0 1)])) 0x5A = none :=
  ⟨by decide, by decide, by rfl, by decide, by decide, by decide, by rfl, by decide⟩

/-- C2 (code defect): the 5 bytes `5F 24 02 25 12` are the encoding of a
well-formed leaf, yet on their 2-byte prefix `5F 24` `tlvParseData` does not
return `NULL`.  It reads the length byte at offset 2, past the 2 bytes supplied;
`pindex` is then 3 and `length - pindex` is negative, which the comparison with
the unsigned `ptr->length` turns into a huge bound.  With the rest of the
encoding still in the buffer the whole leaf is returned; with zeros after the
prefix an empty leaf is returned. -/
theorem tlvParseData_truncated_header :
    wellFormed (.prim 0x5F24 2 1 [0x25, 0x12]) = true ∧
    berEncode (.prim 0x5F24 2 1 [0x25, 0x12]) = [0x5F, 0x24, 0x02, 0x25, 0x12] ∧
    tlvParseData 1 (mem [0x5F, 0x24, 0x02, 0x25, 0x12]) 2
      = some (some (.prim 0x5F24 2 1 [0x25, 0x12])) ∧
    tlvParseData 1 (mem [0x5F, 0x24]) 2 = some (some (.prim 0x5F24 0 1 [])) := by
  decide

/-- C3 (code defect): on the 9 bytes `70 07 5A 82 01 00 5A 01 41` the first
child declares 256 value bytes; the recursive call made for it, on the 4 bytes
`5A 82 01 00`, returns `NULL`.  `tlvParseData` on the enclosing buffer still
returns a constructed node: the `NULL` is stored in the first slot of its
array, followed by the second child.  Since the array is read up to the first
`NULL`, the lookup of tag `5A` in that tree finds nothing. -/
theorem tlvParseData_null_child_kept :
    tlvParseData 1 (mem [0x5A, 0x82, 0x01, 0x00]) 4 = some none ∧
    tlvParseData 4 (mem [0x70, 0x07, 0x5A, 0x82, 0x01, 0x00, 0x5A, 0x01, 0x41]) 9
      = some (some (.cons 0x70 7 1 [none, some (.prim 0x5A 1 1 [0x41])])) ∧
    tlvObjectLookForTag
      (some (.cons 0x70 7 1 [none, some (.prim 0x5A 1 1 [0x41])])) 0x5A = some none := by
  decide

/-- C4 (counterexample): on the 4 bytes `5A 01 41 FF` the header takes 2 bytes
and the declared length is 1, so one byte remains after the object; the result
is the leaf `5A 41`, not `NULL`. -/
theorem tlvParseData_trailing_byte_accepted :
    readTag (mem [0x5A, 0x01, 0x41, 0xFF]) 4 = some (some (0x5A, 1)) ∧
    readLength (mem [0x5A, 0x01, 0x41, 0xFF]) 1 = (1, 2) ∧ 2 + 1 < 4 ∧
    tlvParseData 1 (mem [0x5A, 0x01, 0x41, 0xFF]) 4 = some (some (.prim 0x5A 1 1 [0x41])) := by
  decide

/-- C4 (amended): for a buffer of 2 to 255 bytes whose header (tag `t` read up
to `p1`, length `n` read up to `p2`) lies inside the buffer, `tlvParseData`
returns `NULL` when the declared length `n` exceeds the `length - p2` bytes that
remain after the header.  When `n` is at most `length - p2`, equal or not, and
bit `0x20` of the first byte is clear, it returns the leaf whose value is the
`n` bytes after the header, whatever follows them.  Nothing is stated on the
acceptance of a constructed object, which depends on the loop over its
children. -/
theorem tlvParseData_fits (fuel : Nat) (data : Nat → Nat) (length t p1 n p2 : Nat)
    (h2 : 2 ≤ length) (h255 : length ≤ 255)
    (htag : readTag data length = some (some (t, p1)))
    (hlen : readLength data p1 = (n, p2)) (hp2 : p2 ≤ length) :
    (length - p2 < n → tlvParseData (fuel + 1) data length = some none) ∧
    (n ≤ length - p2 → byteAt data 0 &&& 0x20 ≠ 0x20 →
      tlvParseData (fuel + 1) data length =
        some (some (.prim t n ((byteAt data 0 &&& 0xC0) >>> 6)
          ((List.range n).map (fun i => byteAt data (p2 + i)))))) := by
  have e : (length + 2 ^ 32 - p2) % 2 ^ 32 = length - p2 := by omega
  exact ⟨fun h => tlvParseData_reject_step fuel data length t p1 n p2 htag hlen (by omega),
    fun h hc => tlvParseData_prim_step fuel data length t p1 n p2 h2 htag hlen (by omega) hc⟩

/-- Witness of the amended C4 on the 4 bytes `5A 01 41 FF`: the leaf `5A 41` is
returned although the byte `FF` remains after it. -/
theorem tlvParseData_fits_witness :
    readTag (mem [0x5A, 0x01, 0x41, 0xFF]) 4 = some (some (0x5A, 1)) ∧
    readLength (mem [0x5A, 0x01, 0x41, 0xFF]) 1 = (1, 2) ∧
    tlvParseData 1 (mem [0x5A, 0x01, 0x41, 0xFF]) 4 =
      some (some (.prim 0x5A 1 ((byteAt (mem [0x5A, 0x01, 0x41, 0xFF]) 0 &&& 0xC0) >>> 6)
        ((List.range 1).map (fun i => byteAt (mem [0x5A, 0x01, 0x41, 0xFF]) (2 + i))))) :=
  ⟨by decide, by decide,
    (tlvParseData_fits 0 (mem [0x5A, 0x01, 0x41, 0xFF]) 4 0x5A 1 1 2 (by decide) (by decide)
      (by decide) (by decide) (by decide)).2 (by decide) (by decide)⟩

/-- C5: on every tree, that is on every object whose nodes all have their
`NULL`-terminated array, `tlvObjectLookForTag` returns the first node, in
depth-first pre-order, whose tag is the requested one; it returns `NULL` exactly
when no node of the tree carries that tag; and on the root `70` with children
`5A` and `61 [4F, 5A]` it returns the outer `5A`. -/
theorem tlvObjectLookForTag_preorder :
    (∀ (o : TLVobject) (tag : Nat), (∀ n ∈ preorder o, n.terminated = true) →
      tlvObjectLookForTag (some o) tag =
        some ((preorder o).find? (fun n => decide (n.tag = tag)))) ∧
    (∀ (o : TLVobject) (tag : Nat), (∀ n ∈ preorder o, n.terminated = true) →
      (tlvObjectLookForTag (some o) tag = some none ↔ ∀ n ∈ preorder o, n.tag ≠ tag)) ∧
    tlvObjectLookForTag (some outerFirstTree) 0x5A = some (some (.prim 0x5A 1 1 [1])) := by
  refine ⟨fun o tag ht => lookForTagObj_eq_find tag o ht, fun o tag ht => ?_, by decide⟩
  show lookForTagObj tag o = some none ↔ _
  rw [lookForTagObj_eq_find tag o ht, Option.some.injEq, List.find?_eq_none]
  simp

/-- Witness of C5 on the root `70` with children `5A` and `61 [4F, 5A]`, all of
whose arrays are terminated. -/
theorem tlvObjectLookForTag_preorder_witness :
    (∀ n ∈ preorder outerFirstTree, n.terminated = true) ∧
    tlvObjectLookForTag (some outerFirstTree) 0x5A =
      some ((preorder outerFirstTree).find? (fun n => decide (n.tag = 0x5A))) :=
  ⟨by decide, tlvObjectLookForTag_preorder.1 outerFirstTree 0x5A (by decide)⟩

/-- C7: for bytes `cla`, `ins`, `p1`, `p2`, `le` and data `d` of `lc = d.length`
bytes with `lc ≤ 255` (the pointer `data` may be `NULL` when `d` is empty), the
buffer that `apduSendCommand` builds is `40 01 cla ins p1 p2`, then `lc` and `d`
only if `lc > 0`, then `le` only if Le is present; its length is
`6 + (lc > 0 ? 1 + lc : 0) + (Le present ? 1 : 0)`; and for `00 A4 04 00`, data
`2PAY.SYS.DDF01` and Le `00` it is the 22 bytes of the specification. -/
theorem apduSendCommand_envelope (heap : Nat → Nat) (cla ins p1 p2 le : Nat)
    (isLePresent : Bool) (d : List Nat) (data : Option (Nat → Nat))
    (hcla : cla < 256) (hins : ins < 256) (hp1 : p1 < 256) (hp2 : p2 < 256) (hle : le < 256)
    (hlc : d.length ≤ 255)
    (hdata : ∀ i, i < d.length → ∃ m, data = some m ∧ byteAt m i = d.getD i 0) :
    apduEnvelope heap cla ins p1 p2 d.length data le isLePresent =
      [0x40, 0x01, cla, ins, p1, p2] ++ (if 0 < d.length then d.length :: d else [])
        ++ (if isLePresent then [le] else []) ∧
    (apduEnvelope heap cla ins p1 p2 d.length data le isLePresent).length =
      6 + (if 0 < d.length then 1 + d.length else 0) + (if isLePresent then 1 else 0) ∧
    apduEnvelope heap 0x00 0xA4 0x04 0x00 14 (some (mem ddfName)) 0x00 true =
      [0x40, 0x01, 0x00, 0xA4, 0x04, 0x00, 0x0E, 0x32, 0x50, 0x41, 0x59, 0x2E, 0x53, 0x59,
        0x53, 0x2E, 0x44, 0x44, 0x46, 0x30, 0x31, 0x00] := by
  refine ⟨apduEnvelope_spec heap cla ins p1 p2 le isLePresent d data hcla hins hp1 hp2 hle hlc
    hdata, ?_, ?_⟩
  · unfold apduEnvelope apduCmdlen
    cases isLePresent <;> cases d <;> simp <;> omega
  · have h := apduEnvelope_spec heap 0x00 0xA4 0x04 0x00 0x00 true ddfName (some (mem ddfName))
      (by decide) (by decide) (by decide) (by decide) (by decide) (by decide)
      (fun i hi => ⟨mem ddfName, rfl, by
        have hi14 : i < 14 := hi
        interval_cases i <;> rfl⟩)
    exact h

/-- Witness of C7 on the SELECT command of the driver, with `malloc` returning
memory filled with `0xFF`. -/
theorem apduSendCommand_envelope_witness :
    apduEnvelope (fun _ => 0xFF) 0x00 0xA4 0x04 0x00 14 (some (mem ddfName)) 0x00 true =
      [0x40, 0x01, 0x00, 0xA4, 0x04, 0x00, 0x0E] ++ ddfName ++ [0x00] ∧
    (apduEnvelope (fun _ => 0xFF) 0x00 0xA4 0x04 0x00 14 (some (mem ddfName)) 0x00 true).length
      = 22 :=
  ⟨(apduSendCommand_envelope (fun _ => 0xFF) 0x00 0xA4 0x04 0x00 0x00 true ddfName
      (some (mem ddfName)) (by decide) (by decide) (by decide) (by decide) (by decide)
      (by decide)
      (fun i hi => ⟨mem ddfName, rfl, by
        have hi14 : i < 14 := hi
        interval_cases i <;> rfl⟩)).1,
   (apduSendCommand_envelope (fun _ => 0xFF) 0x00 0xA4 0x04 0x00 0x00 true ddfName
      (some (mem ddfName)) (by decide) (by decide) (by decide) (by decide) (by decide)
      (by decide)
      (fun i hi => ⟨mem ddfName, rfl, by
        have hi14 : i < 14 := hi
        interval_cases i <;> rfl⟩)).2.1⟩

/-- C8: when `waitResponse` yields a frame with code `MYTERM_OK` whose payload `P`
(the first `buflen` bytes of the buffer it filled) has at least 2 bytes, and the
capacity `cap` passed in `*reslen` is at least `buflen - 2` (and not more than
the array `rd` behind `resdata`), `apduWaitForResponse` returns `MYTERM_OK`,
sets `*reslen` to `buflen - 2`, and writes `data`, `sw1`, `sw2` with
`data ++ [sw1, sw2] = P`, `data` having `buflen - 2` bytes; the rest of `rd` is
kept. -/
theorem apduWaitForResponse_ok (reads : List Read) (stack : List Nat) (under : Nat → Nat)
    (buf rd : List Nat) (buflen cap s1 s2 : Nat)
    (hstack : stack.length = BUFFER_SIZE)
    (hw : waitResponse reads stack BUFFER_SIZE = .ret ⟨(MYTERM_OK : Nat), buf, buflen⟩)
    (hbytes : ∀ x ∈ buf.take buflen, x < 256)
    (h2 : 2 ≤ buflen) (hcap : buflen - 2 ≤ cap) (hrd : cap ≤ rd.length) :
    ∃ data sw1 sw2 printed,
      apduWaitForResponse reads stack under ⟨some rd, some cap, some s1, some s2⟩ =
        .ret ⟨(MYTERM_OK : Nat), ⟨some (data ++ rd.drop (buflen - 2)), some (buflen - 2),
          some sw1, some sw2⟩, printed⟩ ∧
      data.length = buflen - 2 ∧ data ++ [sw1, sw2] = buf.take buflen := by
  obtain ⟨i1, i2⟩ := waitResponse_inv reads stack _ hstack hw
  simp only at i1 i2
  have hB : BUFFER_SIZE = 255 := rfl
  have hlast := take_append_last_two buf buflen h2 (by omega)
  have b1 : buf.getD (buflen - 2) 0 < 256 := by
    apply hbytes
    rw [← hlast]
    simp
  have b2 : buf.getD (buflen - 1) 0 < 256 := by
    apply hbytes
    rw [← hlast]
    simp
  refine ⟨buf.take (buflen - 2), buf.getD (buflen - 2) 0, buf.getD (buflen - 1) 0,
    decide (buf.getD (buflen - 2) 0 ≠ APDU_SW1_OK ∨ buf.getD (buflen - 1) 0 ≠ APDU_SW2_OK),
    ?_, ?_, hlast⟩
  · unfold apduWaitForResponse
    rw [hw]
    simp only
    have l1 := localAt_of_le under buf buflen 2 h2
    have l2 := localAt_of_le under buf buflen 1 (by omega)
    rw [Nat.mod_eq_of_lt b1] at l1
    rw [Nat.mod_eq_of_lt b2] at l2
    simp only [Nat.cast_ofNat, Nat.cast_one] at l1 l2
    have e1 : (((buflen : Int) - 2) % 256).toNat = buflen - 2 := by omega
    have e2 : (cap : Int) ≥ (buflen : Int) - 2 := by omega
    have e3 : memcpyInto rd 0 (List.take (buflen - 2) buf) =
        some (List.take (buflen - 2) buf ++ List.drop (buflen - 2) rd) := by
      unfold memcpyInto
      have e4 : (List.take (buflen - 2) buf).length = buflen - 2 := by
        simp only [List.length_take]; omega
      rw [e4, if_pos (by omega)]
      simp
    rw [if_neg (by simp), if_pos e2, l1, l2, e1, e3]
    rfl
  · simp only [List.length_take]
    omega

set_option maxRecDepth 100000 in
/-- Witness of C8 on the frame `0A 14 6F 10 84 0E "2PAY.SYS.DDF01" 90 00`
delivered in one read. -/
theorem apduWaitForResponse_ok_witness :
    waitResponse [.got selectResponseFrame] (List.replicate 255 0) BUFFER_SIZE
      = .ret ⟨(MYTERM_OK : Nat), selectResponseFrame.drop 2 ++ List.replicate 235 0, 20⟩ ∧
    ∃ data sw1 sw2 printed,
      apduWaitForResponse [.got selectResponseFrame] (List.replicate 255 0) (fun _ => 0)
          ⟨some (List.replicate 255 0), some 255, some 0, some 0⟩ =
        .ret ⟨(MYTERM_OK : Nat), ⟨some (data ++ (List.replicate 255 0).drop (20 - 2)),
          some (20 - 2), some sw1, some sw2⟩, printed⟩ ∧
      data.length = 20 - 2 ∧
      data ++ [sw1, sw2] = (selectResponseFrame.drop 2 ++ List.replicate 235 0).take 20 :=
  ⟨by decide,
    apduWaitForResponse_ok [.got selectResponseFrame] (List.replicate 255 0) (fun _ => 0)
      (selectResponseFrame.drop 2 ++ List.replicate 235 0) (List.replicate 255 0) 20 255 0 0
      (by decide) (by decide) (by decide) (by decide) (by decide) (by decide)⟩

set_option maxRecDepth 100000 in
/-- C9 (code defect): on a frame with code `MYTERM_OK` and a payload of 0 bytes
(`0A 00`) or of 1 byte (`0A 01 55`), `apduWaitForResponse` makes no length
check.  It returns `MYTERM_OK`, takes `sw1` (and `sw2` for the empty payload)
from the stack cells below its local buffer, and, `buflen - 2` being negative,
sets `*reslen` to 254 or 255 and copies that many bytes of the local buffer to
the caller. -/
theorem apduWaitForResponse_short_payload (under : Nat → Nat) :
    apduWaitForResponse [.got [0x0A, 0x00]] (List.replicate 255 0) under
        ⟨some (List.replicate 255 1), some 255, some 0, some 0⟩ =
      .ret ⟨(MYTERM_OK : Nat), ⟨some (List.replicate 254 0 ++ [1]), some 254,
        some (under 2 % 256), some (under 1 % 256)⟩,
        decide (under 2 % 256 ≠ APDU_SW1_OK ∨ under 1 % 256 ≠ APDU_SW2_OK)⟩ ∧
    apduWaitForResponse [.got [0x0A, 0x01, 0x55]] (List.replicate 255 0) under
        ⟨some (List.replicate 255 1), some 255, some 0, some 0⟩ =
      .ret ⟨(MYTERM_OK : Nat), ⟨some (0x55 :: List.replicate 254 0), some 255,
        some (under 1 % 256), some 0x55⟩,
        decide (under 1 % 256 ≠ APDU_SW1_OK ∨ 0x55 ≠ APDU_SW2_OK)⟩ :=
  ⟨rfl, rfl⟩

/-- C10: when `waitResponse` returns a value other than `MYTERM_OK`,
`apduWaitForResponse` returns that value, sets `*reslen` to 0 (when `reslen` is
not `NULL`), and leaves `resdata`, `sw1` and `sw2` as they were, without calling
`apduPrintError`. -/
theorem apduWaitForResponse_error (reads : List Read) (stack : List Nat) (under : Nat → Nat)
    (out : ApduOut) (w : WaitResult)
    (hw : waitResponse reads stack BUFFER_SIZE = .ret w)
    (hres : w.res ≠ (MYTERM_OK : Nat)) :
    apduWaitForResponse reads stack under out =
      .ret ⟨w.res, ⟨out.resdata, out.reslen.map (fun _ => 0), out.sw1, out.sw2⟩, false⟩ := by
  unfold apduWaitForResponse
  rw [hw]
  simp only
  rw [if_pos hres]

set_option maxRecDepth 100000 in
/-- Witness of C10 on a read error, on a 1-byte first chunk and on a frame with
code `MYTERM_TIMEOUT`. -/
theorem apduWaitForResponse_error_witness :
    apduWaitForResponse [.fail (-5)] (List.replicate 255 0) (fun _ => 0)
        ⟨some [7, 7], some 2, some 1, some 2⟩ =
      .ret ⟨-5, ⟨some [7, 7], some 0, some 1, some 2⟩, false⟩ ∧
    apduWaitForResponse [.got [0x0A]] (List.replicate 255 0) (fun _ => 0)
        ⟨some [7, 7], some 2, some 1, some 2⟩ =
      .ret ⟨-1, ⟨some [7, 7], some 0, some 1, some 2⟩, false⟩ ∧
    apduWaitForResponse [.got [0x11, 0x00]] (List.replicate 255 0) (fun _ => 0)
        ⟨some [7, 7], some 2, some 1, some 2⟩ =
      .ret ⟨0x11, ⟨some [7, 7], some 0, some 1, some 2⟩, false⟩ :=
  ⟨apduWaitForResponse_error [.fail (-5)] (List.replicate 255 0) (fun _ => 0)
      ⟨some [7, 7], some 2, some 1, some 2⟩ ⟨-5, List.replicate 255 0, 255⟩ (by decide)
      (by decide),
   apduWaitForResponse_error [.got [0x0A]] (List.replicate 255 0) (fun _ => 0)
      ⟨some [7, 7], some 2, some 1, some 2⟩ ⟨-1, List.replicate 255 0, 255⟩ (by decide)
      (by decide),
   apduWaitForResponse_error [.got [0x11, 0x00]] (List.replicate 255 0) (fun _ => 0)
      ⟨some [7, 7], some 2, some 1, some 2⟩ ⟨0x11, List.replicate 255 0, 0⟩ (by decide)
      (by decide)⟩

set_option maxRecDepth 100000 in
/-- C11 (counterexample): the frame `0A 01 55` fits one read and its payload fits
the capacity; delivered whole it yields code `0x0A` and 1 payload byte, but
delivered as the two non-empty reads `0A` and `01 55` it yields the error -1. -/
theorem waitResponse_one_byte_first_read :
    [[0x0A], [0x01, 0x55]].flatten = [0x0A, 0x01, 0x55] ∧
    waitResponse [.got [0x0A, 0x01, 0x55]] (List.replicate 255 0) BUFFER_SIZE =
      .ret ⟨0x0A, 0x55 :: List.replicate 254 0, 1⟩ ∧
    waitResponse [.got [0x0A], .got [0x01, 0x55]] (List.replicate 255 0) BUFFER_SIZE =
      .ret ⟨-1, List.replicate 255 0, 255⟩ := by
  decide

/-- C11 (amended): for every frame `[code, N, p1..pN]` with `N ≤ 253` and `N` at
most the capacity, and every partition of its `N + 2` bytes into non-empty
consecutive reads whose first read has at least 2 bytes, `waitResponse` returns
what it returns when the frame comes in one read: the code, the length `N` and
the `N` payload bytes at the start of the buffer, the rest of the buffer being
left as it was. -/
theorem waitResponse_chunk_invariant (code : Nat) (payload : List Nat)
    (chunks : List (List Nat)) (B : List Nat) (cap : Nat)
    (hcode : code < 256) (hN : payload.length ≤ 253) (hcap : payload.length ≤ cap)
    (h255 : cap ≤ 255) (hB : cap ≤ B.length)
    (hne : ∀ c ∈ chunks, c ≠ [])
    (hjoin : chunks.flatten = code :: payload.length :: payload)
    (hfirst : 2 ≤ (chunks.headD []).length) :
    waitResponse (chunks.map .got) B cap =
      waitResponse [.got (code :: payload.length :: payload)] B cap ∧
    waitResponse (chunks.map .got) B cap =
      .ret ⟨(code : Nat), payload ++ B.drop payload.length, payload.length⟩ := by
  have key : ∀ cs : List (List Nat), (∀ c ∈ cs, c ≠ []) →
      cs.flatten = code :: payload.length :: payload → 2 ≤ (cs.headD []).length →
      reassemble cs = .frame code payload := by
    intro cs hne1 hj hf
    cases cs with
    | nil => simp at hj
    | cons c rest =>
      simp only [List.headD_cons] at hf
      simp only [List.flatten_cons] at hj
      have hc : c ≠ [] := hne1 c (by simp)
      have hrest : ∀ x ∈ rest, x ≠ [] := fun x hx => hne1 x (by simp [hx])
      have g0 : c.getD 0 0 = code := by
        rw [← getD_append_left c rest.flatten 0 (by omega), hj]
        rfl
      have g1 : c.getD 1 0 = payload.length := by
        rw [← getD_append_left c rest.flatten 1 (by omega), hj]
        rfl
      have hd : c.drop 2 ++ rest.flatten = payload := by
        rw [← List.drop_append_of_le_length hf, hj]
        rfl
      have hl : (c.drop 2).length + rest.flatten.length = payload.length := by
        rw [← hd]
        simp
      rw [reassemble, if_neg hc, if_neg (by omega), g0, g1, Nat.mod_eq_of_lt hcode,
        Nat.mod_eq_of_lt (by omega)]
      split_ifs with h3
      · rw [gather_partition rest (c.drop 2) payload.length hrest (by rw [hd]) h3, hd]
      · have e : rest.flatten = [] := List.eq_nil_of_length_eq_zero (by omega)
        rw [e, List.append_nil] at hd
        rw [hd]
  have r1 := waitResponse_reassemble B cap h255 hB chunks
    (by rw [hjoin]; simp only [List.length_cons]; omega)
  rw [key chunks hne hjoin hfirst] at r1
  have r2 := waitResponse_reassemble B cap h255 hB [code :: payload.length :: payload]
    (by simp only [List.flatten_cons, List.flatten_nil, List.append_nil, List.length_cons]; omega)
  rw [key [code :: payload.length :: payload] (by simp) (by simp) (by simp)] at r2
  simp only [List.map_cons, List.map_nil] at r2
  exact ⟨by rw [r1, r2], r1⟩

set_option maxRecDepth 100000 in
/-- Witness of the amended C11: the frame `0A 03 01 02 03` delivered as the reads
`0A 03 01`, `02`, `03`. -/
theorem waitResponse_chunk_invariant_witness :
    [[0x0A, 3, 1], [2], [3]].flatten = 0x0A :: [1, 2, 3].length :: [1, 2, 3] ∧
    waitResponse ([[0x0A, 3, 1], [2], [3]].map .got) (List.replicate 255 0) 255 =
      .ret ⟨(0x0A : Nat), [1, 2, 3] ++ (List.replicate 255 0).drop [1, 2, 3].length,
        [1, 2, 3].length⟩ :=
  ⟨by decide,
    (waitResponse_chunk_invariant 0x0A [1, 2, 3] [[0x0A, 3, 1], [2], [3]] (List.replicate 255 0)
      255 (by decide) (by decide) (by decide) (by decide) (by decide) (by decide) (by decide)
      (by decide)).2⟩

set_option maxRecDepth 100000 in
/-- C12 (counterexample): one read delivers `0A 01 41 42 43`, a header that
declares 1 payload byte followed by 3 bytes; nothing exceeds the capacity, the
call succeeds, and the reported length is 3, not the declared length 1. -/
theorem waitResponse_length_not_declared :
    [0x0A, 0x01, 0x41, 0x42, 0x43].getD 1 0 = 1 ∧
    waitResponse [.got [0x0A, 0x01, 0x41, 0x42, 0x43]] (List.replicate 255 0) BUFFER_SIZE =
      .ret ⟨0x0A, [0x41, 0x42, 0x43] ++ List.replicate 252 0, 3⟩ := by
  decide

/-- C12 (amended): when all reads succeed, the payload bytes they carry do not
exceed the capacity, and `waitResponse` returns something else than the error
-1, then for some number `k` of reads performed, with `r` the bytes of these
reads in order: `r` has the 2-byte header, the return value is its first byte,
the reported length is the number `r.length - 2` of bytes received after the
header, which is at least the declared length (the second byte) and equal to
it when the reads carry exactly the declared number of payload bytes, the buffer
starts with exactly these bytes in transmission order, and the rest of the
buffer is left as it was. -/
theorem waitResponse_payload (chunks : List (List Nat)) (B : List Nat) (cap : Nat)
    (w : WaitResult) (h255 : cap ≤ 255) (hB : cap ≤ B.length)
    (hrecv : chunks.flatten.length ≤ cap + 2)
    (hw : waitResponse (chunks.map .got) B cap = .ret w) (hok : w.res ≠ -1) :
    ∃ k r, k ≤ chunks.length ∧ r = (chunks.take k).flatten ∧ 2 ≤ r.length ∧
      w.res = (r.getD 0 0 % 256 : Nat) ∧ w.len = r.length - 2 ∧
      r.getD 1 0 % 256 ≤ w.len ∧
      (chunks.flatten.length - 2 = r.getD 1 0 % 256 → w.len = r.getD 1 0 % 256) ∧
      w.buffer.take w.len = r.drop 2 ∧ w.buffer.drop w.len = B.drop w.len := by
  rw [waitResponse_reassemble B cap h255 hB chunks hrecv] at hw
  cases hr : reassemble chunks with
  | waiting =>
    rw [hr] at hw
    cases hw
  | shortHeader =>
    rw [hr] at hw
    simp only [Outcome.ret.injEq] at hw
    subst hw
    exact absurd rfl hok
  | frame code p =>
    rw [hr] at hw
    simp only [Outcome.ret.injEq] at hw
    subst hw
    obtain ⟨k, hk, a, b, c, d⟩ := reassemble_inv chunks code p hr
    have hle := flatten_take_length_le chunks k
    refine ⟨k, _, hk, rfl, a, by rw [b], ?_, d, ?_, ?_, ?_⟩
    · simp only [c, List.length_drop]
    · intro he
      have e1 : p.length = ((chunks.take k).flatten).length - 2 := by
        simp only [c, List.length_drop]
      show p.length = _
      omega
    · simp only [List.take_left']
      exact c
    · simp

set_option maxRecDepth 100000 in
/-- Witness of the amended C12 on the reads `0A 03 41`, (nothing), `42 43`. -/
theorem waitResponse_payload_witness :
    waitResponse ([[0x0A, 3, 0x41], [], [0x42, 0x43]].map .got) (List.replicate 255 0) 255 =
      .ret ⟨0x0A, [0x41, 0x42, 0x43] ++ List.replicate 252 0, 3⟩ ∧
    ∃ k r, k ≤ [[0x0A, 3, 0x41], [], [0x42, 0x43]].length ∧
      r = ([[0x0A, 3, 0x41], [], [0x42, 0x43]].take k).flatten ∧ 2 ≤ r.length ∧
      (0x0A : Int) = (r.getD 0 0 % 256 : Nat) ∧ 3 = r.length - 2 ∧
      r.getD 1 0 % 256 ≤ 3 ∧
      ([[0x0A, 3, 0x41], [], [0x42, 0x43]].flatten.length - 2 = r.getD 1 0 % 256 →
        3 = r.getD 1 0 % 256) ∧
      ([0x41, 0x42, 0x43] ++ List.replicate 252 0).take 3 = r.drop 2 ∧
      ([0x41, 0x42, 0x43] ++ List.replicate 252 0).drop 3 = (List.replicate 255 0).drop 3 :=
  ⟨by decide,
    waitResponse_payload [[0x0A, 3, 0x41], [], [0x42, 0x43]] (List.replicate 255 0) 255
      ⟨0x0A, [0x41, 0x42, 0x43] ++ List.replicate 252 0, 3⟩ (by decide) (by decide) (by decide)
      (by decide) (by decide)⟩

/-- C13: when the first non-empty chunk has exactly 1 byte, after any number `k`
of reads of 0 bytes, `waitResponse` returns -1 with the caller's buffer and
`*len` as they were, whatever reads would follow. -/
theorem waitResponse_short_header (k b : Nat) (more : List Read) (B : List Nat) (len : Nat) :
    waitResponse (List.replicate k (.got []) ++ .got [b] :: more) B len = .ret ⟨-1, B, len⟩ := by
  unfold waitResponse
  induction k with
  | zero => simp [waitLoop]
  | succ k ih =>
    rw [List.replicate_succ, List.cons_append, waitLoop_zero]
    exact ih

/-- C14: when the reads `pre` leave `waitResponse` waiting for more (before the
header or in the middle of a frame) and the next read returns the negative
value `r`, `waitResponse` returns `r`, with a buffer and length that do not
depend on the reads that would follow. -/
theorem waitResponse_read_error (pre : List Read) (B : List Nat) (len : Nat) (r : Int)
    (_hr : r < 0) (hpre : waitResponse pre B len = .blocked) :
    ∃ b l, ∀ more, waitResponse (pre ++ .fail r :: more) B len = .ret ⟨r, b, l⟩ :=
  waitLoop_blocked_fail r pre false 0 0 len B len hpre

set_option maxRecDepth 100000 in
/-- Witness of C14: a read error before the header and one in the middle of a
frame that declares 3 payload bytes. -/
theorem waitResponse_read_error_witness :
    (∃ b l, ∀ more, waitResponse ([.got []] ++ .fail (-1) :: more) (List.replicate 255 0) 255
      = .ret ⟨-1, b, l⟩) ∧
    (∃ b l, ∀ more,
      waitResponse ([.got [0x0A, 3, 0x41]] ++ .fail (-1) :: more) (List.replicate 255 0) 255
        = .ret ⟨-1, b, l⟩) :=
  ⟨waitResponse_read_error [.got []] (List.replicate 255 0) 255 (-1) (by decide) (by decide),
   waitResponse_read_error [.got [0x0A, 3, 0x41]] (List.replicate 255 0) 255 (-1) (by decide)
     (by decide)⟩

/-- C15 (code defect): with capacity 4 and a frame that declares 6 payload
bytes, when the excess arrives in the first chunk the result is code `0x0A`,
the 4 first payload bytes and a reported length of 4; when it arrives in the
second chunk the buffer holds the same 4 bytes but the reported length is 6,
more than the capacity; and when the frame declares 8 bytes and comes in three
chunks, the third `memcpy` gets a negative size. -/
theorem waitResponse_excess_in_later_chunk :
    waitResponse [.got [0x0A, 6, 1, 2, 3, 4, 5, 6]] [0, 0, 0, 0] 4 =
      .ret ⟨0x0A, [1, 2, 3, 4], 4⟩ ∧
    waitResponse [.got [0x0A, 6, 1, 2], .got [3, 4, 5, 6]] [0, 0, 0, 0] 4 =
      .ret ⟨0x0A, [1, 2, 3, 4], 6⟩ ∧
    waitResponse [.got [0x0A, 8, 1, 2], .got [3, 4, 5, 6], .got [7, 8]] [0, 0, 0, 0] 4 =
      .crash := by
  decide

/-- C16 (counterexample): in the 6 bytes `5F 81 82 83 04 00` the tag takes the 5
bytes `5F 81 82 83 04`, whose big-endian concatenation is `0x5F81828304`; the
buffer is accepted and the tag of the node is `0x81828304`, the first byte being
shifted out of the 32-bit `tag`. -/
theorem tlvParseData_long_tag_wraps :
    tlvParseData 1 (mem [0x5F, 0x81, 0x82, 0x83, 0x04, 0x00]) 6
      = some (some (.prim 0x81828304 0 1 [])) ∧
    beValue [0x5F, 0x81, 0x82, 0x83, 0x04] = 0x5F81828304 ∧
    (0x81828304 : Nat) ≠ 0x5F81828304 := by
  decide

/-- C16 (amended): for every buffer accepted by `tlvParseData`, if the low 5 bits
of the first byte are not all 1 the tag of the returned node is that byte;
otherwise, with `m` the number of following bytes whose high bit is set before
the first one whose high bit is clear (positions counted modulo 256, `pindex`
being a `uint8_t`), the tag is the big-endian concatenation of the first byte,
these `m` bytes and that last byte, reduced modulo `2 ^ 32`; for tags of at most
4 bytes (`m ≤ 2`) it is the concatenation itself. -/
theorem tlvParseData_tag (fuel : Nat) (data : Nat → Nat) (length : Nat) (o : TLVobject)
    (h : tlvParseData fuel data length = some (some o)) :
    (¬ (byteAt data 0 &&& 0x1F = 0x1F) → o.tag = byteAt data 0) ∧
    (byteAt data 0 &&& 0x1F = 0x1F →
      ∃ m, m ≤ 255 ∧ (∀ i, i < m → 0x80 ≤ byteAt data ((1 + i) % 256)) ∧
        byteAt data ((1 + m) % 256) < 0x80 ∧
        o.tag = beValue (byteAt data 0 ::
          (List.range (m + 1)).map (fun i => byteAt data ((1 + i) % 256))) % 2 ^ 32 ∧
        (m ≤ 2 → o.tag = beValue (byteAt data 0 ::
          (List.range (m + 1)).map (fun i => byteAt data (1 + i))))) := by
  obtain ⟨f, t, p1, -, -, htag, -, ho⟩ := tlvParseData_inv fuel data length o h
  have hot : o.tag = t := by
    rcases ho with ⟨-, rfl⟩ | ⟨-, slots, -, rfl⟩
    · rfl
    · exact constructedObject_tag _ _ _ _
  obtain ⟨r1, r2⟩ := readTag_inv data length t p1 htag
  refine ⟨fun hc => by rw [hot]; exact (r1 hc).1, fun hc => ?_⟩
  obtain ⟨m, h1, h2, h3, -, h5⟩ := r2 hc
  refine ⟨m, h1, h2, h3, by rw [hot]; exact h5, fun hm => ?_⟩
  have e : (List.range (m + 1)).map (fun i => byteAt data ((1 + i) % 256)) =
      (List.range (m + 1)).map (fun i => byteAt data (1 + i)) := by
    apply List.map_congr_left
    intro i hi
    rw [List.mem_range] at hi
    rw [Nat.mod_eq_of_lt (by omega)]
  rw [hot, h5, e]
  apply Nat.mod_eq_of_lt
  have hlt := beValue_lt (byteAt data 0 ::
    (List.range (m + 1)).map (fun i => byteAt data (1 + i))) (by
      intro b hb
      simp only [List.mem_cons, List.mem_map] at hb
      rcases hb with rfl | ⟨i, -, rfl⟩ <;> exact byteAt_lt data _)
  simp only [List.length_cons, List.length_map, List.length_range] at hlt
  calc _ < 256 ^ (m + 1 + 1) := hlt
    _ ≤ 256 ^ 4 := Nat.pow_le_pow_right (by decide) (by omega)
    _ = 2 ^ 32 := by norm_num

/-- Witness of the amended C16 on `5F 24 02 25 12` (tag `0x5F24`) and on
`BF 0C 00` (tag `0xBF0C`). -/
theorem tlvParseData_tag_witness :
    tlvParseData 1 (mem [0x5F, 0x24, 0x02, 0x25, 0x12]) 5
      = some (some (.prim 0x5F24 2 1 [0x25, 0x12])) ∧
    beValue [0x5F, 0x24] = 0x5F24 ∧
    tlvParseData 2 (mem [0xBF, 0x0C, 0x00]) 3 = some (some (.raw 0xBF0C 0 2)) ∧
    beValue [0xBF, 0x0C] = 0xBF0C ∧
    (byteAt (mem [0x5F, 0x24, 0x02, 0x25, 0x12]) 0 &&& 0x1F = 0x1F →
      ∃ m, m ≤ 255 ∧
        (∀ i, i < m → 0x80 ≤ byteAt (mem [0x5F, 0x24, 0x02, 0x25, 0x12]) ((1 + i) % 256)) ∧
        byteAt (mem [0x5F, 0x24, 0x02, 0x25, 0x12]) ((1 + m) % 256) < 0x80 ∧
        (TLVobject.prim 0x5F24 2 1 [0x25, 0x12]).tag =
          beValue (byteAt (mem [0x5F, 0x24, 0x02, 0x25, 0x12]) 0 :: (List.range (m + 1)).map
            (fun i => byteAt (mem [0x5F, 0x24, 0x02, 0x25, 0x12]) ((1 + i) % 256))) % 2 ^ 32 ∧
        (m ≤ 2 → (TLVobject.prim 0x5F24 2 1 [0x25, 0x12]).tag =
          beValue (byteAt (mem [0x5F, 0x24, 0x02, 0x25, 0x12]) 0 :: (List.range (m + 1)).map
            (fun i => byteAt (mem [0x5F, 0x24, 0x02, 0x25, 0x12]) (1 + i))))) :=
  ⟨by decide, by decide, by decide, by decide,
    (tlvParseData_tag 1 (mem [0x5F, 0x24, 0x02, 0x25, 0x12]) 5 (.prim 0x5F24 2 1 [0x25, 0x12])
      (by decide)).2⟩

/-- C17 (counterexample): in the 8 bytes `5A 85 01 00 00 00 01 41` the length
byte `85` announces 5 length bytes `01 00 00 00 01`, whose big-endian integer is
`2 ^ 32 + 1`; the buffer is accepted and the declared length of the node is 1,
the first byte being shifted out of the 32-bit `length`. -/
theorem tlvParseData_long_length_wraps :
    tlvParseData 1 (mem [0x5A, 0x85, 0x01, 0x00, 0x00, 0x00, 0x01, 0x41]) 8
      = some (some (.prim 0x5A 1 1 [0x41])) ∧
    beValue [0x01, 0x00, 0x00, 0x00, 0x01] = 2 ^ 32 + 1 ∧ (1 : Nat) ≠ 2 ^ 32 + 1 := by
  decide

/-- C17 (amended): for every buffer accepted by `tlvParseData`, with `p1` the
position of the byte after the tag: if that byte has its high bit clear, the
declared length of the returned node is that byte and the content (the value, or
the children) starts at the next position; otherwise its low 7 bits give a count
`n`, the declared length is the big-endian integer formed by the next `n` bytes
reduced modulo `2 ^ 32` (that integer itself when `n ≤ 4`), and the content
starts right after those `n` bytes.  Positions stored in `pindex` are taken
modulo 256. -/
theorem tlvParseData_length (fuel : Nat) (data : Nat → Nat) (length : Nat) (o : TLVobject)
    (h : tlvParseData fuel data length = some (some o)) :
    ∃ f t p1, fuel = f + 1 ∧ readTag data length = some (some (t, p1)) ∧
      (byteAt data p1 < 0x80 →
        o.length = byteAt data p1 ∧ ContentAt f data length o ((p1 + 1) % 256)) ∧
      (0x80 ≤ byteAt data p1 →
        o.length = beValue ((List.range (byteAt data p1 &&& 0x7F)).map
          (fun k => byteAt data ((p1 + 1) % 256 + k))) % 2 ^ 32 ∧
        ContentAt f data length o (((p1 + 1) % 256 + (byteAt data p1 &&& 0x7F)) % 256) ∧
        (byteAt data p1 &&& 0x7F ≤ 4 →
          o.length = beValue ((List.range (byteAt data p1 &&& 0x7F)).map
            (fun k => byteAt data ((p1 + 1) % 256 + k))))) := by
  obtain ⟨f, t, p1, hf, -, htag, -, ho⟩ := tlvParseData_inv fuel data length o h
  have hlen : o.length = (readLength data p1).1 := by
    rcases ho with ⟨-, rfl⟩ | ⟨-, slots, -, rfl⟩
    · rfl
    · exact constructedObject_length _ _ _ _
  have hcont : ContentAt f data length o (readLength data p1).2 := by
    rcases ho with ⟨-, rfl⟩ | ⟨-, slots, hs, rfl⟩
    · rfl
    · cases slots <;> exact hs
  refine ⟨f, t, p1, hf, htag, fun hb => ?_, fun hb => ?_⟩
  · have e : readLength data p1 = (byteAt data p1, (p1 + 1) % 256) := by
      unfold readLength
      rw [if_pos hb]
    rw [e] at hlen hcont
    exact ⟨hlen, hcont⟩
  · have e : readLength data p1 = (lenLoop data ((p1 + 1) % 256) (byteAt data p1 &&& 0x7F),
        ((p1 + 1) % 256 + (byteAt data p1 &&& 0x7F)) % 256) := by
      unfold readLength
      rw [if_neg (by omega)]
    rw [e] at hlen hcont
    simp only at hlen hcont
    rw [lenLoop_eq] at hlen
    refine ⟨hlen, hcont, fun hn => ?_⟩
    rw [hlen]
    apply Nat.mod_eq_of_lt
    have hlt := beValue_lt ((List.range (byteAt data p1 &&& 0x7F)).map
      (fun k => byteAt data ((p1 + 1) % 256 + k))) (by
        intro b hb
        simp only [List.mem_map] at hb
        obtain ⟨i, -, rfl⟩ := hb
        exact byteAt_lt data _)
    simp only [List.length_map, List.length_range] at hlt
    calc _ < 256 ^ (byteAt data p1 &&& 0x7F) := hlt
      _ ≤ 256 ^ 4 := Nat.pow_le_pow_right (by decide) hn
      _ = 2 ^ 32 := by norm_num

/-- Witness of the amended C17 on `5A 81 03 41 42 43`, a leaf with the long-form
length `81 03`. -/
theorem tlvParseData_length_witness :
    tlvParseData 1 (mem [0x5A, 0x81, 0x03, 0x41, 0x42, 0x43]) 6
      = some (some (.prim 0x5A 3 1 [0x41, 0x42, 0x43])) ∧
    ∃ f t p1, 1 = f + 1 ∧
      readTag (mem [0x5A, 0x81, 0x03, 0x41, 0x42, 0x43]) 6 = some (some (t, p1)) ∧
      (byteAt (mem [0x5A, 0x81, 0x03, 0x41, 0x42, 0x43]) p1 < 0x80 →
        (TLVobject.prim 0x5A 3 1 [0x41, 0x42, 0x43]).length =
          byteAt (mem [0x5A, 0x81, 0x03, 0x41, 0x42, 0x43]) p1 ∧
        ContentAt f (mem [0x5A, 0x81, 0x03, 0x41, 0x42, 0x43]) 6
          (.prim 0x5A 3 1 [0x41, 0x42, 0x43]) ((p1 + 1) % 256)) ∧
      (0x80 ≤ byteAt (mem [0x5A, 0x81, 0x03, 0x41, 0x42, 0x43]) p1 →
        (TLVobject.prim 0x5A 3 1 [0x41, 0x42, 0x43]).length =
          beValue ((List.range (byteAt (mem [0x5A, 0x81, 0x03, 0x41, 0x42, 0x43]) p1 &&& 0x7F)).map
            (fun k => byteAt (mem [0x5A, 0x81, 0x03, 0x41, 0x42, 0x43]) ((p1 + 1) % 256 + k)))
            % 2 ^ 32 ∧
        ContentAt f (mem [0x5A, 0x81, 0x03, 0x41, 0x42, 0x43]) 6
          (.prim 0x5A 3 1 [0x41, 0x42, 0x43])
          (((p1 + 1) % 256 + (byteAt (mem [0x5A, 0x81, 0x03, 0x41, 0x42, 0x43]) p1 &&& 0x7F))
            % 256) ∧
        (byteAt (mem [0x5A, 0x81, 0x03, 0x41, 0x42, 0x43]) p1 &&& 0x7F ≤ 4 →
          (TLVobject.prim 0x5A 3 1 [0x41, 0x42, 0x43]).length =
            beValue ((List.range
              (byteAt (mem [0x5A, 0x81, 0x03, 0x41, 0x42, 0x43]) p1 &&& 0x7F)).map
              (fun k => byteAt (mem [0x5A, 0x81, 0x03, 0x41, 0x42, 0x43])
                ((p1 + 1) % 256 + k))))) :=
  ⟨by decide,
    tlvParseData_length 1 (mem [0x5A, 0x81, 0x03, 0x41, 0x42, 0x43]) 6
      (.prim 0x5A 3 1 [0x41, 0x42, 0x43]) (by decide)⟩

/-- C18 (code defect): in `5A 81` the length byte announces 1 length byte and
none remains in the 2 bytes supplied; `tlvParseData` reads it past the buffer
and returns a leaf (of 2 bytes when `02 41 42` follows in memory, empty when
zeros follow).  The same happens for the nested object `5A 81` that ends the 4
bytes `70 02 5A 81`. -/
theorem tlvParseData_truncated_long_length :
    tlvParseData 1 (mem [0x5A, 0x81, 0x02, 0x41, 0x42]) 2
      = some (some (.prim 0x5A 2 1 [0x41, 0x42])) ∧
    tlvParseData 1 (mem [0x5A, 0x81]) 2 = some (some (.prim 0x5A 0 1 [])) ∧
    tlvParseData 3 (mem [0x70, 0x02, 0x5A, 0x81, 0x01, 0x41]) 4
      = some (some (.cons 0x70 2 1 [some (.prim 0x5A 1 1 [0x41])])) := by
  decide

/-- C19 (code defect): in the 5 bytes `70 03 5A 05 41` the nested object `5A`
declares 5 value bytes while 1 byte remains after its header.  The parent passes
7 as length of the child, so the check of the child passes, and the returned
tree holds a child of declared length 5 whose value is read past the 5 bytes
supplied. -/
theorem tlvParseData_child_overruns_parent :
    tlvParseData 3 (mem [0x70, 0x03, 0x5A, 0x05, 0x41, 0x42, 0x43, 0x44, 0x45]) 5
      = some (some (.cons 0x70 3 1 [some (.prim 0x5A 5 1 [0x41, 0x42, 0x43, 0x44, 0x45])])) ∧
    tlvParseData 3 (mem [0x70, 0x03, 0x5A, 0x05, 0x41]) 5
      = some (some (.cons 0x70 3 1 [some (.prim 0x5A 5 1 [0x41, 0, 0, 0, 0])])) := by
  decide

/-- C20 (counterexample): in the 5 bytes `70 00 5A 01 41` the constructed node
declares a length of 0, and the object `5A 01 41` that follows it in the buffer
becomes its child. -/
theorem tlvParseData_children_past_declared_length :
    tlvParseData 3 (mem [0x70, 0x00, 0x5A, 0x01, 0x41]) 5
      = some (some (.cons 0x70 0 1 [some (.prim 0x5A 1 1 [0x41])])) := by
  decide

/-- C20 (amended): for every buffer accepted by `tlvParseData` and every
constructed node of the returned tree that has children, all of them ending
before byte 256, the children are exactly the objects encoded, in order, in the bytes that follow the
header of the node up to the end of the buffer passed to the call that built
the node (the buffer of the caller for the root, the bytes of its own encoding
for a nested node), not in its declared-length bytes: the first child starts at
the end of the header, each child starts below the end of that buffer, where
the previous one ends, and is what decoding the bytes of its encoding gives;
child parsing stops at the first end of a child at or beyond the end of that
buffer, whatever the declared length, so that the encoded sizes of the children
sum to at least the number of bytes that follow the header. -/
theorem tlvParseData_children (fuel : Nat) (data : Nat → Nat) (length : Nat) (o : TLVobject)
    (h : tlvParseData fuel data length = some (some o)) :
    EveryCall ChildrenEncoded o data length :=
  everyCall_of_parse ChildrenEncoded childrenEncoded_of_parse fuel data length o h

set_option maxRecDepth 100000 in
/-- Witness of the amended C20 on `70 00 5A 01 41`, where the node `70` declares
no content, its header takes 2 bytes, and its child `5A 01 41` takes the 3
bytes that follow. -/
theorem tlvParseData_children_witness :
    headerSize (mem [0x70, 0x00, 0x5A, 0x01, 0x41]) = 2 ∧
    encodedSizes (mem [0x70, 0x00, 0x5A, 0x01, 0x41]) 2 1 = [3] ∧
    EveryCall ChildrenEncoded (.cons 0x70 0 1 [some (.prim 0x5A 1 1 [0x41])])
      (mem [0x70, 0x00, 0x5A, 0x01, 0x41]) 5 :=
  ⟨by decide, by decide,
    tlvParseData_children 3 (mem [0x70, 0x00, 0x5A, 0x01, 0x41]) 5 _ (by decide)⟩

/-- C21: for every buffer accepted by `tlvParseData` and every node of the
returned tree, the object class of the node is the top 2 bits of the node's
first tag byte, that is the byte divided by 64, one of `TLV_UNIVERSAL_CLASS` (0),
`TLV_APPLICATION_CLASS` (1), `TLV_CONTEXT_SPECIFIC_CLASS` (2) and
`TLV_PRIVATE_CLASS` (3), and the node is constructed exactly when bit `0x20` of
that first tag byte is set. -/
theorem tlvParseData_class_and_constructed (fuel : Nat) (data : Nat → Nat) (length : Nat)
    (o : TLVobject) (h : tlvParseData fuel data length = some (some o)) :
    EveryNode (fun d n =>
      n.oclass = byteAt d 0 / 64 ∧
      n.oclass ∈ [TLV_UNIVERSAL_CLASS, TLV_APPLICATION_CLASS, TLV_CONTEXT_SPECIFIC_CLASS,
        TLV_PRIVATE_CLASS] ∧
      (n.constructed = true ↔ byteAt d 0 / 32 % 2 = 1)) o data length := by
  apply everyNode_of_parse _ _ fuel data length o h
  intro f d l n hn
  obtain ⟨f1, t, p1, -, -, -, -, ho⟩ := tlvParseData_inv _ d l n hn
  have hb := byteAt_lt d 0
  have hc4 : byteAt d 0 / 64 ∈ [TLV_UNIVERSAL_CLASS, TLV_APPLICATION_CLASS,
      TLV_CONTEXT_SPECIFIC_CLASS, TLV_PRIVATE_CLASS] := by
    have : byteAt d 0 / 64 < 4 := by omega
    simp only [TLV_UNIVERSAL_CLASS, TLV_APPLICATION_CLASS, TLV_CONTEXT_SPECIFIC_CLASS,
      TLV_PRIVATE_CLASS, List.mem_cons, List.mem_singleton, List.mem_nil_iff, or_false]
    omega
  rcases ho with ⟨hc, ho⟩ | ⟨hc, slots, -, ho⟩
  · subst ho
    rw [land20 _ hb] at hc
    simp only [TLVobject.oclass, TLVobject.constructed]
    rw [landC0 _ hb]
    exact ⟨rfl, hc4, by simp [hc]⟩
  · subst ho
    rw [land20 _ hb] at hc
    rw [constructedObject_oclass, constructedObject_constructed, landC0 _ hb]
    exact ⟨rfl, hc4, by simp [hc]⟩

set_option maxRecDepth 100000 in
/-- Witness of C21 on the 18 bytes `6F 10 84 0E "2PAY.SYS.DDF01"`: the root `6F`
is of class 1 and constructed, its child `84` of class 2 and not constructed. -/
theorem tlvParseData_class_and_constructed_witness :
    EveryNode (fun d n =>
      n.oclass = byteAt d 0 / 64 ∧
      n.oclass ∈ [TLV_UNIVERSAL_CLASS, TLV_APPLICATION_CLASS, TLV_CONTEXT_SPECIFIC_CLASS,
        TLV_PRIVATE_CLASS] ∧
      (n.constructed = true ↔ byteAt d 0 / 32 % 2 = 1))
      selectResponseTree (mem (selectResponseFrame.drop 2)) 18 :=
  tlvParseData_class_and_constructed 3 (mem (selectResponseFrame.drop 2)) 18
    selectResponseTree (by decide)

/-- C22 (counterexample): on the 15 bytes `5A 08 41 11 11 11 11 11 11 11 5F 24 02
25 12` the tree returned by `tlvParseData` is the leaf `5A` alone, and
`tlvObjectLookForTag` with tag `0x5F24` returns `NULL`. -/
theorem tlvObjectLookForTag_second_object_missed :
    ∃ r, tlvParseData 1 (mem recordData) 15 = some r ∧
      r = some (.prim 0x5A 8 1 [0x41, 0x11, 0x11, 0x11, 0x11, 0x11, 0x11, 0x11]) ∧
      tlvObjectLookForTag r 0x5F24 = some none :=
  ⟨_, rfl, rfl, rfl⟩

/-- C22 (amended): `tlvParseData` decodes the first object of the buffer only.
On the 15 bytes `5A 08 41 11 11 11 11 11 11 11 5F 24 02 25 12`, with any fuel,
the lookup of tag `0x5A` returns a leaf holding the 8 bytes `41 11 11 11 11 11
11 11` and the lookup of tag `0x5F24` returns `NULL`.  When the same 15 bytes
are the content of a constructed object (`70 0F` before them, 17 bytes), the
lookup of `0x5A` returns that leaf and the lookup of `0x5F24` returns a leaf
holding `25 12`, which `main` displays as `12/25`, second byte first. -/
theorem tlvObjectLookForTag_record (fuel : Nat) :
    (∃ r, tlvParseData (fuel + 1) (mem recordData) 15 = some r ∧
      tlvObjectLookForTag r 0x5A
        = some (some (.prim 0x5A 8 1 [0x41, 0x11, 0x11, 0x11, 0x11, 0x11, 0x11, 0x11])) ∧
      tlvObjectLookForTag r 0x5F24 = some none) ∧
    (∃ r, tlvParseData (fuel + 4) (mem ([0x70, 0x0F] ++ recordData)) 17 = some r ∧
      tlvObjectLookForTag r 0x5A
        = some (some (.prim 0x5A 8 1 [0x41, 0x11, 0x11, 0x11, 0x11, 0x11, 0x11, 0x11])) ∧
      tlvObjectLookForTag r 0x5F24 = some (some (.prim 0x5F24 2 1 [0x25, 0x12])) ∧
      expirationLine [0x25, 0x12] = "12/25\n\n") :=
  ⟨⟨_, rfl, rfl, rfl⟩, ⟨_, rfl, rfl, rfl, by decide⟩⟩

set_option maxRecDepth 100000 in
/-- C23: on a frame with code `MYTERM_OK` whose payload is the 20 bytes
`6F 10 84 0E 32 50 41 59 2E 53 59 53 2E 44 44 46 30 31 90 00`,
`apduWaitForResponse` returns `MYTERM_OK`, sets `sw1` to `0x90`, `sw2` to `0x00`,
`*reslen` to 18 and copies the first 18 bytes of the payload to `resdata`
without calling `apduPrintError`; and `tlvParseData` on these 18 bytes returns,
with any fuel from 3 on, a constructed root of tag `0x6F` with exactly one
child, a leaf of tag `0x84` whose value is the 14 bytes of `2PAY.SYS.DDF01`. -/
theorem apduWaitForResponse_select_response (under : Nat → Nat) (fuel : Nat) :
    ∃ resdata,
      apduWaitForResponse [.got ([MYTERM_OK, 20] ++ [0x6F, 0x10, 0x84, 0x0E, 0x32, 0x50, 0x41,
          0x59, 0x2E, 0x53, 0x59, 0x53, 0x2E, 0x44, 0x44, 0x46, 0x30, 0x31, 0x90, 0x00])]
          (List.replicate 255 0) under ⟨some (List.replicate 255 0), some 255, some 0, some 0⟩ =
        .ret ⟨(MYTERM_OK : Nat), ⟨some resdata, some 18, some 0x90, some 0x00⟩, false⟩ ∧
      resdata.take 18 = [0x6F, 0x10, 0x84, 0x0E, 0x32, 0x50, 0x41, 0x59, 0x2E, 0x53, 0x59, 0x53,
        0x2E, 0x44, 0x44, 0x46, 0x30, 0x31] ∧
      tlvParseData (fuel + 3) (mem resdata) 18 =
        some (some (.cons 0x6F 16 1 [some (.prim 0x84 14 2
          ("2PAY.SYS.DDF01".toList.map Char.toNat))])) :=
  ⟨[0x6F, 0x10, 0x84, 0x0E] ++ ddfName ++ List.replicate 237 0, by rfl, by rfl, by rfl⟩

/-- C24: a status word other than `0x9000` is not fatal to
`apduWaitForResponse`.  For every frame with code `MYTERM_OK`, however it is cut
into reads, whose payload is `data` followed by the two status bytes `s1 s2`
(with a capacity `cap` that holds `data`): the function returns `MYTERM_OK`,
copies `data` to `resdata`, sets `*reslen` to the number of bytes of `data`, and
writes the raw `s1` and `s2` to `*sw1` and `*sw2`.  The return value, the data
and the length are given by `data` alone, whatever `s1` and `s2`; the status
bytes only decide whether `apduPrintError` is called, which happens exactly when
they are not `90 00`. -/
theorem apduWaitForResponse_status_not_fatal (chunks : List (List Nat)) (stack : List Nat)
    (under : Nat → Nat) (data rd : List Nat) (s1 s2 cap o1 o2 : Nat)
    (hstack : stack.length = BUFFER_SIZE)
    (hrecv : chunks.flatten.length ≤ BUFFER_SIZE + 2)
    (hframe : reassemble chunks = .frame MYTERM_OK (data ++ [s1, s2]))
    (hs1 : s1 < 256) (hs2 : s2 < 256) (hcap : data.length ≤ cap) (hrd : cap ≤ rd.length) :
    apduWaitForResponse (chunks.map .got) stack under ⟨some rd, some cap, some o1, some o2⟩ =
      .ret ⟨(MYTERM_OK : Nat), ⟨some (data ++ rd.drop data.length), some data.length,
        some s1, some s2⟩, decide (s1 ≠ APDU_SW1_OK ∨ s2 ≠ APDU_SW2_OK)⟩ := by
  have hB : BUFFER_SIZE = 255 := rfl
  have hw := waitResponse_reassemble stack BUFFER_SIZE (le_of_eq hB) (by omega) chunks hrecv
  rw [hframe] at hw
  have hlen : (data ++ [s1, s2]).length = data.length + 2 := by simp
  simp only [hlen] at hw
  obtain ⟨-, i2⟩ := waitResponse_inv _ stack _ hstack hw
  simp only at i2
  unfold apduWaitForResponse
  rw [hw]
  simp only
  have l1 := localAt_of_le under (data ++ [s1, s2] ++ List.drop (data.length + 2) stack)
    (data.length + 2) 2 (by omega)
  have l2 := localAt_of_le under (data ++ [s1, s2] ++ List.drop (data.length + 2) stack)
    (data.length + 2) 1 (by omega)
  have g1 : (data ++ [s1, s2] ++ List.drop (data.length + 2) stack).getD (data.length + 2 - 2) 0
      = s1 := by
    rw [List.append_assoc, show data.length + 2 - 2 = data.length by omega,
      List.getD_append_right _ _ _ _ (le_refl _)]
    simp
  have g2 : (data ++ [s1, s2] ++ List.drop (data.length + 2) stack).getD (data.length + 2 - 1) 0
      = s2 := by
    rw [List.append_assoc, show data.length + 2 - 1 = data.length + 1 by omega,
      List.getD_append_right _ _ _ _ (by omega)]
    simp
  rw [g1, Nat.mod_eq_of_lt hs1] at l1
  rw [g2, Nat.mod_eq_of_lt hs2] at l2
  simp only [Nat.cast_ofNat, Nat.cast_one, Nat.cast_add] at l1 l2
  have e1 : ((((data.length : Int) + 2) - 2) % 256).toNat = data.length := by omega
  have e2 : (cap : Int) ≥ ((data.length : Int) + 2) - 2 := by omega
  have e3 : List.take data.length (data ++ [s1, s2] ++ List.drop (data.length + 2) stack)
      = data := by
    rw [List.append_assoc, List.take_left]
  have e4 : memcpyInto rd 0 data = some (data ++ List.drop data.length rd) := by
    unfold memcpyInto
    rw [if_pos (by omega)]
    simp
  simp only [Nat.cast_add, Nat.cast_ofNat]
  rw [if_neg (by simp), if_pos e2, l1, l2, e1, e3, e4]
  rfl

set_option maxRecDepth 100000 in
/-- Witness of C24 on the frame `0A 04 41 42 6A 82` delivered in two reads: the
status `6A 82` is reported as it is, with the data `41 42`. -/
theorem apduWaitForResponse_status_not_fatal_witness :
    apduWaitForResponse ([[0x0A, 0x04, 0x41, 0x42], [0x6A, 0x82]].map .got)
        (List.replicate 255 0) (fun _ => 0)
        ⟨some (List.replicate 255 0), some 255, some 0, some 0⟩ =
      .ret ⟨(MYTERM_OK : Nat), ⟨some ([0x41, 0x42] ++ (List.replicate 255 0).drop
          [0x41, 0x42].length), some [0x41, 0x42].length, some 0x6A, some 0x82⟩,
        decide (0x6A ≠ APDU_SW1_OK ∨ 0x82 ≠ APDU_SW2_OK)⟩ :=
  apduWaitForResponse_status_not_fatal [[0x0A, 0x04, 0x41, 0x42], [0x6A, 0x82]]
    (List.replicate 255 0) (fun _ => 0) [0x41, 0x42] (List.replicate 255 0) 0x6A 0x82 255 0 0
    (by decide) (by decide) (by decide) (by decide) (by decide) (by decide) (by decide)

set_option maxRecDepth 100000 in
/-- C25 (code defect): with the 261 bytes of `longHeaderMemory` and a length of
255, the header of the object takes 259 bytes and is read past the 255 bytes
supplied without being rejected; the 8-bit `pindex` is then 3, and the leaf
returned, of declared length 2, holds the bytes `81 81` found at positions 3 and
4, not the bytes `AA BB` that follow the header. -/
theorem tlvParseData_value_position_wraps :
    tlvParseData 1 (mem longHeaderMemory) 255
      = some (some (.prim 0x81818101 2 1 [0x81, 0x81])) ∧
    headerSize (mem longHeaderMemory) = 259 ∧
    (List.range 2).map (fun i => byteAt (mem longHeaderMemory) (259 + i)) = [0xAA, 0xBB] := by
  decide

/-- C26: reads that return 0 bytes are transparent to `waitResponse`.  Inserting
any number `k` of zero-byte reads at any place of a sequence of reads, before
the header or between the chunks of a frame, leaves the whole result of
`waitResponse` as it was (the returned code, `*len` and the buffer, and likewise
a call that is still waiting); hence the result is that of the sequence with
all its zero-byte reads removed. -/
theorem waitResponse_zero_reads_transparent (pre post reads : List Read) (k : Nat)
    (buffer : List Nat) (len : Nat) :
    waitResponse (pre ++ List.replicate k (.got []) ++ post) buffer len =
      waitResponse (pre ++ post) buffer len ∧
    waitResponse reads buffer len =
      waitResponse (reads.filter (fun r => decide (r ≠ .got []))) buffer len := by
  unfold waitResponse
  rw [List.append_assoc]
  exact ⟨waitLoop_insert_zero pre post k _ _ _ _ _ _, (waitLoop_filter reads _ _ _ _ _ _).symm⟩

set_option maxHeartbeats 8000000 in
/-- C27 (code defect): `apduPrintError` first prints the status word as `0x`,
four hexadecimal digits and a space, and then one message, except in two cases.
For `sw1 = 0x91` the `case` has no `break` and runs on into `case 0x92`, so two
messages are printed for every `sw2`; for `sw1 = 0x66` the `default` of the
inner `switch` is empty, so no message is printed when `sw2` is none of `00`,
`01`, `02`, `03`, `04`, `69`.  The number of strings printed, status word
included, is 3, 1, and 2 in all other cases. -/
theorem apduPrintError_message_count (sw1 sw2 : Nat) :
    (apduPrintError sw1 sw2).head? = some ("0x" ++ hex2 sw1 ++ hex2 sw2 ++ " ") ∧
    (apduPrintError sw1 sw2).length =
      (if sw1 = 0x91 then 3
       else if sw1 = 0x66 ∧ sw2 ∉ [0x00, 0x01, 0x02, 0x03, 0x04, 0x69] then 1 else 2) ∧
    apduPrintError 0x66 0x05 = ["0x6605 "] ∧
    apduPrintError 0x91 0x00 = ["0x9100 ", "OK.\n",
      "Information: Writing to EEPROM successful after 0 attempts.\n"] := by
  refine ⟨rfl, ?_, by decide, by decide⟩
  unfold apduPrintError
  simp only [List.length_cons]
  split
  all_goals first
    | solve | simp
    | solve | (simp only [apduPrintError_0x92_length]; simp)
    | solve | (simp only [List.length_append, apduPrintError_0x92_length]; split <;> simp)
    | solve | (split <;> simp_all)
    | solve | (split_ifs <;> simp_all)

/-- C28: a failed decode is treated by the lookup like an absent tag.  For
every tag, `tlvObjectLookForTag` applied to `NULL` returns `NULL`; so it does on
the result of the failed decode of `5A 05 41`, a leaf that declares 5 value
bytes where 1 remains. -/
theorem tlvObjectLookForTag_of_failed_decode (tag : Nat) :
    tlvObjectLookForTag none tag = some none ∧
    tlvParseData 1 (mem [0x5A, 0x05, 0x41]) 3 = some none ∧
    (tlvParseData 1 (mem [0x5A, 0x05, 0x41]) 3).map (fun r => tlvObjectLookForTag r tag)
      = some (some none) :=
  ⟨rfl, rfl, rfl⟩

/-- C29 (code defect): on the 5 bytes `70 03 5A 81 FD` the loop over children
makes no progress.  The nested object `5A 81 FD` starts at position 2 and
declares 253 value bytes, so the scan ends at `2 + 3 + 253 = 258`, which the
8-bit `pindex` holds as 2: the iteration ends where it started, the recursive
call gets the length 0 and returns `NULL`, and the loop runs again from
position 2, for ever.  No amount of fuel lets `tlvParseData` return. -/
theorem tlvParseData_child_loop_no_progress (fuel : Nat) :
    scanNext (mem [0x70, 0x03, 0x5A, 0x81, 0xFD]) 2 = some 2 ∧
    tlvParseData fuel (mem [0x70, 0x03, 0x5A, 0x81, 0xFD]) 5 = none := by
  refine ⟨rfl, ?_⟩
  have hloop : ∀ (parse : (Nat → Nat) → Nat → Option (Option TLVobject)) (f : Nat)
      (acc : List (Option TLVobject)),
      childLoop parse f (mem [0x70, 0x03, 0x5A, 0x81, 0xFD]) 5 2 acc = none := by
    intro parse f
    induction f with
    | zero => intro acc; rfl
    | succ f ih =>
      intro acc
      have hs : skipTag (mem [0x70, 0x03, 0x5A, 0x81, 0xFD]) 2 = some 3 := rfl
      have hl : readLength (mem [0x70, 0x03, 0x5A, 0x81, 0xFD]) 3 = (253, 5) := rfl
      rw [childLoop, if_pos (by decide), hs]
      simp only [hl]
      cases parse (fun i => mem [0x70, 0x03, 0x5A, 0x81, 0xFD] (2 + i)) ((258 % 256 + 256 - 2) % 256) with
      | none => rfl
      | some child => exact ih _
  cases fuel with
  | zero => rfl
  | succ f =>
    have htag : readTag (mem [0x70, 0x03, 0x5A, 0x81, 0xFD]) 5 = some (some (0x70, 1)) := rfl
    have hl : readLength (mem [0x70, 0x03, 0x5A, 0x81, 0xFD]) 1 = (3, 2) := rfl
    rw [tlvParseData_cons_step f _ 5 0x70 1 3 2 (by decide) htag hl (by decide) (by decide),
      hloop]
    rfl

/-- C30 (code defect): `tlvParseData` reads buffer bytes at indices that are not
below `length`.  The two memories `5F 24 02 25 12` and `5F 24 00 00 00` hold the
same first 2 bytes, and with `length = 2` the results differ: the length byte is
read at index 2 and the value at indices 3 and 4. -/
theorem tlvParseData_reads_past_length :
    (∀ i, i < 2 → mem [0x5F, 0x24, 0x02, 0x25, 0x12] i = mem [0x5F, 0x24] i) ∧
    tlvParseData 1 (mem [0x5F, 0x24, 0x02, 0x25, 0x12]) 2
      = some (some (.prim 0x5F24 2 1 [0x25, 0x12])) ∧
    tlvParseData 1 (mem [0x5F, 0x24]) 2 = some (some (.prim 0x5F24 0 1 [])) := by
  decide

set_option maxRecDepth 100000 in
/-- C31 (counterexample): with `lc = 255` and Le present the envelope has 263
bytes, the `uint8_t` parameter `len` of `sendCommand` receives `263 - 256 = 7`,
and the bytes handed to the serial port are `0C 07` and the first 7 bytes of the
envelope only.  With `lc = 248` and Le present the envelope has 256 bytes, `len`
is 0 and nothing is sent. -/
theorem apduSendCommand_long_envelope_cut :
    apduCmdlen 255 true = 263 ∧
    apduSendCommand (fun _ => 0) 0x00 0xA4 0x04 0x00 255 (some (fun _ => 0x41)) 0x00 true
      = [0x0C, 7, 0x40, 0x01, 0x00, 0xA4, 0x04, 0x00, 0xFF] ∧
    apduCmdlen 248 true = 256 ∧
    apduSendCommand (fun _ => 0) 0x00 0xA4 0x04 0x00 248 (some (fun _ => 0x41)) 0x00 true
      = [] := by
  decide

/-- C31 (amended): for bytes `cla`, `ins`, `p1`, `p2`, `le` and data `d` of
`lc = d.length` bytes, Le present or absent, such that the length
`L = 6 + (lc > 0 ? 1 + lc : 0) + (Le present ? 1 : 0)` of the envelope is at most
255 (that is `lc ≤ 247` with Le, `lc ≤ 248` without), the bytes that
`apduSendCommand` hands to the serial port through `sendCommand` are `0C L`
followed by the complete envelope `40 01 cla ins p1 p2`, `lc` and `d` if
`lc > 0`, `le` if Le is present: `L + 2` bytes, none of the envelope dropped. -/
theorem apduSendCommand_frame (heap : Nat → Nat) (cla ins p1 p2 le : Nat)
    (isLePresent : Bool) (d : List Nat) (data : Option (Nat → Nat))
    (hcla : cla < 256) (hins : ins < 256) (hp1 : p1 < 256) (hp2 : p2 < 256) (hle : le < 256)
    (hdata : ∀ i, i < d.length → ∃ m, data = some m ∧ byteAt m i = d.getD i 0)
    (hL : 6 + (if 0 < d.length then 1 + d.length else 0) + (if isLePresent then 1 else 0)
      ≤ 255) :
    apduSendCommand heap cla ins p1 p2 d.length data le isLePresent =
      [MYTERM_COMMAND,
        6 + (if 0 < d.length then 1 + d.length else 0) + (if isLePresent then 1 else 0)] ++
      ([0x40, 0x01, cla, ins, p1, p2] ++ (if 0 < d.length then d.length :: d else [])
        ++ (if isLePresent then [le] else [])) ∧
    (apduSendCommand heap cla ins p1 p2 d.length data le isLePresent).length =
      6 + (if 0 < d.length then 1 + d.length else 0) + (if isLePresent then 1 else 0) + 2 := by
  have hc := apduCmdlen_eq d.length isLePresent
  have hlc : d.length ≤ 255 := by
    split at hL <;> omega
  have hs := apduSendCommand_of_short heap cla ins p1 p2 d.length data le isLePresent
    (by rw [hc]; exact hL)
  have he := apduEnvelope_spec heap cla ins p1 p2 le isLePresent d data hcla hins hp1 hp2 hle
    hlc hdata
  rw [hs, he, hc]
  refine ⟨rfl, ?_⟩
  cases isLePresent <;> rcases Nat.eq_zero_or_pos d.length with h | h <;>
    simp [h] <;> omega

/-- Witness of the amended C31 on the SELECT command of the driver: the 24 bytes
`0C 16` and the 22 bytes of the envelope. -/
theorem apduSendCommand_frame_witness :
    apduSendCommand (fun _ => 0xFF) 0x00 0xA4 0x04 0x00 ddfName.length (some (mem ddfName))
        0x00 true =
      [MYTERM_COMMAND,
        6 + (if 0 < ddfName.length then 1 + ddfName.length else 0) + (if true then 1 else 0)] ++
      ([0x40, 0x01, 0x00, 0xA4, 0x04, 0x00] ++
        (if 0 < ddfName.length then ddfName.length :: ddfName else [])
        ++ (if true then [0x00] else [])) ∧
    (apduSendCommand (fun _ => 0xFF) 0x00 0xA4 0x04 0x00 ddfName.length (some (mem ddfName))
        0x00 true).length =
      6 + (if 0 < ddfName.length then 1 + ddfName.length else 0) + (if true then 1 else 0) + 2 :=
  apduSendCommand_frame (fun _ => 0xFF) 0x00 0xA4 0x04 0x00 0x00 true ddfName
    (some (mem ddfName)) (by decide) (by decide) (by decide) (by decide) (by decide)
    (fun i hi => ⟨mem ddfName, rfl, by
      have hi14 : i < 14 := hi
      interval_cases i <;> rfl⟩) (by decide)

/-- C32: when a frame with code `MYTERM_OK`, however it is cut into reads, has a
payload made of `data` and the two status bytes `s1 s2`, and the capacity `cap`
that the caller put in `*reslen` is smaller than the number of bytes of `data`,
`apduWaitForResponse` returns `MYTERM_OK`, writes `s1` and `s2` to `*sw1` and
`*sw2` (when these pointers are not `NULL`), and leaves the array behind
`resdata` and `*reslen` as they were; `apduPrintError` is called only when the
status is not `90 00`. -/
theorem apduWaitForResponse_capacity_too_small (chunks : List (List Nat)) (stack : List Nat)
    (under : Nat → Nat) (data rd : List Nat) (s1 s2 cap : Nat) (o1 o2 : Option Nat)
    (hstack : stack.length = BUFFER_SIZE)
    (hrecv : chunks.flatten.length ≤ BUFFER_SIZE + 2)
    (hframe : reassemble chunks = .frame MYTERM_OK (data ++ [s1, s2]))
    (hs1 : s1 < 256) (hs2 : s2 < 256) (hcap : cap < data.length) :
    apduWaitForResponse (chunks.map .got) stack under ⟨some rd, some cap, o1, o2⟩ =
      .ret ⟨(MYTERM_OK : Nat), ⟨some rd, some cap, o1.map (fun _ => s1), o2.map (fun _ => s2)⟩,
        decide (s1 ≠ APDU_SW1_OK ∨ s2 ≠ APDU_SW2_OK)⟩ := by
  have hB : BUFFER_SIZE = 255 := rfl
  have hw := waitResponse_reassemble stack BUFFER_SIZE (le_of_eq hB) (by omega) chunks hrecv
  rw [hframe] at hw
  have hlen : (data ++ [s1, s2]).length = data.length + 2 := by simp
  simp only [hlen] at hw
  unfold apduWaitForResponse
  rw [hw]
  simp only
  have l1 := localAt_of_le under (data ++ [s1, s2] ++ List.drop (data.length + 2) stack)
    (data.length + 2) 2 (by omega)
  have l2 := localAt_of_le under (data ++ [s1, s2] ++ List.drop (data.length + 2) stack)
    (data.length + 2) 1 (by omega)
  have g1 : (data ++ [s1, s2] ++ List.drop (data.length + 2) stack).getD (data.length + 2 - 2) 0
      = s1 := by
    rw [List.append_assoc, show data.length + 2 - 2 = data.length by omega,
      List.getD_append_right _ _ _ _ (le_refl _)]
    simp
  have g2 : (data ++ [s1, s2] ++ List.drop (data.length + 2) stack).getD (data.length + 2 - 1) 0
      = s2 := by
    rw [List.append_assoc, show data.length + 2 - 1 = data.length + 1 by omega,
      List.getD_append_right _ _ _ _ (by omega)]
    simp
  rw [g1, Nat.mod_eq_of_lt hs1] at l1
  rw [g2, Nat.mod_eq_of_lt hs2] at l2
  simp only [Nat.cast_ofNat, Nat.cast_one, Nat.cast_add] at l1 l2
  have e2 : ¬ ((cap : Int) ≥ ((data.length : Int) + 2) - 2) := by omega
  simp only [Nat.cast_add, Nat.cast_ofNat]
  rw [if_neg (by simp), if_neg e2, l1, l2]

set_option maxRecDepth 100000 in
/-- Witness of C32 on the frame `0A 05 41 42 43 90 00` with a capacity of 2 for
its 3 data bytes. -/
theorem apduWaitForResponse_capacity_too_small_witness :
    apduWaitForResponse ([[0x0A, 0x05, 0x41, 0x42, 0x43, 0x90, 0x00]].map .got)
        (List.replicate 255 0) (fun _ => 0) ⟨some [7, 7], some 2, some 0, some 0⟩ =
      .ret ⟨(MYTERM_OK : Nat), ⟨some [7, 7], some 2, (some 0).map (fun _ => 0x90),
        (some 0).map (fun _ => 0x00)⟩, decide (0x90 ≠ APDU_SW1_OK ∨ 0x00 ≠ APDU_SW2_OK)⟩ :=
  apduWaitForResponse_capacity_too_small [[0x0A, 0x05, 0x41, 0x42, 0x43, 0x90, 0x00]]
    (List.replicate 255 0) (fun _ => 0) [0x41, 0x42, 0x43] [7, 7] 0x90 0x00 2 (some 0) (some 0)
    (by decide) (by decide) (by decide) (by decide) (by decide) (by decide)

end APDU
